import Mathlib

/-!
# E20 simulator and cache simulator: a shallow embedding

Two programs are embedded here.

* `e20sim.cpp`  : `extract_bits`, `sign_extend`, `execute_instruction`, `simulate`.
* `simcache.cpp`: the loop bodies of `simulate_one_cache` and `simulate_two_cache`,
  the cache construction of `main`, and the loops themselves.

Conventions.

* `uint16_t` values are naturals; every place where C++ truncates to 16 bits is an
  explicit `u16` (for an `int` that may be negative: `u16i`).
* `memory` and `registers` are total maps `Nat → Nat`; only the cells below
  `MEM_SIZE` (resp. `NUM_REGS`) exist in the source.
* `cache_cell.tag` and `cache_cell.last_access` are `int` in the source and `Int` here;
  the increment `last_access += 1` is taken through `int32`, the two's-complement
  wrap-around of a 32-bit `int` (signed overflow is undefined behaviour in the source).
* Cache geometry parameters (`int` in the source) are sizes and are naturals here;
  on non-negative operands C++ `/` and `%` are the natural-number ones.
* An out-of-range vector access is undefined behaviour in the source.  Here an
  out-of-range read yields the default cell and an out-of-range write does nothing;
  the theorems that depend on it assume the shape that `main` builds.
* A `while` loop is a function with a fuel argument (`none` = fuel exhausted).
-/

namespace E20

/-! ## Constants and word arithmetic -/

def NUM_REGS : Nat := 8
def MEM_SIZE : Nat := 1 <<< 13
def REG_SIZE : Nat := 1 <<< 16

/-- Conversion of a non-negative value to `uint16_t`. -/
def u16 (n : Nat) : Nat := n % 65536

/-- Conversion of a (possibly negative) `int` to `uint16_t`. -/
def u16i (z : Int) : Nat := (z % 65536).toNat

/-- Assignment `f[i] = v` on an array modelled as a total map. -/
def write (f : Nat → Nat) (i v : Nat) : Nat → Nat :=
  fun j => if j = i then v else f j

/-! ## e20sim.cpp -/

/-- Source: `extract_bits(instruction, inner, outer)`, returning `uint16_t`. -/
def extract_bits (instruction inner outer : Nat) : Nat :=
  let val := (1 <<< (outer - inner + 1)) - 1
  u16 ((instruction >>> inner) &&& val)

/-- Source: `sign_extend(value)`, returning `uint16_t`. -/
def sign_extend (value : Nat) : Nat :=
  let value := if value &&& 0b1000000 ≠ 0 then value ||| 0b1111111110000000 else value
  u16 (value &&& 0xFFFF)

/-- What one call of `execute_instruction` leaves behind: its return value and the
two arrays it mutates. -/
structure Exec where
  next_pc : Nat
  memory : Nat → Nat
  registers : Nat → Nat

/-- Source: the `switch (opcode)` of `execute_instruction`; `none` is the
`default:` arm (`exit(EXIT_FAILURE)`). -/
def execute_switch (pc : Nat) (memory registers : Nat → Nat) : Option Exec :=
  let instruction := memory (pc % MEM_SIZE)
  let opcode := extract_bits instruction 13 15
  let next_pc := u16 (pc + 1)
  let ander := 0xFFFF
  match opcode with
  | 0 =>
    let rg1 := extract_bits instruction 10 12
    let rg2 := extract_bits instruction 7 9
    let regDst := extract_bits instruction 4 6
    let imm4 := extract_bits instruction 0 3
    let registers1 :=
      if regDst ≠ 0 then
        match imm4 with
        | 0 => write registers regDst (u16 ((registers rg1 + registers rg2) &&& ander))
        | 1 => write registers regDst
                 (u16i (((registers rg1 : Int) - (registers rg2 : Int)) % 65536))
        | 2 => write registers regDst (u16 ((registers rg1 ||| registers rg2) &&& ander))
        | 3 => write registers regDst (u16 ((registers rg1 &&& registers rg2) &&& ander))
        | 4 => write registers regDst (if registers rg1 < registers rg2 then 1 else 0)
        | _ => registers
      else registers
    let next_pc1 := if imm4 = 0b1000 then u16 (registers1 rg1 &&& 0x1FFF) else next_pc
    some { next_pc := next_pc1, memory := memory, registers := registers1 }
  | 1 =>
    let rg1 := extract_bits instruction 10 12
    let regDst := extract_bits instruction 7 9
    let imm := sign_extend (extract_bits instruction 0 6)
    let registers1 :=
      if regDst ≠ 0 then write registers regDst (u16 ((registers rg1 + imm) &&& 0xFFFF))
      else registers
    some { next_pc := next_pc, memory := memory, registers := registers1 }
  | 2 =>
    let imm := extract_bits instruction 0 12
    some { next_pc := imm, memory := memory, registers := registers }
  | 3 =>
    let imm := extract_bits instruction 0 12
    some { next_pc := imm, memory := memory, registers := write registers 7 (u16 (pc + 1)) }
  | 4 =>
    let rg1 := extract_bits instruction 10 12
    let regDst := extract_bits instruction 7 9
    let imm := sign_extend (extract_bits instruction 0 6)
    let addr := (registers rg1 + imm) &&& (MEM_SIZE - 1)
    let registers1 := if regDst ≠ 0 then write registers regDst (memory addr) else registers
    some { next_pc := next_pc, memory := memory, registers := registers1 }
  | 5 =>
    let rg1 := extract_bits instruction 10 12
    let rg2 := extract_bits instruction 7 9
    let imm := sign_extend (extract_bits instruction 0 6)
    let addr := (registers rg1 + imm) &&& (MEM_SIZE - 1)
    some { next_pc := next_pc, memory := write memory addr (registers rg2),
           registers := registers }
  | 6 =>
    let rg1 := extract_bits instruction 10 12
    let rg2 := extract_bits instruction 7 9
    let imm := sign_extend (extract_bits instruction 0 6)
    let next_pc1 := if registers rg1 = registers rg2 then u16 (pc + 1 + imm) else next_pc
    some { next_pc := next_pc1, memory := memory, registers := registers }
  | 7 =>
    let rg1 := extract_bits instruction 10 12
    let regDst := extract_bits instruction 7 9
    let imm := sign_extend (extract_bits instruction 0 6)
    let registers1 :=
      if regDst ≠ 0 then write registers regDst (if registers rg1 < imm then 1 else 0)
      else registers
    some { next_pc := next_pc, memory := memory, registers := registers1 }
  | _ => none

/-- Source: `execute_instruction(pc, memory, registers)`: the switch, then
`registers[0] = 0`, then `return next_pc`. -/
def execute_instruction (pc : Nat) (memory registers : Nat → Nat) : Option Exec :=
  (execute_switch pc memory registers).map
    fun r => { r with registers := write r.registers 0 0 }

/-- The globals `pc`, `memory`, `registers` of e20sim together with the local
`halted` of `simulate`. -/
structure Machine where
  pc : Nat
  memory : Nat → Nat
  registers : Nat → Nat
  halted : Bool

/-- Source: one iteration of the `while (!halted)` loop of `simulate`; `none` when
`execute_instruction` exits the process. -/
def simulate_body (s : Machine) : Option Machine :=
  match execute_instruction s.pc s.memory s.registers with
  | none => none
  | some r =>
    some { pc := r.next_pc, memory := r.memory, registers := r.registers,
           halted := decide (r.next_pc % MEM_SIZE = s.pc) }

/-- Source: `simulate()`, from an arbitrary machine state with fuel for the loop.
`some s` is the state when the loop is left; `none` is fuel exhausted or abort. -/
def simulate_loop : Nat → Machine → Option Machine
  | 0, s => if s.halted then some s else none
  | fuel + 1, s =>
    if s.halted then some s
    else
      match simulate_body s with
      | none => none
      | some s1 => simulate_loop fuel s1

/-- Source: `simulate()` as `main` calls it: `halted = false` on entry. -/
def simulate (fuel : Nat) (pc : Nat) (memory registers : Nat → Nat) : Option Machine :=
  simulate_loop fuel { pc := pc, memory := memory, registers := registers, halted := false }

/-- The state after `n` iterations of the loop of `simulate` (the loop is left, and the
state stays, once `halted` is set). -/
def simulate_steps : Nat → Machine → Option Machine
  | 0, s => some s
  | n + 1, s =>
    if s.halted then some s
    else
      match simulate_body s with
      | none => none
      | some s1 => simulate_steps n s1

/-! ## simcache.cpp -/

/-- The value an `int` (32 bits, two's complement) holds when the arithmetic result is
`z`: the representative of `z` modulo 2^32 in [-2^31, 2^31). -/
def int32 (z : Int) : Int := (z + 2147483648) % 4294967296 - 2147483648

/-- Source: `struct cache_cell`.  `tag` and `last_access` are `int`; the only arithmetic on
them is `last_access += 1`, which is taken through `int32`. -/
structure cache_cell where
  valid : Bool
  tag : Int
  last_access : Int
deriving DecidableEq

instance : Inhabited cache_cell := ⟨⟨false, 0, 0⟩⟩

/-- The `cache_name` argument of `print_log_entry`: the strings "L1" and "L2". -/
inductive cache_name where
  | L1
  | L2
deriving DecidableEq

/-- The `status` argument of `print_log_entry`: the strings "HIT", "MISS", "SW". -/
inductive status where
  | HIT
  | MISS
  | SW
deriving DecidableEq

/-- One call of `print_log_entry(cache_name, status, pc, addr, row)`. -/
structure log_entry where
  name : cache_name
  kind : status
  pc : Nat
  addr : Nat
  row : Nat
deriving DecidableEq

/-- The four parameters `size, assoc, blocksize, rows` that the simulators take per level. -/
structure level where
  size : Nat
  assoc : Nat
  blocksize : Nat
  rows : Nat
deriving DecidableEq

/-- Source (`main`): `rows = size / (assoc * blocksize)`. -/
def make_level (size assoc blocksize : Nat) : level :=
  { size := size, assoc := assoc, blocksize := blocksize,
    rows := size / (assoc * blocksize) }

/-- Source (`main`): the nested loops that build a cache of `rows` sets of `assoc`
cells `{valid = false, tag = 0, last_access = 0}`. -/
def init_cache (rows assoc : Nat) : List (List cache_cell) :=
  List.replicate rows (List.replicate assoc { valid := false, tag := 0, last_access := 0 })

/-- The instruction fields computed at the head of each loop iteration. -/
structure Fields where
  opcode : Nat
  regA : Nat
  regB : Nat
  regC : Nat
  lsb : Nat
  imm13 : Nat
  imm7 : Int
  imm_slti : Nat

/-- Source: the field extraction at the head of the loop body (identical in both
simulators).  The test `w >> 6 & 0b1 == 0b1` parses as `(w >> 6) & (0b1 == 0b1)`. -/
def decode (w : Nat) : Fields :=
  let imm7u := w &&& 0b1111111
  let negative : Bool :=
    decide (((w >>> 6) &&& (if (0b1 : Nat) = 0b1 then 1 else 0)) ≠ 0)
  { opcode := u16 (w >>> 13)
    regA := u16 ((w >>> 10) &&& 0b111)
    regB := u16 ((w >>> 7) &&& 0b111)
    regC := u16 ((w >>> 4) &&& 0b111)
    lsb := u16 (w &&& 0b1111)
    imm13 := u16 (w &&& 0b1111111111111)
    imm7 :=
      if negative then (((imm7u ^^^ 0b1111111) + 1 : Nat) : Int) * -1 else (imm7u : Int)
    imm_slti :=
      if negative then u16 (((u16 imm7u ^^^ 0b1111111) + 1) ||| 0b1111111110000000)
      else u16 imm7u }

/-- Source: `mem_addr = (regs[regA] + imm7) & 0b1111111111111` on `int`; on a
two's-complement `int` the mask is the remainder in `[0, 8192)`. -/
def mem_addr (rA : Nat) (imm7 : Int) : Nat :=
  (((rA : Int) + imm7) % 8192).toNat

/-- Source: `row = (mem_addr / blocksize) % rows`. -/
def block_row (l : level) (addr : Nat) : Nat :=
  let block_id := addr / l.blocksize
  block_id % l.rows

/-- Source: `tag = (mem_addr / blocksize) / rows`. -/
def block_tag (l : level) (addr : Nat) : Int :=
  let block_id := addr / l.blocksize
  ((block_id / l.rows : Nat) : Int)

/-- What the scan of a load leaves behind: `hit`, the set, and `lru`. -/
structure Scan where
  hit : Bool
  set : List cache_cell
  lru : Nat

/-- Source: the `for (size_t i = 0; i < assoc; ++i)` loop of `case 4` (lw), with
`n` iterations left, on the addressed set `cache[row]`. -/
def lw_loop (tag : Int) : Nat → Nat → List cache_cell → Nat → Int → Scan
  | 0, _, set, lru, _ => { hit := false, set := set, lru := lru }
  | n + 1, i, set, lru, lru_last_access =>
    let c := set.getD i default
    if c.valid && c.tag == tag then
      { hit := true, set := set.set i { c with last_access := 0 }, lru := lru }
    else
      let lru1 := if c.last_access > lru_last_access then i else lru
      let lla1 := if c.last_access > lru_last_access then c.last_access else lru_last_access
      lw_loop tag n (i + 1) (set.set i { c with last_access := int32 (c.last_access + 1) })
        lru1 lla1

/-- Source: the `for` loop of `case 5` (sw): the same scan without the hit test. -/
def sw_loop : Nat → Nat → List cache_cell → Nat → Int → List cache_cell × Nat
  | 0, _, set, lru, _ => (set, lru)
  | n + 1, i, set, lru, lru_last_access =>
    let c := set.getD i default
    let lru1 := if c.last_access > lru_last_access then i else lru
    let lla1 := if c.last_access > lru_last_access then c.last_access else lru_last_access
    sw_loop n (i + 1) (set.set i { c with last_access := int32 (c.last_access + 1) })
      lru1 lla1

/-- Source: `cache[row][lru].valid = true; .tag = tag; .last_access = 0`. -/
def install (set : List cache_cell) (lru : Nat) (tag : Int) : List cache_cell :=
  set.set lru { valid := true, tag := tag, last_access := 0 }

/-- Source: the read resolution of `case 4` on one set: scan, then install on a miss. -/
def lw_set (tag : Int) (assoc : Nat) (set : List cache_cell) : Bool × List cache_cell :=
  let r := lw_loop tag assoc 0 set 0 0
  if r.hit then (true, r.set) else (false, install r.set r.lru tag)

/-- Source: the write resolution of `case 5` on one set: scan, then install. -/
def sw_set (tag : Int) (assoc : Nat) (set : List cache_cell) : List cache_cell :=
  let r := sw_loop assoc 0 set 0 0
  install r.1 r.2 tag

/-- Source: the read resolution of one level for address `addr`; returns `hit` and
the updated cache. -/
def load_level (l : level) (cache : List (List cache_cell)) (addr : Nat) :
    Bool × List (List cache_cell) :=
  let row := block_row l addr
  let tag := block_tag l addr
  let r := lw_set tag l.assoc (cache.getD row [])
  (r.1, cache.set row r.2)

/-- Source: the write resolution of one level for address `addr`. -/
def store_level (l : level) (cache : List (List cache_cell)) (addr : Nat) :
    List (List cache_cell) :=
  let row := block_row l addr
  let tag := block_tag l addr
  cache.set row (sw_set tag l.assoc (cache.getD row []))

/-- The state of `simulate_one_cache`: its array and by-value parameters, the
output stream of `print_log_entry`, and the local `halt`. -/
structure Sim1 where
  memory : Nat → Nat
  regs : Nat → Nat
  pc : Nat
  cache : List (List cache_cell)
  log : List log_entry
  halt : Bool

/-- The state of `simulate_two_cache`. -/
structure Sim2 where
  memory : Nat → Nat
  regs : Nat → Nat
  pc : Nat
  l1_cache : List (List cache_cell)
  l2_cache : List (List cache_cell)
  log : List log_entry
  halt : Bool

/-- Source: one iteration of the `while (!halt)` loop of `simulate_one_cache`:
the `switch (opcode)`, then `regs[0] = 0`. -/
def one_cache_body (l1 : level) (s : Sim1) : Sim1 :=
  let d := decode (s.memory (s.pc % 8192))
  let s1 : Sim1 :=
    match d.opcode with
    | 0 =>
      match d.lsb with
      | 0 => { s with regs := write s.regs d.regC (u16 (s.regs d.regA + s.regs d.regB)),
                      pc := u16 (s.pc + 1) }
      | 1 => { s with regs := write s.regs d.regC
                                (u16i ((s.regs d.regA : Int) - (s.regs d.regB : Int))),
                      pc := u16 (s.pc + 1) }
      | 2 => { s with regs := write s.regs d.regC (u16 (s.regs d.regA ||| s.regs d.regB)),
                      pc := u16 (s.pc + 1) }
      | 3 => { s with regs := write s.regs d.regC (u16 (s.regs d.regA &&& s.regs d.regB)),
                      pc := u16 (s.pc + 1) }
      | 4 => { s with regs := write s.regs d.regC
                                (if s.regs d.regA < s.regs d.regB then 1 else 0),
                      pc := u16 (s.pc + 1) }
      | 8 => { s with pc := s.regs d.regA }
      | _ => s
    | 1 => { s with regs := write s.regs d.regB (u16i ((s.regs d.regA : Int) + d.imm7)),
                    pc := u16 (s.pc + 1) }
    | 2 => if s.pc = d.imm13 then { s with halt := true } else { s with pc := d.imm13 }
    | 3 => { s with regs := write s.regs 7 (u16 (s.pc + 1)), pc := d.imm13 }
    | 4 =>
      let addr := mem_addr (s.regs d.regA) d.imm7
      let r := load_level l1 s.cache addr
      let entry : log_entry :=
        { name := .L1, kind := if r.1 then .HIT else .MISS, pc := s.pc, addr := addr,
          row := block_row l1 addr }
      { s with cache := r.2, log := s.log ++ [entry],
               regs := write s.regs d.regB (s.memory (mem_addr (s.regs d.regA) d.imm7)),
               pc := u16 (s.pc + 1) }
    | 5 =>
      let addr := mem_addr (s.regs d.regA) d.imm7
      let entry : log_entry :=
        { name := .L1, kind := .SW, pc := s.pc, addr := addr, row := block_row l1 addr }
      { s with cache := store_level l1 s.cache addr, log := s.log ++ [entry],
               memory := write s.memory (mem_addr (s.regs d.regA) d.imm7) (s.regs d.regB),
               pc := u16 (s.pc + 1) }
    | 6 => { s with pc := if s.regs d.regA = s.regs d.regB
                          then u16i ((s.pc : Int) + 1 + d.imm7) else u16 (s.pc + 1) }
    | 7 => { s with regs := write s.regs d.regB (if s.regs d.regA < d.imm_slti then 1 else 0),
                    pc := u16 (s.pc + 1) }
    | _ => s
  { s1 with regs := write s1.regs 0 0 }

/-- Source: one iteration of the `while (!halt)` loop of `simulate_two_cache`. -/
def two_cache_body (l1 l2 : level) (s : Sim2) : Sim2 :=
  let d := decode (s.memory (s.pc % 8192))
  let s1 : Sim2 :=
    match d.opcode with
    | 0 =>
      match d.lsb with
      | 0 => { s with regs := write s.regs d.regC (u16 (s.regs d.regA + s.regs d.regB)),
                      pc := u16 (s.pc + 1) }
      | 1 => { s with regs := write s.regs d.regC
                                (u16i ((s.regs d.regA : Int) - (s.regs d.regB : Int))),
                      pc := u16 (s.pc + 1) }
      | 2 => { s with regs := write s.regs d.regC (u16 (s.regs d.regA ||| s.regs d.regB)),
                      pc := u16 (s.pc + 1) }
      | 3 => { s with regs := write s.regs d.regC (u16 (s.regs d.regA &&& s.regs d.regB)),
                      pc := u16 (s.pc + 1) }
      | 4 => { s with regs := write s.regs d.regC
                                (if s.regs d.regA < s.regs d.regB then 1 else 0),
                      pc := u16 (s.pc + 1) }
      | 8 => { s with pc := s.regs d.regA }
      | _ => s
    | 1 => { s with regs := write s.regs d.regB (u16i ((s.regs d.regA : Int) + d.imm7)),
                    pc := u16 (s.pc + 1) }
    | 2 => if s.pc = d.imm13 then { s with halt := true } else { s with pc := d.imm13 }
    | 3 => { s with regs := write s.regs 7 (u16 (s.pc + 1)), pc := d.imm13 }
    | 4 =>
      let addr := mem_addr (s.regs d.regA) d.imm7
      let r1 := load_level l1 s.l1_cache addr
      let s2 : Sim2 :=
        if r1.1 then
          { s with l1_cache := r1.2,
                   log := s.log ++ [{ name := .L1, kind := .HIT, pc := s.pc, addr := addr,
                                      row := block_row l1 addr }] }
        else
          let r2 := load_level l2 s.l2_cache addr
          { s with l1_cache := r1.2, l2_cache := r2.2,
                   log := s.log ++
                     [{ name := .L1, kind := .MISS, pc := s.pc, addr := addr,
                        row := block_row l1 addr },
                      { name := .L2, kind := if r2.1 then .HIT else .MISS, pc := s.pc,
                        addr := addr, row := block_row l2 addr }] }
      { s2 with regs := write s.regs d.regB (s.memory (mem_addr (s.regs d.regA) d.imm7)),
                pc := u16 (s.pc + 1) }
    | 5 =>
      let addr := mem_addr (s.regs d.regA) d.imm7
      { s with l1_cache := store_level l1 s.l1_cache addr,
               l2_cache := store_level l2 s.l2_cache addr,
               log := s.log ++
                 [{ name := .L1, kind := .SW, pc := s.pc, addr := addr,
                    row := block_row l1 addr },
                  { name := .L2, kind := .SW, pc := s.pc, addr := addr,
                    row := block_row l2 addr }],
               memory := write s.memory (mem_addr (s.regs d.regA) d.imm7) (s.regs d.regB),
               pc := u16 (s.pc + 1) }
    | 6 => { s with pc := if s.regs d.regA = s.regs d.regB
                          then u16i ((s.pc : Int) + 1 + d.imm7) else u16 (s.pc + 1) }
    | 7 => { s with regs := write s.regs d.regB (if s.regs d.regA < d.imm_slti then 1 else 0),
                    pc := u16 (s.pc + 1) }
    | _ => s
  { s1 with regs := write s1.regs 0 0 }

/-- Source: the `while (!halt)` loop of `simulate_one_cache`, with fuel. -/
def one_cache_loop (l1 : level) : Nat → Sim1 → Option Sim1
  | 0, s => if s.halt then some s else none
  | fuel + 1, s => if s.halt then some s else one_cache_loop l1 fuel (one_cache_body l1 s)

/-- Source: the `while (!halt)` loop of `simulate_two_cache`, with fuel. -/
def two_cache_loop (l1 l2 : level) : Nat → Sim2 → Option Sim2
  | 0, s => if s.halt then some s else none
  | fuel + 1, s => if s.halt then some s else two_cache_loop l1 l2 fuel (two_cache_body l1 l2 s)

/-- Source: `simulate_one_cache(memory, regs, pc, cache, size, assoc, blocksize, rows)`. -/
def simulate_one_cache (fuel : Nat) (memory regs : Nat → Nat) (pc : Nat)
    (cache : List (List cache_cell)) (l1 : level) : Option Sim1 :=
  one_cache_loop l1 fuel
    { memory := memory, regs := regs, pc := pc, cache := cache, log := [], halt := false }

/-- Source: `simulate_two_cache(memory, regs, pc, l1_cache, l2_cache, ...)`. -/
def simulate_two_cache (fuel : Nat) (memory regs : Nat → Nat) (pc : Nat)
    (l1_cache l2_cache : List (List cache_cell)) (l1 l2 : level) : Option Sim2 :=
  two_cache_loop l1 l2 fuel
    { memory := memory, regs := regs, pc := pc, l1_cache := l1_cache, l2_cache := l2_cache,
      log := [], halt := false }

/-- The state after `n` iterations of the loop of `simulate_one_cache` (the loop is
left, and the state stays, once `halt` is set). -/
def one_cache_steps (l1 : level) : Nat → Sim1 → Sim1
  | 0, s => s
  | n + 1, s => if s.halt then s else one_cache_steps l1 n (one_cache_body l1 s)

/-- The state after `n` iterations of the loop of `simulate_two_cache`. -/
def two_cache_steps (l1 l2 : level) : Nat → Sim2 → Sim2
  | 0, s => s
  | n + 1, s => if s.halt then s else two_cache_steps l1 l2 n (two_cache_body l1 l2 s)

/-! ## Vocabulary of the statements -/

/-- A cell after `last_access += 1`, `valid` and `tag` unchanged: the recency went up by
one as a 32-bit `int` (by exactly one below 2^31 - 1, see `aged_last_access`). -/
def aged (c : cache_cell) : cache_cell :=
  { c with last_access := int32 (c.last_access + 1) }

/-- Line `v` is the lowest-index line with the largest recency of `set`. -/
def is_victim (set : List cache_cell) (v : Nat) : Prop :=
  v < set.length ∧
  (∀ j, j < set.length → (set.getD j default).last_access ≤ (set.getD v default).last_access) ∧
  (∀ j, j < v → (set.getD j default).last_access < (set.getD v default).last_access)

/-- Loop invariant of the victim scan over the recencies `la`, before index `i`:
`lru_last_access` bounds the recencies seen, strictly those before `lru`, and it is the
recency of line `lru` unless nothing has exceeded the initial 0. -/
def scan_inv (la : Nat → Int) (i lru : Nat) (lla : Int) : Prop :=
  (∀ j, j < i → la j ≤ lla) ∧ (∀ j, j < lru → la j < lla) ∧
    ((lru < i ∧ la lru = lla) ∨ (lru = 0 ∧ lla = 0))

/-- The effective address of the load or store at `pc`:
`(regs[regA] + imm7) & 0b1111111111111` for the instruction word at `memory[pc % 8192]`. -/
def access_addr (memory regs : Nat → Nat) (pc : Nat) : Nat :=
  let d := decode (memory (pc % 8192))
  mem_addr (regs d.regA) d.imm7

/-- One cache access of a level: a load or a store of an address. -/
inductive access where
  | load (addr : Nat)
  | store (addr : Nat)
deriving DecidableEq

/-- The effect of one access on the cache of a level: the cache update of `case 4`
(`load_level`) or of `case 5` (`store_level`). -/
def apply_access (l : level) (cache : List (List cache_cell)) : access → List (List cache_cell)
  | .load addr => (load_level l cache addr).2
  | .store addr => store_level l cache addr

/-- The cache of a level after a sequence of accesses. -/
def run_accesses (l : level) (accs : List access) (cache : List (List cache_cell)) :
    List (List cache_cell) :=
  accs.foldl (apply_access l) cache

/-- No two lines of the set are both valid and hold the same tag. -/
def tag_unique (set : List cache_cell) : Prop :=
  set.Pairwise (fun a b => ¬ (a.valid = true ∧ b.valid = true ∧ a.tag = b.tag))

instance (set : List cache_cell) : Decidable (tag_unique set) := by
  unfold tag_unique
  infer_instance

/-- No store of the sequence addresses a set in which, at the time of the store, a
valid line already holds the tag of the stored address. -/
def stores_fresh (l : level) : List access → List (List cache_cell) → Prop
  | [], _ => True
  | access.load addr :: rest, cache =>
    stores_fresh l rest (apply_access l cache (access.load addr))
  | access.store addr :: rest, cache =>
    (∀ c ∈ cache.getD (block_row l addr) [], ¬ (c.valid = true ∧ c.tag = block_tag l addr)) ∧
    stores_fresh l rest (apply_access l cache (access.store addr))

instance stores_fresh_dec (l : level) :
    ∀ (accs : List access) (cache : List (List cache_cell)),
      Decidable (stores_fresh l accs cache)
  | [], _ => isTrue trivial
  | access.load addr :: rest, cache =>
    stores_fresh_dec l rest (apply_access l cache (access.load addr))
  | access.store addr :: rest, cache =>
    @instDecidableAnd _ _ inferInstance
      (stores_fresh_dec l rest (apply_access l cache (access.store addr)))

/-- The architectural state: memory image, register file, PC and the halt flag. -/
structure Arch where
  memory : Nat → Nat
  regs : Nat → Nat
  pc : Nat
  halt : Bool

/-- The architectural state of the one-level simulator. -/
def arch1 (s : Sim1) : Arch :=
  { memory := s.memory, regs := s.regs, pc := s.pc, halt := s.halt }

/-- The architectural state of the two-level simulator. -/
def arch2 (s : Sim2) : Arch :=
  { memory := s.memory, regs := s.regs, pc := s.pc, halt := s.halt }

/-! ## Concrete inputs used by the theorems -/

/-- The memory image `addi $1,$0,5; addi $2,$0,3; add $3,$1,$2; j 3`, other cells 0. -/
def prog_add : Nat → Nat := fun a =>
  match a with
  | 0 => 0x2085
  | 1 => 0x2103
  | 2 => 0x0530
  | 3 => 0x4003
  | _ => 0

/-- The register file `main` starts from: all registers 0. -/
def regs_zero : Nat → Nat := fun _ => 0

/-- The memory image `lw $1,0($0); lw $1,1($0); lw $1,0($0); lw $1,2($0); j 4`. -/
def prog_loads : Nat → Nat := fun a =>
  match a with
  | 0 => 0x8080
  | 1 => 0x8081
  | 2 => 0x8080
  | 3 => 0x8082
  | 4 => 0x4004
  | _ => 0

/-- Cache configuration "2,2,1": one row of two lines, blocks of one cell. -/
def level_2_2_1 : level := make_level 2 2 1

/-- Start state of `simulate_one_cache` on `prog_loads` under "2,2,1", as `main` builds it. -/
def loads_start : Sim1 :=
  { memory := prog_loads, regs := regs_zero, pc := 0, cache := init_cache 1 2, log := [],
    halt := false }

/-- Start state of `simulate_two_cache` on `prog_loads` under "2,2,1,2,2,1". -/
def loads_start2 : Sim2 :=
  { memory := prog_loads, regs := regs_zero, pc := 0, l1_cache := init_cache 1 2,
    l2_cache := init_cache 1 2, log := [], halt := false }

/-- The memory image `sw $0,0($0); sw $0,0($0); j 2`. -/
def prog_stores : Nat → Nat := fun a =>
  match a with
  | 0 => 0xA000
  | 1 => 0xA000
  | 2 => 0x4002
  | _ => 0

/-- Start state of `simulate_one_cache` on `prog_stores` under "2,2,1", as `main` builds it. -/
def stores_start : Sim1 :=
  { memory := prog_stores, regs := regs_zero, pc := 0, cache := init_cache 1 2, log := [],
    halt := false }

/-- Cache configuration "4,1,2": two rows of one line, blocks of two cells. -/
def level_4_1_2 : level := make_level 4 1 2

/-- Start state of `simulate_two_cache` on `prog_loads` under "4,1,2,2,2,1". -/
def loads_start_other : Sim2 :=
  { memory := prog_loads, regs := regs_zero, pc := 0, l1_cache := init_cache 2 1,
    l2_cache := init_cache 1 2, log := [], halt := false }

/-- The empty memory image: every cell 0. -/
def mem_zero : Nat → Nat := fun _ => 0

/-- The memory image `lw $1,0($0); lw $1,8($0); j 2`. -/
def prog_conflict : Nat → Nat := fun a =>
  match a with
  | 0 => 0x8080
  | 1 => 0x8088
  | 2 => 0x4002
  | _ => 0

/-- The address of an access. -/
def access.addr : access → Nat
  | .load a => a
  | .store a => a

/-- Line `i` is the first valid line of `set` holding `tag` (the line a load hits). -/
def first_hit (tag : Int) (set : List cache_cell) (i : Nat) : Prop :=
  i < set.length ∧ (set.getD i default).valid = true ∧ (set.getD i default).tag = tag ∧
  ∀ j, j < i → ¬ ((set.getD j default).valid = true ∧ (set.getD j default).tag = tag)

/-- Line `i` of the addressed set is the line the access touches: for a load the hit
line, or the victim when no valid line holds the tag; for a store the victim. -/
def touched_line (l : level) (cache : List (List cache_cell)) : access → Nat → Prop
  | .load a, i =>
    first_hit (block_tag l a) (cache.getD (block_row l a) []) i ∨
    ((∀ c ∈ cache.getD (block_row l a) [], ¬ (c.valid = true ∧ c.tag = block_tag l a)) ∧
      is_victim (cache.getD (block_row l a) []) i)
  | .store a, i => is_victim (cache.getD (block_row l a) []) i

/-- Shape and recency invariant of a cache of level `l`: `l.rows` sets of `l.assoc`
lines, every recency non-negative. -/
def cache_wf (l : level) (cache : List (List cache_cell)) : Prop :=
  cache.length = l.rows ∧
  ∀ set ∈ cache, set.length = l.assoc ∧ ∀ c ∈ set, 0 ≤ c.last_access

/-- A register file with register 1 = 5, register 2 = 3 and the others 0. -/
def regs_5_3 : Nat → Nat := fun i =>
  match i with
  | 1 => 5
  | 2 => 3
  | _ => 0

/-- The memory image `addi $1,$0,-64; slti $2,$1,-1; j 2`. -/
def prog_slti : Nat → Nat := fun a =>
  match a with
  | 0 => 0x20C0
  | 1 => 0xE57F
  | 2 => 0x4002
  | _ => 0

/-- A register file with register 1 = 0xFFC0 (the 16-bit encoding of -64), the others 0. -/
def regs_m64 : Nat → Nat := fun i =>
  match i with
  | 1 => 0xFFC0
  | _ => 0

/-- The memory image with the word `w` in cell 0 and 0 elsewhere. -/
def image1 (w : Nat) : Nat → Nat := fun a =>
  match a with
  | 0 => w
  | _ => 0

/-- Start state of `simulate_one_cache` on `image1 w` under "2,2,1". -/
def start1 (w : Nat) : Sim1 :=
  { memory := image1 w, regs := regs_zero, pc := 0, cache := init_cache 1 2, log := [],
    halt := false }

/-- Start state of `simulate_two_cache` on `image1 w` under "2,2,1,2,2,1". -/
def start2 (w : Nat) : Sim2 :=
  { memory := image1 w, regs := regs_zero, pc := 0, l1_cache := init_cache 1 2,
    l2_cache := init_cache 1 2, log := [], halt := false }

/-- The memory image `addi $1,$0,-64; jr $1`. -/
def prog_jr : Nat → Nat := fun a =>
  match a with
  | 0 => 0x20C0
  | 1 => 0x0408
  | _ => 0

/-- Start state of `simulate_one_cache` on `prog_jr` under "2,2,1". -/
def jr_start : Sim1 :=
  { memory := prog_jr, regs := regs_zero, pc := 0, cache := init_cache 1 2, log := [],
    halt := false }

/-- Start state of `simulate_two_cache` on `prog_jr` under "2,2,1,2,2,1". -/
def jr_start2 : Sim2 :=
  { memory := prog_jr, regs := regs_zero, pc := 0, l1_cache := init_cache 1 2,
    l2_cache := init_cache 1 2, log := [], halt := false }

/-- The memory image with the class-0 word 0x0015 (destination 1, function code 5) at
cell 0, followed by `j 1`. -/
def prog_unknown : Nat → Nat := fun a =>
  match a with
  | 0 => 0x0015
  | 1 => 0x4001
  | _ => 0

/-- The L1 events of a log, in order. -/
def l1_events (log : List log_entry) : List log_entry :=
  log.filter (fun e => decide (e.name = cache_name.L1))

/-- A one-level state and a two-level state agree: same memory, registers, PC and halt
flag, same L1 cache, and the one-level log is the sequence of L1 events of the two-level
log. -/
def agree (s : Sim1) (t : Sim2) : Prop :=
  arch1 s = arch2 t ∧ s.cache = t.l1_cache ∧ s.log = l1_events t.log

/-- The lw scan with every `cache[row][i]` access checked: `none` where the source would
index the set out of range. -/
def lw_loop_chk (tag : Int) : Nat → Nat → List cache_cell → Nat → Int → Option Scan
  | 0, _, set, lru, _ => some { hit := false, set := set, lru := lru }
  | n + 1, i, set, lru, lru_last_access =>
    match set[i]? with
    | none => none
    | some c =>
      if c.valid && c.tag == tag then
        some { hit := true, set := set.set i { c with last_access := 0 }, lru := lru }
      else
        let lru1 := if c.last_access > lru_last_access then i else lru
        let lla1 := if c.last_access > lru_last_access then c.last_access else lru_last_access
        lw_loop_chk tag n (i + 1)
          (set.set i { c with last_access := int32 (c.last_access + 1) })
          lru1 lla1

/-- The sw scan with every `cache[row][i]` access checked. -/
def sw_loop_chk : Nat → Nat → List cache_cell → Nat → Int → Option (List cache_cell × Nat)
  | 0, _, set, lru, _ => some (set, lru)
  | n + 1, i, set, lru, lru_last_access =>
    match set[i]? with
    | none => none
    | some c =>
      let lru1 := if c.last_access > lru_last_access then i else lru
      let lla1 := if c.last_access > lru_last_access then c.last_access else lru_last_access
      sw_loop_chk n (i + 1) (set.set i { c with last_access := int32 (c.last_access + 1) })
        lru1 lla1

/-- The read resolution of one level with every hazard checked: `none` on a division or
modulo by zero, on a row outside the cache, on a line index outside the set during the
scan, and on a victim index outside the set. -/
def load_level_chk (l : level) (cache : List (List cache_cell)) (addr : Nat) :
    Option (Bool × List (List cache_cell)) :=
  if l.blocksize = 0 then none
  else if l.rows = 0 then none
  else
    match cache[block_row l addr]? with
    | none => none
    | some set =>
      match lw_loop_chk (block_tag l addr) l.assoc 0 set 0 0 with
      | none => none
      | some r =>
        if r.hit then some (true, cache.set (block_row l addr) r.set)
        else if r.lru < r.set.length then
          some (false, cache.set (block_row l addr) (install r.set r.lru (block_tag l addr)))
        else none

/-- The write resolution of one level with every hazard checked. -/
def store_level_chk (l : level) (cache : List (List cache_cell)) (addr : Nat) :
    Option (List (List cache_cell)) :=
  if l.blocksize = 0 then none
  else if l.rows = 0 then none
  else
    match cache[block_row l addr]? with
    | none => none
    | some set =>
      match sw_loop_chk l.assoc 0 set 0 0 with
      | none => none
      | some r =>
        if r.2 < r.1.length then
          some (cache.set (block_row l addr) (install r.1 r.2 (block_tag l addr)))
        else none

/-- Shape of a cache of level `l`: `l.rows` sets of `l.assoc` lines each. -/
def cache_shape (l : level) (cache : List (List cache_cell)) : Prop :=
  cache.length = l.rows ∧ ∀ set ∈ cache, set.length = l.assoc

/-- The memory image `sw $1,4($0); lw $1,5($0); j 2`. -/
def prog_reaccess : Nat → Nat := fun a =>
  match a with
  | 0 => 0xA084
  | 1 => 0x8085
  | 2 => 0x4002
  | _ => 0

/-- The memory image `lw $1,0($0); lw $1,0($0); lw $1,1($0); lw $1,1($0); lw $1,2($0);
j 5`: loads of addresses 0, 0, 1, 1, 2. -/
def prog_fill : Nat → Nat := fun a =>
  match a with
  | 0 => 0x8080
  | 1 => 0x8080
  | 2 => 0x8081
  | 3 => 0x8081
  | 4 => 0x8082
  | 5 => 0x4005
  | _ => 0

/-- Cache configuration "3,3,1": one row of three lines, blocks of one cell. -/
def level_3_3_1 : level := make_level 3 3 1

/-- Start state of `simulate_one_cache` on `prog_fill` under "3,3,1". -/
def fill_start : Sim1 :=
  { memory := prog_fill, regs := regs_zero, pc := 0, cache := init_cache 1 3, log := [],
    halt := false }

/-- Shape and recency bound of a cache of level `l`: `l.rows` sets of `l.assoc` lines,
every recency between 0 and `n`. -/
def cache_bounded (l : level) (n : Int) (cache : List (List cache_cell)) : Prop :=
  cache.length = l.rows ∧
  ∀ set ∈ cache, set.length = l.assoc ∧ ∀ c ∈ set, 0 ≤ c.last_access ∧ c.last_access ≤ n

/-- The accesses load 0, load 1, then `n` more loads of address 1. -/
def overflow_accs (n : Nat) : List access :=
  access.load 0 :: access.load 1 :: List.replicate n (access.load 1)

/-- The memory image `lw $1,0($0); lw $1,1($0); j 1`: a load of address 0, then loads of
address 1 for ever. -/
def prog_overflow : Nat → Nat := fun a =>
  match a with
  | 0 => 0x8080
  | 1 => 0x8081
  | 2 => 0x4001
  | _ => 0

/-- Start state of `simulate_one_cache` on `prog_overflow` under "2,2,1". -/
def overflow_start : Sim1 :=
  { memory := prog_overflow, regs := regs_zero, pc := 0, cache := init_cache 1 2, log := [],
    halt := false }

/-- The state of the loop of `prog_overflow` at PC 1, line 0 holding tag 0 with recency
`k` as an `int`, line 1 holding tag 1 with recency 0. -/
def overflow_inv (k : Int) (s : Sim1) : Prop :=
  s.memory = prog_overflow ∧ s.pc = 1 ∧ s.regs 0 = 0 ∧ s.halt = false ∧
  s.cache = [[{ valid := true, tag := 0, last_access := int32 k },
              { valid := true, tag := 1, last_access := 0 }]]

/-! ## Basic facts about the decoder -/

theorem extract_bits_eq (w i o : Nat) :
    extract_bits w i o = (w / 2 ^ i) % 2 ^ (o - i + 1) % 65536 := by
  simp [extract_bits, u16, Nat.shiftRight_eq_div_pow, Nat.one_shiftLeft]

theorem opcode_lt (w : Nat) : extract_bits w 13 15 < 8 := by
  rw [extract_bits_eq]
  have h : (w / 2 ^ 13) % 2 ^ (15 - 13 + 1) < 8 := Nat.mod_lt _ (by norm_num)
  omega

theorem imm7_lt (w : Nat) : extract_bits w 0 6 < 128 := by
  rw [extract_bits_eq]
  have h : (w / 2 ^ 0) % 2 ^ (6 - 0 + 1) < 128 := Nat.mod_lt _ (by norm_num)
  omega

theorem imm13_lt (w : Nat) : extract_bits w 0 12 < 8192 := by
  rw [extract_bits_eq]
  have h : (w / 2 ^ 0) % 2 ^ (12 - 0 + 1) < 8192 := Nat.mod_lt _ (by norm_num)
  omega

theorem sign_extend_cases : ∀ v < 128, sign_extend v = if v < 64 then v else v + 65408 := by
  decide

theorem mask13_eq_mod (x : Nat) : x &&& (MEM_SIZE - 1) = x % 8192 := by
  have h : MEM_SIZE - 1 = 2 ^ 13 - 1 := by decide
  rw [h, Nat.and_pow_two_sub_one_eq_mod]

theorem mask13_eq_mod' (x : Nat) : x &&& 0x1FFF = x % 8192 := by
  have h : (0x1FFF : Nat) = 2 ^ 13 - 1 := by decide
  rw [h, Nat.and_pow_two_sub_one_eq_mod]

/-- The switch of `execute_instruction` never reaches its `default:` arm. -/
theorem execute_switch_isSome (pc : Nat) (memory registers : Nat → Nat) :
    (execute_switch pc memory registers).isSome = true := by
  have h := opcode_lt (memory (pc % MEM_SIZE))
  unfold execute_switch
  simp only []
  split
  all_goals first | rfl | skip
  rename_i h0 h1 h2 h3 h4 h5 h6 h7
  exfalso
  have e0 := Ne.intro h0
  have e1 := Ne.intro h1
  have e2 := Ne.intro h2
  have e3 := Ne.intro h3
  have e4 := Ne.intro h4
  have e5 := Ne.intro h5
  have e6 := Ne.intro h6
  have e7 := Ne.intro h7
  omega

theorem execute_instruction_total (pc : Nat) (memory registers : Nat → Nat) :
    ∃ r, execute_instruction pc memory registers = some r := by
  have h := execute_switch_isSome pc memory registers
  obtain ⟨r, hr⟩ := Option.isSome_iff_exists.mp h
  rw [execute_instruction, hr]
  exact ⟨_, rfl⟩

theorem execute_instruction_reg0 {pc : Nat} {memory registers : Nat → Nat} {r : Exec}
    (h : execute_instruction pc memory registers = some r) : r.registers 0 = 0 := by
  unfold execute_instruction at h
  cases hs : execute_switch pc memory registers with
  | none => simp [hs] at h
  | some r0 =>
    simp [hs] at h
    subst h
    simp [write]

theorem one_cache_body_reg0 (l1 : level) (s : Sim1) : (one_cache_body l1 s).regs 0 = 0 := by
  simp [one_cache_body, write]

theorem two_cache_body_reg0 (l1 l2 : level) (s : Sim2) :
    (two_cache_body l1 l2 s).regs 0 = 0 := by
  simp [two_cache_body, write]

theorem simulate_body_total (s : Machine) : ∃ s1, simulate_body s = some s1 := by
  obtain ⟨r, hr⟩ := execute_instruction_total s.pc s.memory s.registers
  rw [simulate_body, hr]
  exact ⟨_, rfl⟩

theorem simulate_body_reg0 {s s1 : Machine} (h : simulate_body s = some s1) :
    s1.registers 0 = 0 := by
  unfold simulate_body at h
  cases hr : execute_instruction s.pc s.memory s.registers with
  | none => simp [hr] at h
  | some r =>
    simp [hr] at h
    subst h
    exact execute_instruction_reg0 hr

theorem simulate_steps_reg0 (n : Nat) (s : Machine) (h0 : s.registers 0 = 0) :
    ∃ s1, simulate_steps n s = some s1 ∧ s1.registers 0 = 0 := by
  induction n generalizing s with
  | zero => exact ⟨s, rfl, h0⟩
  | succ n ih =>
    unfold simulate_steps
    by_cases hh : s.halted = true
    · exact ⟨s, by simp [hh], h0⟩
    · obtain ⟨s1, hs1⟩ := simulate_body_total s
      obtain ⟨s2, hs2, hz⟩ := ih s1 (simulate_body_reg0 hs1)
      exact ⟨s2, by simp [hh, hs1, hs2], hz⟩

theorem one_cache_steps_reg0 (l1 : level) (n : Nat) (s : Sim1) (h0 : s.regs 0 = 0) :
    (one_cache_steps l1 n s).regs 0 = 0 := by
  induction n generalizing s with
  | zero => exact h0
  | succ n ih =>
    unfold one_cache_steps
    by_cases hh : s.halt = true
    · simpa [hh] using h0
    · simpa [hh] using ih _ (one_cache_body_reg0 l1 s)

theorem two_cache_steps_reg0 (l1 l2 : level) (n : Nat) (s : Sim2) (h0 : s.regs 0 = 0) :
    (two_cache_steps l1 l2 n s).regs 0 = 0 := by
  induction n generalizing s with
  | zero => exact h0
  | succ n ih =>
    unfold two_cache_steps
    by_cases hh : s.halt = true
    · simpa [hh] using h0
    · simpa [hh] using ih _ (two_cache_body_reg0 l1 l2 s)

/-! ## C1: register 0 -/

/-- C1: one step of each engine (`execute_instruction` of e20sim, one loop iteration of
`simulate_one_cache` and of `simulate_two_cache`) produces a state, and register 0 is 0 in
it, for every register file, memory image and PC; and on every run started with all
registers 0, register 0 is 0 after any number of loop iterations. -/
theorem C1_register_zero :
    (∀ (pc : Nat) (memory registers : Nat → Nat),
        ∃ r, execute_instruction pc memory registers = some r ∧ r.registers 0 = 0) ∧
    (∀ (l1 : level) (s : Sim1), (one_cache_body l1 s).regs 0 = 0) ∧
    (∀ (l1 l2 : level) (s : Sim2), (two_cache_body l1 l2 s).regs 0 = 0) ∧
    (∀ (n pc : Nat) (memory : Nat → Nat),
        ∃ s, simulate_steps n
               { pc := pc, memory := memory, registers := fun _ => 0, halted := false } = some s ∧
             s.registers 0 = 0) ∧
    (∀ (l1 : level) (n pc : Nat) (memory : Nat → Nat) (cache : List (List cache_cell)),
        (one_cache_steps l1 n
          { memory := memory, regs := fun _ => 0, pc := pc, cache := cache, log := [],
            halt := false }).regs 0 = 0) ∧
    (∀ (l1 l2 : level) (n pc : Nat) (memory : Nat → Nat)
        (c1 c2 : List (List cache_cell)),
        (two_cache_steps l1 l2 n
          { memory := memory, regs := fun _ => 0, pc := pc, l1_cache := c1, l2_cache := c2,
            log := [], halt := false }).regs 0 = 0) := by
  refine ⟨?_, one_cache_body_reg0, two_cache_body_reg0, ?_, ?_, ?_⟩
  · intro pc memory registers
    obtain ⟨r, hr⟩ := execute_instruction_total pc memory registers
    exact ⟨r, hr, execute_instruction_reg0 hr⟩
  · intro n pc memory
    exact simulate_steps_reg0 n _ rfl
  · intro l1 n pc memory cache
    exact one_cache_steps_reg0 l1 n _ rfl
  · intro l1 l2 n pc memory c1 c2
    exact two_cache_steps_reg0 l1 l2 n _ rfl

/-! ## C2: halt detection in e20sim -/

theorem MEM_SIZE_eq : MEM_SIZE = 8192 := by decide

/-- A next-PC that is congruent to the current PC modulo 8192 is the current PC. -/
theorem switch_halt_next_pc {pc : Nat} {memory registers : Nat → Nat} {r : Exec}
    (h : execute_switch pc memory registers = some r) (hh : r.next_pc % 8192 = pc) :
    r.next_pc = pc := by
  have h13 := imm13_lt (memory (pc % MEM_SIZE))
  have hse := sign_extend_cases _ (imm7_lt (memory (pc % MEM_SIZE)))
  have h7 := imm7_lt (memory (pc % MEM_SIZE))
  unfold execute_switch at h
  simp only [] at h
  split at h
  case h_9 => exact absurd h (by simp)
  all_goals
    simp only [Option.some.injEq] at h
    subst h
    simp only [u16, mask13_eq_mod', hse] at hh ⊢
    first | omega | (split_ifs at hh ⊢ <;> omega)

theorem halt_next_pc {pc : Nat} {memory registers : Nat → Nat} {r : Exec}
    (h : execute_instruction pc memory registers = some r) (hh : r.next_pc % 8192 = pc) :
    r.next_pc = pc := by
  unfold execute_instruction at h
  cases hs : execute_switch pc memory registers with
  | none => simp [hs] at h
  | some r0 =>
    simp [hs] at h
    subst h
    exact switch_halt_next_pc (r := r0) hs hh

/-- C2: for every machine state the step of `simulate` produces a result `r`; the run
stops after this one step exactly when `r.next_pc % 8192 = pc`; in that case, whatever
the remaining fuel, the final state is the one this step produced (its memory and
registers) and the final PC is the PC of the instruction just executed; otherwise the
loop goes on from the state this step produced. -/
theorem C2_halt_detection (pc : Nat) (memory registers : Nat → Nat) :
    ∃ r, execute_instruction pc memory registers = some r ∧
      ((simulate 1 pc memory registers).isSome = true ↔ r.next_pc % 8192 = pc) ∧
      (r.next_pc % 8192 = pc → ∀ fuel, simulate (fuel + 1) pc memory registers =
          some { pc := pc, memory := r.memory, registers := r.registers, halted := true }) ∧
      (r.next_pc % 8192 ≠ pc → ∀ fuel, simulate (fuel + 1) pc memory registers =
          simulate_loop fuel
            { pc := r.next_pc, memory := r.memory, registers := r.registers,
              halted := false }) := by
  obtain ⟨r, hr⟩ := execute_instruction_total pc memory registers
  refine ⟨r, hr, ?_, ?_, ?_⟩
  · by_cases hh : r.next_pc % 8192 = pc
    · simp [simulate, simulate_loop, simulate_body, hr, MEM_SIZE_eq, hh]
    · simp [simulate, simulate_loop, simulate_body, hr, MEM_SIZE_eq, hh]
  · intro hh fuel
    have hpc := halt_next_pc hr hh
    have hlt : pc < 8192 := by omega
    cases fuel <;> simp [simulate, simulate_loop, simulate_body, hr, MEM_SIZE_eq, hh, hpc, hlt]
  · intro hh fuel
    simp [simulate, simulate_loop, simulate_body, hr, MEM_SIZE_eq, hh]

/-! ## C3: the end-to-end scenario -/

/-- More fuel does not change the result of a run that has left the loop. -/
theorem simulate_loop_mono (n k : Nat) (s : Machine)
    (h : (simulate_loop n s).isSome = true) :
    simulate_loop (n + k) s = simulate_loop n s := by
  induction n generalizing s with
  | zero =>
    have hh : s.halted = true := by
      by_cases hh : s.halted = true
      · exact hh
      · simp [simulate_loop, hh] at h
    cases k <;> simp [simulate_loop, hh]
  | succ n ih =>
    rw [Nat.add_right_comm]
    unfold simulate_loop
    by_cases hh : s.halted = true
    · simp [hh]
    · simp only [hh]
      cases hb : simulate_body s with
      | none => rfl
      | some s1 =>
        simp only []
        apply ih
        simpa [simulate_loop, hh, hb] using h

/-- C3: from PC 0 and all registers 0, on the image 0x2085, 0x2103, 0x0530, 0x4003
(other cells 0), `simulate` leaves its loop after four steps (and with any larger fuel)
with PC = 3, registers 1, 2, 3 equal to 5, 3, 8, and memory cells 0..2 still equal to
the three instruction words. -/
theorem C3_end_to_end (k : Nat) :
    (simulate (4 + k) 0 prog_add regs_zero).map
        (fun s => (s.pc, s.registers 1, s.registers 2, s.registers 3,
                   s.memory 0, s.memory 1, s.memory 2, s.halted)) =
      some (3, 5, 3, 8, 0x2085, 0x2103, 0x0530, true) := by
  unfold simulate
  rw [simulate_loop_mono 4 k _ (by decide)]
  rfl

/-! ## The scans of a set -/

theorem getD_append_mid (pre rest : List cache_cell) (c : cache_cell) :
    (pre ++ c :: rest).getD pre.length default = c := by
  induction pre with
  | nil => rfl
  | cons a pre ih => exact ih

theorem set_append_mid (pre rest : List cache_cell) (c x : cache_cell) :
    (pre ++ c :: rest).set pre.length x = pre ++ x :: rest := by
  simp

theorem length_snoc (pre : List cache_cell) (c : cache_cell) :
    (pre ++ [c]).length = pre.length + 1 := by
  simp

theorem getD_mem (set : List cache_cell) (j : Nat) (h : j < set.length) :
    set.getD j default ∈ set := by
  rw [List.getD_eq_getElem _ _ h]
  exact List.getElem_mem _

theorem scan_inv_step (la : Nat → Int) (i lru : Nat) (lla : Int) (h : scan_inv la i lru lla) :
    scan_inv la (i + 1) (if la i > lla then i else lru) (if la i > lla then la i else lla) := by
  obtain ⟨h1, h2, h3⟩ := h
  by_cases hgt : la i > lla
  · simp only [hgt, if_true]
    refine ⟨?_, ?_, Or.inl ⟨by omega, rfl⟩⟩
    · intro j hj
      by_cases hji : j = i
      · subst hji; exact le_refl _
      · have := h1 j (by omega); omega
    · intro j hj
      have := h1 j hj; omega
  · simp only [hgt, if_false]
    refine ⟨?_, h2, ?_⟩
    · intro j hj
      by_cases hji : j = i
      · subst hji; omega
      · exact h1 j (by omega)
    · rcases h3 with h3 | h3
      · exact Or.inl ⟨by omega, h3.2⟩
      · exact Or.inr h3

/-- The store scan, started at index `pre.length` on `pre ++ rest` with `rest.length`
iterations left, ages exactly the lines of `rest` and maintains the scan invariant. -/
theorem sw_loop_spec (la : Nat → Int) (rest : List cache_cell) :
    ∀ (pre : List cache_cell) (lru : Nat) (lla : Int),
      (∀ k, k < rest.length → (rest.getD k default).last_access = la (pre.length + k)) →
      scan_inv la pre.length lru lla →
      ∃ v lla1, sw_loop rest.length pre.length (pre ++ rest) lru lla = (pre ++ rest.map aged, v) ∧
        scan_inv la (pre.length + rest.length) v lla1 := by
  induction rest with
  | nil =>
    intro pre lru lla _ hinv
    exact ⟨lru, lla, by simp [sw_loop], by simpa using hinv⟩
  | cons c rest ih =>
    intro pre lru lla hla hinv
    have hc : c.last_access = la pre.length := hla 0 (by simp)
    have hlen := length_snoc pre (aged c)
    have hrest : ∀ k, k < rest.length →
        (rest.getD k default).last_access = la ((pre ++ [aged c]).length + k) := by
      intro k hk
      have h1 := hla (k + 1) (by simpa using hk)
      have h2 : (pre ++ [aged c]).length + k = pre.length + (k + 1) := by omega
      rw [h2, ← h1]
      rfl
    have hinv1 := scan_inv_step la pre.length lru lla hinv
    rw [← hlen, ← hc] at hinv1
    obtain ⟨v, lla1, hv, hi⟩ := ih (pre ++ [aged c]) _ _ hrest hinv1
    refine ⟨v, lla1, ?_, ?_⟩
    · simp only [List.length_cons, sw_loop, getD_append_mid, set_append_mid]
      rw [hlen] at hv
      simpa [aged] using hv
    · have : pre.length + (c :: rest).length = (pre ++ [aged c]).length + rest.length := by
        simp only [List.length_cons]; omega
      rw [this]; exact hi

/-- On a non-empty set with non-negative recencies the store scan ages every line and
returns the lowest-index line with the largest recency. -/
theorem sw_loop_full (set : List cache_cell) (hpos : 0 < set.length)
    (hnn : ∀ c ∈ set, 0 ≤ c.last_access) :
    ∃ v, sw_loop set.length 0 set 0 0 = (set.map aged, v) ∧ is_victim set v := by
  obtain ⟨v, lla1, hv, h1, h2, h3⟩ :=
    sw_loop_spec (fun j => (set.getD j default).last_access) set [] 0 0
      (by intro k _; simp) ⟨by intro j hj; simp at hj, by intro j hj; omega, Or.inr ⟨rfl, rfl⟩⟩
  simp only [List.nil_append, List.length_nil, Nat.zero_add] at hv h1 h2 h3
  refine ⟨v, hv, ?_⟩
  rcases h3 with ⟨hlt, heq⟩ | ⟨hv0, hl0⟩
  · refine ⟨hlt, ?_, ?_⟩
    · intro j hj; rw [heq]; exact h1 j hj
    · intro j hj; rw [heq]; exact h2 j hj
  · subst hv0
    have h00 : (set.getD 0 default).last_access = 0 := by
      have ha := h1 0 hpos
      have hb := hnn _ (getD_mem set 0 hpos)
      omega
    refine ⟨hpos, ?_, ?_⟩
    · intro j hj
      have := h1 j hj
      omega
    · intro j hj; omega

/-- Without a valid line holding `tag`, the load scan is the store scan. -/
theorem lw_loop_miss (tag : Int) (rest : List cache_cell) :
    ∀ (pre : List cache_cell) (lru : Nat) (lla : Int),
      (∀ c ∈ rest, ¬ (c.valid = true ∧ c.tag = tag)) →
      lw_loop tag rest.length pre.length (pre ++ rest) lru lla =
        { hit := false,
          set := (sw_loop rest.length pre.length (pre ++ rest) lru lla).1,
          lru := (sw_loop rest.length pre.length (pre ++ rest) lru lla).2 } := by
  induction rest with
  | nil => intro pre lru lla _; simp [lw_loop, sw_loop]
  | cons c rest ih =>
    intro pre lru lla hno
    have hc : ¬ (c.valid = true ∧ c.tag = tag) := hno c (by simp)
    have hc' : (c.valid && c.tag == tag) = false := by
      cases hv : c.valid <;> simp_all
    have hlen := length_snoc pre (aged c)
    have ih1 := ih (pre ++ [aged c]) (if c.last_access > lla then pre.length else lru)
      (if c.last_access > lla then c.last_access else lla)
      (fun d hd => hno d (by simp [hd]))
    rw [hlen] at ih1
    simp only [List.length_cons, lw_loop, sw_loop, getD_append_mid, set_append_mid, hc']
    simpa [aged] using ih1

/-- With a first valid line `h` holding `tag` (after `mid`, which has none), the load
scan ages exactly the lines of `mid`, resets `h`, and leaves the lines after `h` alone. -/
theorem lw_loop_hit (tag : Int) (mid : List cache_cell) :
    ∀ (pre post : List cache_cell) (h : cache_cell) (lru : Nat) (lla : Int),
      (∀ c ∈ mid, ¬ (c.valid = true ∧ c.tag = tag)) → h.valid = true → h.tag = tag →
      ∃ v, lw_loop tag (mid ++ h :: post).length pre.length (pre ++ (mid ++ h :: post)) lru lla =
        { hit := true,
          set := pre ++ (mid.map aged ++ { h with last_access := 0 } :: post),
          lru := v } := by
  induction mid with
  | nil =>
    intro pre post h lru lla _ hv ht
    refine ⟨lru, ?_⟩
    simp only [List.nil_append, List.map_nil, List.length_cons, lw_loop, getD_append_mid,
      set_append_mid]
    simp [hv, ht]
  | cons c mid ih =>
    intro pre post h lru lla hno hv ht
    have hc : ¬ (c.valid = true ∧ c.tag = tag) := hno c (by simp)
    have hc' : (c.valid && c.tag == tag) = false := by
      cases hv : c.valid <;> simp_all
    have hlen := length_snoc pre (aged c)
    obtain ⟨v, hv1⟩ := ih (pre ++ [aged c]) post h (if c.last_access > lla then pre.length else lru)
      (if c.last_access > lla then c.last_access else lla)
      (fun d hd => hno d (by simp [hd])) hv ht
    rw [hlen] at hv1
    refine ⟨v, ?_⟩
    simp only [List.cons_append, List.length_cons, lw_loop, getD_append_mid, set_append_mid, hc']
    simpa [aged] using hv1

/-- Store on a set: every line is aged, then the victim is overwritten. -/
theorem sw_set_spec (tag : Int) (set : List cache_cell) (hpos : 0 < set.length)
    (hnn : ∀ c ∈ set, 0 ≤ c.last_access) :
    ∃ v, is_victim set v ∧
      sw_set tag set.length set =
        (set.map aged).set v { valid := true, tag := tag, last_access := 0 } := by
  obtain ⟨v, hv, hvic⟩ := sw_loop_full set hpos hnn
  exact ⟨v, hvic, by simp [sw_set, install, hv]⟩

/-- Load miss on a set: every line is aged, then the victim is overwritten. -/
theorem lw_set_miss (tag : Int) (set : List cache_cell) (hpos : 0 < set.length)
    (hnn : ∀ c ∈ set, 0 ≤ c.last_access)
    (hmiss : ∀ c ∈ set, ¬ (c.valid = true ∧ c.tag = tag)) :
    ∃ v, is_victim set v ∧
      lw_set tag set.length set =
        (false, (set.map aged).set v { valid := true, tag := tag, last_access := 0 }) := by
  obtain ⟨v, hv, hvic⟩ := sw_loop_full set hpos hnn
  have h := lw_loop_miss tag set [] 0 0 hmiss
  simp only [List.nil_append, List.length_nil] at h
  exact ⟨v, hvic, by simp [lw_set, install, h, hv]⟩

/-- An `int` result inside the 32-bit range is stored as it is. -/
theorem int32_of_range (z : Int) (h0 : -2147483648 ≤ z) (h1 : z < 2147483648) :
    int32 z = z := by
  unfold int32
  omega

/-- Incrementing a wrapped value wraps to the same `int` as incrementing the value. -/
theorem int32_succ (z : Int) : int32 (int32 z + 1) = int32 (z + 1) := by
  unfold int32
  omega

/-- Below 2^31 - 1, `last_access += 1` increases the recency by exactly 1. -/
theorem aged_last_access (c : cache_cell) (h0 : -2147483648 ≤ c.last_access)
    (h1 : c.last_access < 2147483647) : (aged c).last_access = c.last_access + 1 := by
  simp only [aged]
  exact int32_of_range _ (by omega) (by omega)

/-- At 2^31 - 1, `last_access += 1` leaves the recency at -2^31. -/
theorem aged_int_max (c : cache_cell) (h : c.last_access = 2147483647) :
    (aged c).last_access = -2147483648 := by
  simp only [aged, h]
  decide

/-- The lines of an aged set in which line `v` was overwritten by `x`. -/
theorem installed_spec (set : List cache_cell) (v : Nat) (x : cache_cell)
    (hv : v < set.length) :
    ((set.map aged).set v x).length = set.length ∧
    ((set.map aged).set v x).getD v default = x ∧
    ∀ j, j < set.length → j ≠ v →
      ((set.map aged).set v x).getD j default = aged (set.getD j default) := by
  refine ⟨by simp, ?_, ?_⟩
  · simp [List.getElem?_set, hv]
  · intro j hj hne
    simp [List.getElem?_set, hj, Ne.symm hne]

theorem one_cache_body_lw (l1 : level) (s : Sim1)
    (h : (decode (s.memory (s.pc % 8192))).opcode = 4) :
    one_cache_body l1 s =
      { s with
        cache := (load_level l1 s.cache (access_addr s.memory s.regs s.pc)).2
        log := s.log ++
          [{ name := .L1,
             kind := if (load_level l1 s.cache (access_addr s.memory s.regs s.pc)).1
                     then .HIT else .MISS,
             pc := s.pc, addr := access_addr s.memory s.regs s.pc,
             row := block_row l1 (access_addr s.memory s.regs s.pc) }]
        regs := write (write s.regs (decode (s.memory (s.pc % 8192))).regB
                  (s.memory (access_addr s.memory s.regs s.pc))) 0 0
        pc := u16 (s.pc + 1) } := by
  simp [one_cache_body, h, access_addr]

theorem one_cache_body_sw (l1 : level) (s : Sim1)
    (h : (decode (s.memory (s.pc % 8192))).opcode = 5) :
    one_cache_body l1 s =
      { s with
        cache := store_level l1 s.cache (access_addr s.memory s.regs s.pc)
        log := s.log ++
          [{ name := .L1, kind := .SW, pc := s.pc, addr := access_addr s.memory s.regs s.pc,
             row := block_row l1 (access_addr s.memory s.regs s.pc) }]
        memory := write s.memory (access_addr s.memory s.regs s.pc)
                    (s.regs (decode (s.memory (s.pc % 8192))).regB)
        regs := write s.regs 0 0
        pc := u16 (s.pc + 1) } := by
  simp [one_cache_body, h, access_addr]

theorem two_cache_body_sw (l1 l2 : level) (s : Sim2)
    (h : (decode (s.memory (s.pc % 8192))).opcode = 5) :
    two_cache_body l1 l2 s =
      { s with
        l1_cache := store_level l1 s.l1_cache (access_addr s.memory s.regs s.pc)
        l2_cache := store_level l2 s.l2_cache (access_addr s.memory s.regs s.pc)
        log := s.log ++
          [{ name := .L1, kind := .SW, pc := s.pc, addr := access_addr s.memory s.regs s.pc,
             row := block_row l1 (access_addr s.memory s.regs s.pc) },
           { name := .L2, kind := .SW, pc := s.pc, addr := access_addr s.memory s.regs s.pc,
             row := block_row l2 (access_addr s.memory s.regs s.pc) }]
        memory := write s.memory (access_addr s.memory s.regs s.pc)
                    (s.regs (decode (s.memory (s.pc % 8192))).regB)
        regs := write s.regs 0 0
        pc := u16 (s.pc + 1) } := by
  simp [two_cache_body, h, access_addr]

theorem two_cache_body_lw (l1 l2 : level) (s : Sim2)
    (h : (decode (s.memory (s.pc % 8192))).opcode = 4) :
    (two_cache_body l1 l2 s).memory = s.memory ∧
    (two_cache_body l1 l2 s).regs =
      write (write s.regs (decode (s.memory (s.pc % 8192))).regB
        (s.memory (access_addr s.memory s.regs s.pc))) 0 0 ∧
    (two_cache_body l1 l2 s).pc = u16 (s.pc + 1) ∧
    (two_cache_body l1 l2 s).halt = s.halt ∧
    (two_cache_body l1 l2 s).l1_cache =
      (load_level l1 s.l1_cache (access_addr s.memory s.regs s.pc)).2 ∧
    (two_cache_body l1 l2 s).l2_cache =
      (if (load_level l1 s.l1_cache (access_addr s.memory s.regs s.pc)).1 then s.l2_cache
       else (load_level l2 s.l2_cache (access_addr s.memory s.regs s.pc)).2) ∧
    (two_cache_body l1 l2 s).log = s.log ++
      (if (load_level l1 s.l1_cache (access_addr s.memory s.regs s.pc)).1 then
        [{ name := .L1, kind := .HIT, pc := s.pc, addr := access_addr s.memory s.regs s.pc,
           row := block_row l1 (access_addr s.memory s.regs s.pc) }]
       else
        [{ name := .L1, kind := .MISS, pc := s.pc, addr := access_addr s.memory s.regs s.pc,
           row := block_row l1 (access_addr s.memory s.regs s.pc) },
         { name := .L2,
           kind := if (load_level l2 s.l2_cache (access_addr s.memory s.regs s.pc)).1
                   then .HIT else .MISS,
           pc := s.pc, addr := access_addr s.memory s.regs s.pc,
           row := block_row l2 (access_addr s.memory s.regs s.pc) }]) := by
  simp only [two_cache_body, h, access_addr]
  split <;> simp [*]

/-! ## C4: least-recently-used eviction -/

/-- C4 (evaluation at the failing input): under configuration "2,2,1" the run of
`lw 0; lw 1; lw 0; lw 2; halt` logs MISS, MISS, HIT, MISS.  After the third load both
lines have recency 0 although tag 0 was touched last; the fourth load then overwrites
line 0 (tag 0, touched at step 3) and keeps tag 1 (last touched at step 2). -/
theorem C4_lru_violated_on_run :
    (one_cache_steps level_2_2_1 3 loads_start).cache =
      [[{ valid := true, tag := 0, last_access := 0 },
        { valid := true, tag := 1, last_access := 0 }]] ∧
    (simulate_one_cache 5 prog_loads regs_zero 0 (init_cache 1 2) level_2_2_1).map
        (fun s => (s.cache, s.log)) =
      some ([[{ valid := true, tag := 2, last_access := 0 },
              { valid := true, tag := 1, last_access := 1 }]],
            [{ name := .L1, kind := .MISS, pc := 0, addr := 0, row := 0 },
             { name := .L1, kind := .MISS, pc := 1, addr := 1, row := 0 },
             { name := .L1, kind := .HIT, pc := 2, addr := 0, row := 0 },
             { name := .L1, kind := .MISS, pc := 3, addr := 2, row := 0 }]) := by
  constructor <;> rfl

/-! ## C5: load miss -/

/-- C6 (evaluation at the failing input): the set [tag 0 recency 1, tag 1 recency 0],
reached after the first two loads of `prog_loads`, is hit by the third load at line 0; the
scan stops there, and line 1 keeps recency 0 instead of going to 1.  The L1 scan of
`simulate_two_cache` does the same. -/
theorem C6_hit_skips_later_lines :
    (one_cache_steps level_2_2_1 2 loads_start).cache =
      [[{ valid := true, tag := 0, last_access := 1 },
        { valid := true, tag := 1, last_access := 0 }]] ∧
    lw_set 0 2 [{ valid := true, tag := 0, last_access := 1 },
                { valid := true, tag := 1, last_access := 0 }] =
      (true, [{ valid := true, tag := 0, last_access := 0 },
              { valid := true, tag := 1, last_access := 0 }]) ∧
    (one_cache_steps level_2_2_1 3 loads_start).cache =
      [[{ valid := true, tag := 0, last_access := 0 },
        { valid := true, tag := 1, last_access := 0 }]] ∧
    (two_cache_steps level_2_2_1 level_2_2_1 2 loads_start2).l1_cache =
      [[{ valid := true, tag := 0, last_access := 1 },
        { valid := true, tag := 1, last_access := 0 }]] ∧
    (two_cache_steps level_2_2_1 level_2_2_1 3 loads_start2).l1_cache =
      [[{ valid := true, tag := 0, last_access := 0 },
        { valid := true, tag := 1, last_access := 0 }]] := by
  refine ⟨?_, ?_, ?_, ?_, ?_⟩ <;> rfl

/-! ## C7: store -/

theorem pairwise_set {α : Type} {R : α → α → Prop} (l : List α) (v : Nat) (x : α)
    (h : l.Pairwise R) (hx : ∀ c ∈ l, R x c ∧ R c x) : (l.set v x).Pairwise R := by
  induction l generalizing v with
  | nil => simp
  | cons a l ih =>
    rw [List.pairwise_cons] at h
    cases v with
    | zero =>
      rw [List.set_cons_zero, List.pairwise_cons]
      exact ⟨fun c hc => (hx c (List.mem_cons_of_mem _ hc)).1, h.2⟩
    | succ v =>
      rw [List.set_cons_succ, List.pairwise_cons]
      refine ⟨?_, ih v h.2 (fun c hc => hx c (List.mem_cons_of_mem _ hc))⟩
      intro c hc
      rcases List.mem_or_eq_of_mem_set hc with hc | hc
      · exact h.1 c hc
      · subst hc; exact (hx a (List.mem_cons_self _ _)).2

/-- A set splits at its first valid line holding `tag`, if there is one. -/
theorem first_match_split (tag : Int) (set : List cache_cell) :
    (∀ c ∈ set, ¬ (c.valid = true ∧ c.tag = tag)) ∨
    ∃ mid h post, set = mid ++ h :: post ∧
      (∀ c ∈ mid, ¬ (c.valid = true ∧ c.tag = tag)) ∧ h.valid = true ∧ h.tag = tag := by
  induction set with
  | nil => left; simp
  | cons a set ih =>
    by_cases ha : a.valid = true ∧ a.tag = tag
    · exact Or.inr ⟨[], a, set, rfl, by simp, ha.1, ha.2⟩
    · rcases ih with h | ⟨mid, h, post, heq, hmid, hv, ht⟩
      · left
        intro c hc
        rcases List.mem_cons.mp hc with hc | hc
        · subst hc; exact ha
        · exact h c hc
      · right
        refine ⟨a :: mid, h, post, by simp [heq], ?_, hv, ht⟩
        intro c hc
        rcases List.mem_cons.mp hc with hc | hc
        · subst hc; exact ha
        · exact hmid c hc

/-- Load hit on a set: the lines before the hit line are aged, the hit line is reset,
the lines after it are left as they are. -/
theorem lw_set_hit (tag : Int) (mid post : List cache_cell) (h : cache_cell)
    (hmid : ∀ c ∈ mid, ¬ (c.valid = true ∧ c.tag = tag)) (hv : h.valid = true)
    (ht : h.tag = tag) :
    lw_set tag (mid ++ h :: post).length (mid ++ h :: post) =
      (true, mid.map aged ++ { h with last_access := 0 } :: post) := by
  obtain ⟨v, hv1⟩ := lw_loop_hit tag mid [] post h 0 0 hmid hv ht
  simp only [List.nil_append, List.length_nil] at hv1
  simp only [lw_set, hv1]
  rfl

/-- The store scan ages every line of the set, whatever the recencies. -/
theorem sw_loop_set (set : List cache_cell) :
    ∃ v, sw_loop set.length 0 set 0 0 = (set.map aged, v) := by
  obtain ⟨v, lla1, hv, _⟩ :=
    sw_loop_spec (fun j => (set.getD j default).last_access) set [] 0 0
      (by intro k _; simp) ⟨by intro j hj; simp at hj, by intro j hj; omega, Or.inr ⟨rfl, rfl⟩⟩
  exact ⟨v, by simpa using hv⟩

theorem tag_unique_aged (set : List cache_cell) (h : tag_unique set) :
    tag_unique (set.map aged) := by
  unfold tag_unique at *
  rw [List.pairwise_map]
  exact h

/-- The read resolution keeps the length of the set and tag uniqueness. -/
theorem lw_set_unique (tag : Int) (set : List cache_cell) (h : tag_unique set) :
    (lw_set tag set.length set).2.length = set.length ∧
    tag_unique (lw_set tag set.length set).2 := by
  rcases first_match_split tag set with hno | ⟨mid, c, post, heq, hmid, hv, ht⟩
  · obtain ⟨v, hv⟩ := sw_loop_set set
    have hl := lw_loop_miss tag set [] 0 0 hno
    simp only [List.nil_append, List.length_nil] at hl
    have heq : lw_set tag set.length set =
        (false, (set.map aged).set v { valid := true, tag := tag, last_access := 0 }) := by
      simp only [lw_set, hl, hv, install]
      rfl
    rw [heq]
    refine ⟨by simp, ?_⟩
    apply pairwise_set _ _ _ (tag_unique_aged set h)
    intro c hc
    obtain ⟨c0, hc0, rfl⟩ := List.mem_map.mp hc
    have := hno c0 hc0
    constructor
    · intro hh; exact this ⟨hh.2.1, hh.2.2.symm⟩
    · intro hh; exact this ⟨hh.1, hh.2.2⟩
  · subst heq
    rw [lw_set_hit tag mid post c hmid hv ht]
    refine ⟨by simp, ?_⟩
    unfold tag_unique at *
    rw [List.pairwise_append] at h ⊢
    rw [List.pairwise_cons] at h ⊢
    obtain ⟨h1, ⟨h2, h3⟩, h4⟩ := h
    refine ⟨by rw [List.pairwise_map]; exact h1, ⟨fun d hd => h2 d hd, h3⟩, ?_⟩
    intro a ha b hb
    obtain ⟨a0, ha0, rfl⟩ := List.mem_map.mp ha
    rcases List.mem_cons.mp hb with hb | hb
    · subst hb
      exact h4 a0 ha0 c (List.mem_cons_self _ _)
    · exact h4 a0 ha0 b (List.mem_cons_of_mem _ hb)

theorem cache_getD_mem (cache : List (List cache_cell)) (row : Nat) (h : row < cache.length) :
    cache.getD row [] ∈ cache := by
  rw [List.getD_eq_getElem _ _ h]
  exact List.getElem_mem _

/-- A load keeps, in every set, the number of lines and tag uniqueness. -/
theorem load_level_unique (l : level) (cache : List (List cache_cell)) (addr : Nat)
    (h : ∀ set ∈ cache, set.length = l.assoc ∧ tag_unique set) :
    ∀ set ∈ (load_level l cache addr).2, set.length = l.assoc ∧ tag_unique set := by
  intro set hset
  simp only [load_level] at hset
  by_cases hrow : block_row l addr < cache.length
  · rcases List.mem_or_eq_of_mem_set hset with h1 | h1
    · exact h set h1
    · obtain ⟨hl, hu⟩ := h _ (cache_getD_mem cache _ hrow)
      have := lw_set_unique (block_tag l addr) _ hu
      rw [hl] at this
      rw [h1]
      exact ⟨by rw [this.1], this.2⟩
  · rw [List.set_eq_of_length_le (by omega)] at hset
    exact h set hset

theorem init_cache_unique (rows assoc : Nat) :
    ∀ set ∈ init_cache rows assoc, set.length = assoc ∧ tag_unique set := by
  intro set hset
  have := List.eq_of_mem_replicate hset
  subst this
  refine ⟨by simp, ?_⟩
  unfold tag_unique
  rw [List.pairwise_replicate]
  right
  simp

/-- The write resolution keeps the length of the set, and tag uniqueness when no valid
line of the set holds the stored tag. -/
theorem sw_set_unique (tag : Int) (set : List cache_cell) (h : tag_unique set)
    (hno : ∀ c ∈ set, ¬ (c.valid = true ∧ c.tag = tag)) :
    (sw_set tag set.length set).length = set.length ∧
    tag_unique (sw_set tag set.length set) := by
  obtain ⟨v, hv⟩ := sw_loop_set set
  have heq : sw_set tag set.length set =
      (set.map aged).set v { valid := true, tag := tag, last_access := 0 } := by
    simp only [sw_set, hv, install]
  rw [heq]
  refine ⟨by simp, ?_⟩
  apply pairwise_set _ _ _ (tag_unique_aged set h)
  intro c hc
  obtain ⟨c0, hc0, rfl⟩ := List.mem_map.mp hc
  have := hno c0 hc0
  constructor
  · intro hh; exact this ⟨hh.2.1, hh.2.2.symm⟩
  · intro hh; exact this ⟨hh.1, hh.2.2⟩

/-- A store of a tag that no valid line of the addressed set holds keeps, in every set,
the number of lines and tag uniqueness. -/
theorem store_level_unique (l : level) (cache : List (List cache_cell)) (addr : Nat)
    (h : ∀ set ∈ cache, set.length = l.assoc ∧ tag_unique set)
    (hno : ∀ c ∈ cache.getD (block_row l addr) [],
      ¬ (c.valid = true ∧ c.tag = block_tag l addr)) :
    ∀ set ∈ store_level l cache addr, set.length = l.assoc ∧ tag_unique set := by
  intro set hset
  simp only [store_level] at hset
  by_cases hrow : block_row l addr < cache.length
  · rcases List.mem_or_eq_of_mem_set hset with h1 | h1
    · exact h set h1
    · obtain ⟨hl, hu⟩ := h _ (cache_getD_mem cache _ hrow)
      have := sw_set_unique (block_tag l addr) _ hu hno
      rw [hl] at this
      rw [h1]
      exact ⟨by rw [this.1], this.2⟩
  · rw [List.set_eq_of_length_le (by omega)] at hset
    exact h set hset

theorem run_accesses_unique (l : level) (accs : List access) :
    ∀ cache : List (List cache_cell),
      (∀ set ∈ cache, set.length = l.assoc ∧ tag_unique set) →
      stores_fresh l accs cache →
      ∀ set ∈ run_accesses l accs cache, set.length = l.assoc ∧ tag_unique set := by
  induction accs with
  | nil => intro cache h _; simpa [run_accesses] using h
  | cons a accs ih =>
    intro cache h hf
    cases a with
    | load addr =>
      have := ih _ (load_level_unique l cache addr h) hf
      simpa [run_accesses, apply_access] using this
    | store addr =>
      have := ih _ (store_level_unique l cache addr h hf.1) hf.2
      simpa [run_accesses, apply_access] using this

theorem stores_fresh_loads (l : level) (addrs : List Nat) :
    ∀ cache : List (List cache_cell), stores_fresh l (addrs.map access.load) cache := by
  induction addrs with
  | nil => intro cache; trivial
  | cons a addrs ih => intro cache; exact ih _

/-- C8 (counterexample): under configuration "2,2,1", two stores to address 0 on the
fresh cache leave row 0 with two valid lines holding tag 0 (the run of
`sw $0,0($0); sw $0,0($0)` reaches this cache), so tag uniqueness does not hold for
every sequence of loads and stores. -/
theorem C8_store_duplicates_tag :
    (one_cache_steps level_2_2_1 2 stores_start).cache =
      [[{ valid := true, tag := 0, last_access := 1 },
        { valid := true, tag := 0, last_access := 0 }]] ∧
    run_accesses level_2_2_1 [access.store 0, access.store 0] (init_cache 1 2) =
      [[{ valid := true, tag := 0, last_access := 1 },
        { valid := true, tag := 0, last_access := 0 }]] ∧
    ¬ (∀ (l : level) (accs : List access),
        ∀ set ∈ run_accesses l accs (init_cache l.rows l.assoc), tag_unique set) := by
  refine ⟨rfl, rfl, ?_⟩
  intro h
  exact absurd (h level_2_2_1 [access.store 0, access.store 0]) (by decide)

/-- C8 (amended): for every cache geometry and every sequence of loads and stores applied
to a freshly initialised cache in which no store addresses a set where a valid line
already holds the stored tag, every set contains at most one valid line holding any given
tag; every sequence of loads alone is such a sequence. -/
theorem C8_tag_unique_fresh_stores (l : level) (accs : List access)
    (hf : stores_fresh l accs (init_cache l.rows l.assoc)) :
    (∀ set ∈ run_accesses l accs (init_cache l.rows l.assoc), tag_unique set) ∧
    (∀ addrs : List Nat,
      ∀ set ∈ run_accesses l (addrs.map access.load) (init_cache l.rows l.assoc),
        tag_unique set) := by
  constructor
  · intro set hset
    exact (run_accesses_unique l accs _ (init_cache_unique l.rows l.assoc) hf set hset).2
  · intro addrs set hset
    exact (run_accesses_unique l _ _ (init_cache_unique l.rows l.assoc)
      (stores_fresh_loads l addrs _) set hset).2

/-- C8 (witness): under "2,2,1" the sequence store 0, load 0, store 1, load 2 has only
fresh stores, and the set it leaves, [tag 2, tag 1], is tag-unique. -/
theorem C8_tag_unique_fresh_stores_witness :
    stores_fresh level_2_2_1
      [access.store 0, access.load 0, access.store 1, access.load 2]
      (init_cache level_2_2_1.rows level_2_2_1.assoc) ∧
    run_accesses level_2_2_1
      [access.store 0, access.load 0, access.store 1, access.load 2]
      (init_cache level_2_2_1.rows level_2_2_1.assoc) =
      [[{ valid := true, tag := 2, last_access := 0 },
        { valid := true, tag := 1, last_access := 1 }]] ∧
    tag_unique [({ valid := true, tag := 2, last_access := 0 } : cache_cell),
      { valid := true, tag := 1, last_access := 1 }] :=
  ⟨by decide, by decide,
    (C8_tag_unique_fresh_stores level_2_2_1
      [access.store 0, access.load 0, access.store 1, access.load 2] (by decide)).1 _
      (by decide)⟩

/-! ## C9: the caches do not influence the architectural state -/

/-- One iteration of the one-level loop and one iteration of the two-level loop, from the
same architectural state, lead to the same architectural state. -/
theorem one_two_arch (l1 k1 k2 : level) (s : Sim1) (t : Sim2) (h : arch1 s = arch2 t) :
    arch1 (one_cache_body l1 s) = arch2 (two_cache_body k1 k2 t) := by
  obtain ⟨m, r, p, c, lg, hl⟩ := s
  obtain ⟨m2, r2, p2, c1, c2, lg2, hl2⟩ := t
  simp only [arch1, arch2, Arch.mk.injEq] at h
  obtain ⟨rfl, rfl, rfl, rfl⟩ := h
  simp only [one_cache_body, two_cache_body, arch1, arch2]
  generalize decode (m (p % 8192)) = d
  split
  all_goals first | rfl | (split <;> first | rfl | (split <;> rfl))

theorem one_two_steps_arch (l1 k1 k2 : level) (n : Nat) :
    ∀ (s : Sim1) (t : Sim2), arch1 s = arch2 t →
      arch1 (one_cache_steps l1 n s) = arch2 (two_cache_steps k1 k2 n t) := by
  induction n with
  | zero => intro s t h; exact h
  | succ n ih =>
    intro s t h
    have hh : s.halt = t.halt := congrArg Arch.halt h
    unfold one_cache_steps two_cache_steps
    by_cases hs : s.halt = true
    · simpa [hs, ← hh] using h
    · have ht : ¬ t.halt = true := by rw [← hh]; exact hs
      simp only [hs, ht, if_false]
      exact ih _ _ (one_two_arch l1 k1 k2 s t h)

/-- A two-level state with the architectural state of a one-level state. -/
theorem exists_two_of_one (s : Sim1) : ∃ t : Sim2, arch1 s = arch2 t :=
  ⟨{ memory := s.memory, regs := s.regs, pc := s.pc, l1_cache := [], l2_cache := [],
     log := [], halt := s.halt }, rfl⟩

/-- A one-level state with the architectural state of a two-level state. -/
theorem exists_one_of_two (t : Sim2) : ∃ s : Sim1, arch1 s = arch2 t :=
  ⟨{ memory := t.memory, regs := t.regs, pc := t.pc, cache := [], log := [],
     halt := t.halt }, rfl⟩

/-- C9: the architectural state (memory image, register file, PC, halt flag) after any
number of loop iterations is the same for any two cache configurations and any cache
contents, one-level against one-level, one-level against two-level and two-level against
two-level, provided the runs start from the same architectural state; and in both
simulators a store writes the stored register into `memory[address]` and a load reads
`memory[address]` into its destination register (when that is not register 0). -/
theorem C9_memory_authoritative :
    (∀ (l1 k1 : level) (s s1 : Sim1), arch1 s = arch1 s1 → ∀ n,
        arch1 (one_cache_steps l1 n s) = arch1 (one_cache_steps k1 n s1)) ∧
    (∀ (l1 k1 k2 : level) (s : Sim1) (t : Sim2), arch1 s = arch2 t → ∀ n,
        arch1 (one_cache_steps l1 n s) = arch2 (two_cache_steps k1 k2 n t)) ∧
    (∀ (l1 l2 k1 k2 : level) (t t1 : Sim2), arch2 t = arch2 t1 → ∀ n,
        arch2 (two_cache_steps l1 l2 n t) = arch2 (two_cache_steps k1 k2 n t1)) ∧
    (∀ (l1 : level) (s : Sim1), (decode (s.memory (s.pc % 8192))).opcode = 5 →
        (one_cache_body l1 s).memory =
          write s.memory (access_addr s.memory s.regs s.pc)
            (s.regs (decode (s.memory (s.pc % 8192))).regB)) ∧
    (∀ (l1 l2 : level) (t : Sim2), (decode (t.memory (t.pc % 8192))).opcode = 5 →
        (two_cache_body l1 l2 t).memory =
          write t.memory (access_addr t.memory t.regs t.pc)
            (t.regs (decode (t.memory (t.pc % 8192))).regB)) ∧
    (∀ (l1 : level) (s : Sim1), (decode (s.memory (s.pc % 8192))).opcode = 4 →
        (decode (s.memory (s.pc % 8192))).regB ≠ 0 →
        (one_cache_body l1 s).memory = s.memory ∧
        (one_cache_body l1 s).regs (decode (s.memory (s.pc % 8192))).regB =
          s.memory (access_addr s.memory s.regs s.pc)) ∧
    (∀ (l1 l2 : level) (t : Sim2), (decode (t.memory (t.pc % 8192))).opcode = 4 →
        (decode (t.memory (t.pc % 8192))).regB ≠ 0 →
        (two_cache_body l1 l2 t).memory = t.memory ∧
        (two_cache_body l1 l2 t).regs (decode (t.memory (t.pc % 8192))).regB =
          t.memory (access_addr t.memory t.regs t.pc)) := by
  refine ⟨?_, ?_, ?_, ?_, ?_, ?_, ?_⟩
  · intro l1 k1 s s1 h n
    obtain ⟨t, ht⟩ := exists_two_of_one s
    rw [one_two_steps_arch l1 l1 l1 n s t ht,
      one_two_steps_arch k1 l1 l1 n s1 t (h ▸ ht)]
  · intro l1 k1 k2 s t h n
    exact one_two_steps_arch l1 k1 k2 n s t h
  · intro l1 l2 k1 k2 t t1 h n
    obtain ⟨s, hs⟩ := exists_one_of_two t
    rw [← one_two_steps_arch l1 l1 l2 n s t hs,
      ← one_two_steps_arch l1 k1 k2 n s t1 (h ▸ hs)]
  · intro l1 s hop
    rw [one_cache_body_sw l1 s hop]
  · intro l1 l2 t hop
    rw [two_cache_body_sw l1 l2 t hop]
  · intro l1 s hop hb
    rw [one_cache_body_lw l1 s hop]
    simp [write, hb]
  · intro l1 l2 t hop hb
    have h := two_cache_body_lw l1 l2 t hop
    rw [h.1, h.2.1]
    simp [write, hb]

/-- C9 (witness): on `prog_loads`, four iterations of the one-level simulator under
"2,2,1" and of the two-level simulator under "4,1,2,2,2,1" start from the same
architectural state and reach the same architectural state. -/
theorem C9_memory_authoritative_witness :
    arch1 loads_start = arch2 loads_start_other ∧
    arch1 (one_cache_steps level_2_2_1 4 loads_start) =
      arch2 (two_cache_steps level_4_1_2 level_2_2_1 4 loads_start_other) :=
  ⟨rfl, C9_memory_authoritative.2.1 level_2_2_1 level_4_1_2 level_2_2_1 loads_start
    loads_start_other rfl 4⟩

/-! ## C10: memory accesses stay inside the image -/

theorem mem_addr_lt (rA : Nat) (imm7 : Int) : mem_addr rA imm7 < 8192 := by
  unfold mem_addr
  omega

theorem xor_127 : ∀ v < 128, v ^^^ 0b1111111 = 127 - v := by decide

theorem decode_imm7 (w : Nat) :
    (decode w).imm7 = if w % 128 < 64 then ((w % 128 : Nat) : Int) else ((w % 128 : Nat) : Int) - 128 := by
  have h1 : w &&& 0b1111111 = w % 128 := by
    have h : (0b1111111 : Nat) = 2 ^ 7 - 1 := by decide
    rw [h, Nat.and_pow_two_sub_one_eq_mod]
  have h2 : (w >>> 6) &&& 1 = w / 64 % 2 := by
    rw [Nat.shiftRight_eq_div_pow, Nat.and_one_is_mod]
  have h3 := xor_127 (w % 128) (Nat.mod_lt _ (by norm_num))
  simp only [decode, h1, h2, h3, if_true]
  by_cases hb : w % 128 < 64
  · have : w / 64 % 2 = 0 := by omega
    simp [this, hb]
  · have : w / 64 % 2 = 1 := by omega
    simp [this, hb]
    omega

theorem extract_imm7 (w : Nat) : extract_bits w 0 6 = w % 128 := by
  rw [extract_bits_eq]
  have : w / 2 ^ 0 % 2 ^ (6 - 0 + 1) = w % 128 := by norm_num
  rw [this]
  have := Nat.mod_lt w (show 0 < 128 by norm_num)
  omega

/-- The effective address of the cache simulator is `(source + sign_extend(imm7)) % 8192`. -/
theorem access_addr_eq (memory regs : Nat → Nat) (pc : Nat) :
    access_addr memory regs pc =
      (regs (decode (memory (pc % 8192))).regA +
        sign_extend (extract_bits (memory (pc % 8192)) 0 6)) % 8192 := by
  have hse := sign_extend_cases _ (imm7_lt (memory (pc % 8192)))
  have h7 := imm7_lt (memory (pc % 8192))
  rw [hse]
  rw [extract_imm7] at *
  simp only [access_addr, mem_addr, decode_imm7]
  split_ifs <;> omega
theorem execute_lw (pc : Nat) (memory registers : Nat → Nat)
    (h : extract_bits (memory (pc % MEM_SIZE)) 13 15 = 4) :
    execute_instruction pc memory registers =
      some { next_pc := u16 (pc + 1), memory := memory,
             registers :=
               write
                 (if extract_bits (memory (pc % MEM_SIZE)) 7 9 ≠ 0 then
                    write registers (extract_bits (memory (pc % MEM_SIZE)) 7 9)
                      (memory ((registers (extract_bits (memory (pc % MEM_SIZE)) 10 12) +
                        sign_extend (extract_bits (memory (pc % MEM_SIZE)) 0 6)) % 8192))
                  else registers) 0 0 } := by
  simp only [execute_instruction, execute_switch, h, mask13_eq_mod]
  rfl

theorem execute_sw (pc : Nat) (memory registers : Nat → Nat)
    (h : extract_bits (memory (pc % MEM_SIZE)) 13 15 = 5) :
    execute_instruction pc memory registers =
      some { next_pc := u16 (pc + 1),
             memory := write memory
               ((registers (extract_bits (memory (pc % MEM_SIZE)) 10 12) +
                  sign_extend (extract_bits (memory (pc % MEM_SIZE)) 0 6)) % 8192)
               (registers (extract_bits (memory (pc % MEM_SIZE)) 7 9)),
             registers := write registers 0 0 } := by
  simp only [execute_instruction, execute_switch, h, mask13_eq_mod]
  rfl

/-- The step `execute_instruction` reads and writes `memory` only below `MEM_SIZE`. -/
theorem execute_mem_local (pc : Nat) (registers memory memory1 : Nat → Nat)
    (hm : ∀ a, a < 8192 → memory a = memory1 a) :
    ∃ r r1, execute_instruction pc memory registers = some r ∧
      execute_instruction pc memory1 registers = some r1 ∧
      r.next_pc = r1.next_pc ∧ r.registers = r1.registers ∧
      (∀ a, a < 8192 → r.memory a = r1.memory a) ∧
      (∀ a, 8192 ≤ a → r.memory a = memory a) := by
  obtain ⟨r, hr⟩ := execute_instruction_total pc memory registers
  obtain ⟨r1, hr1⟩ := execute_instruction_total pc memory1 registers
  refine ⟨r, r1, hr, hr1, ?_⟩
  have hf : memory1 (pc % MEM_SIZE) = memory (pc % MEM_SIZE) :=
    (hm _ (by rw [MEM_SIZE_eq]; exact Nat.mod_lt _ (by norm_num))).symm
  have hop := opcode_lt (memory (pc % MEM_SIZE))
  simp only [execute_instruction, execute_switch, hf, mask13_eq_mod] at hr hr1
  generalize memory (pc % MEM_SIZE) = w at hr hr1 hop
  have hlt : ∀ x : Nat, x % 8192 < 8192 := fun x => Nat.mod_lt _ (by norm_num)
  generalize hopc : extract_bits w 13 15 = op at hr hr1 hop
  interval_cases op
  all_goals
    simp only [Option.map_some', Option.some.injEq] at hr hr1
    subst hr hr1
    simp only [true_and]
  case «4» => rw [hm _ (hlt _)]; exact ⟨rfl, hm, fun _ _ => trivial⟩
  case «5» =>
    refine ⟨?_, ?_⟩
    · intro a ha
      simp only [write]
      split
      · rfl
      · exact hm a ha
    · intro a ha
      have := hlt (registers (extract_bits w 10 12) + sign_extend (extract_bits w 0 6))
      simp only [write]
      rw [if_neg (by omega)]
  all_goals exact ⟨hm, fun _ _ => trivial⟩

/-- One iteration of `simulate_one_cache` reads and writes `memory` only below 8192. -/
theorem one_cache_mem_local (l1 : level) (s : Sim1) (memory1 : Nat → Nat)
    (hm : ∀ a, a < 8192 → s.memory a = memory1 a) :
    (one_cache_body l1 { s with memory := memory1 }).regs = (one_cache_body l1 s).regs ∧
    (one_cache_body l1 { s with memory := memory1 }).pc = (one_cache_body l1 s).pc ∧
    (one_cache_body l1 { s with memory := memory1 }).halt = (one_cache_body l1 s).halt ∧
    (one_cache_body l1 { s with memory := memory1 }).cache = (one_cache_body l1 s).cache ∧
    (one_cache_body l1 { s with memory := memory1 }).log = (one_cache_body l1 s).log ∧
    (∀ a, a < 8192 →
      (one_cache_body l1 s).memory a = (one_cache_body l1 { s with memory := memory1 }).memory a) ∧
    (∀ a, 8192 ≤ a → (one_cache_body l1 s).memory a = s.memory a) := by
  obtain ⟨m, r, p, c, lg, hl⟩ := s
  simp only at hm
  have hf : memory1 (p % 8192) = m (p % 8192) := (hm _ (Nat.mod_lt _ (by norm_num))).symm
  simp only [one_cache_body, hf]
  generalize decode (m (p % 8192)) = d
  have hlt := mem_addr_lt (r d.regA) d.imm7
  have hrd := hm _ hlt
  split
  all_goals try split
  all_goals
    refine ⟨?_, ?_, ?_, ?_, ?_, ?_, ?_⟩
  all_goals first
    | rfl
    | exact hm
    | (intro a _; rfl)
    | (rw [hrd])
    | (intro a ha; simp only [write]; split <;> first | rfl | exact hm a ha)
    | (intro a ha; simp only [write]; rw [if_neg (by omega)])

/-- One iteration of `simulate_two_cache` reads and writes `memory` only below 8192. -/
theorem two_cache_mem_local (l1 l2 : level) (s : Sim2) (memory1 : Nat → Nat)
    (hm : ∀ a, a < 8192 → s.memory a = memory1 a) :
    (two_cache_body l1 l2 { s with memory := memory1 }).regs = (two_cache_body l1 l2 s).regs ∧
    (two_cache_body l1 l2 { s with memory := memory1 }).pc = (two_cache_body l1 l2 s).pc ∧
    (two_cache_body l1 l2 { s with memory := memory1 }).halt = (two_cache_body l1 l2 s).halt ∧
    (two_cache_body l1 l2 { s with memory := memory1 }).l1_cache =
      (two_cache_body l1 l2 s).l1_cache ∧
    (two_cache_body l1 l2 { s with memory := memory1 }).l2_cache =
      (two_cache_body l1 l2 s).l2_cache ∧
    (two_cache_body l1 l2 { s with memory := memory1 }).log = (two_cache_body l1 l2 s).log ∧
    (∀ a, a < 8192 →
      (two_cache_body l1 l2 s).memory a =
        (two_cache_body l1 l2 { s with memory := memory1 }).memory a) ∧
    (∀ a, 8192 ≤ a → (two_cache_body l1 l2 s).memory a = s.memory a) := by
  obtain ⟨m, r, p, c1, c2, lg, hl⟩ := s
  simp only at hm
  have hf : memory1 (p % 8192) = m (p % 8192) := (hm _ (Nat.mod_lt _ (by norm_num))).symm
  simp only [two_cache_body, hf]
  generalize decode (m (p % 8192)) = d
  have hlt := mem_addr_lt (r d.regA) d.imm7
  have hrd := hm _ hlt
  split
  all_goals try split
  all_goals
    refine ⟨?_, ?_, ?_, ?_, ?_, ?_, ?_, ?_⟩
  all_goals first
    | rfl
    | exact hm
    | (intro a _; rfl)
    | (rw [hrd])
    | (intro a ha; simp only [write]; split <;> first | rfl | exact hm a ha)
    | (intro a ha; simp only [write]; rw [if_neg (by omega)])

/-- C10: in e20sim, a load reads and a store writes `memory[(source + sign_extend(imm7))
% 8192]`, an index below 8192, and `execute_instruction` neither depends on nor changes
any memory cell at index 8192 or above (its fetch is `memory[pc % 8192]`).  In the cache
simulator the effective address of `lw` and `sw` is the same
`(source + sign_extend(imm7)) % 8192`, below 8192, the load reads and the store writes
that cell, and one loop iteration of either simulator neither depends on nor changes any
memory cell at index 8192 or above. -/
theorem C10_addresses_in_image :
    (∀ (pc : Nat) (memory registers : Nat → Nat),
      extract_bits (memory (pc % MEM_SIZE)) 13 15 = 4 →
      (registers (extract_bits (memory (pc % MEM_SIZE)) 10 12) +
        sign_extend (extract_bits (memory (pc % MEM_SIZE)) 0 6)) % 8192 < 8192 ∧
      execute_instruction pc memory registers =
        some { next_pc := u16 (pc + 1), memory := memory,
               registers :=
                 write
                   (if extract_bits (memory (pc % MEM_SIZE)) 7 9 ≠ 0 then
                      write registers (extract_bits (memory (pc % MEM_SIZE)) 7 9)
                        (memory ((registers (extract_bits (memory (pc % MEM_SIZE)) 10 12) +
                          sign_extend (extract_bits (memory (pc % MEM_SIZE)) 0 6)) % 8192))
                    else registers) 0 0 }) ∧
    (∀ (pc : Nat) (memory registers : Nat → Nat),
      extract_bits (memory (pc % MEM_SIZE)) 13 15 = 5 →
      (registers (extract_bits (memory (pc % MEM_SIZE)) 10 12) +
        sign_extend (extract_bits (memory (pc % MEM_SIZE)) 0 6)) % 8192 < 8192 ∧
      execute_instruction pc memory registers =
        some { next_pc := u16 (pc + 1),
               memory := write memory
                 ((registers (extract_bits (memory (pc % MEM_SIZE)) 10 12) +
                    sign_extend (extract_bits (memory (pc % MEM_SIZE)) 0 6)) % 8192)
                 (registers (extract_bits (memory (pc % MEM_SIZE)) 7 9)),
               registers := write registers 0 0 }) ∧
    (∀ (pc : Nat) (registers memory memory1 : Nat → Nat),
      (∀ a, a < 8192 → memory a = memory1 a) →
      ∃ r r1, execute_instruction pc memory registers = some r ∧
        execute_instruction pc memory1 registers = some r1 ∧
        r.next_pc = r1.next_pc ∧ r.registers = r1.registers ∧
        (∀ a, a < 8192 → r.memory a = r1.memory a) ∧
        (∀ a, 8192 ≤ a → r.memory a = memory a)) ∧
    (∀ (memory regs : Nat → Nat) (pc : Nat),
      access_addr memory regs pc < 8192 ∧
      access_addr memory regs pc =
        (regs (decode (memory (pc % 8192))).regA +
          sign_extend (extract_bits (memory (pc % 8192)) 0 6)) % 8192) ∧
    (∀ (l1 : level) (s : Sim1), (decode (s.memory (s.pc % 8192))).opcode = 4 →
      (one_cache_body l1 s).regs =
        write (write s.regs (decode (s.memory (s.pc % 8192))).regB
          (s.memory (access_addr s.memory s.regs s.pc))) 0 0) ∧
    (∀ (l1 : level) (s : Sim1), (decode (s.memory (s.pc % 8192))).opcode = 5 →
      (one_cache_body l1 s).memory =
        write s.memory (access_addr s.memory s.regs s.pc)
          (s.regs (decode (s.memory (s.pc % 8192))).regB)) ∧
    (∀ (l1 l2 : level) (t : Sim2), (decode (t.memory (t.pc % 8192))).opcode = 4 →
      (two_cache_body l1 l2 t).regs =
        write (write t.regs (decode (t.memory (t.pc % 8192))).regB
          (t.memory (access_addr t.memory t.regs t.pc))) 0 0) ∧
    (∀ (l1 l2 : level) (t : Sim2), (decode (t.memory (t.pc % 8192))).opcode = 5 →
      (two_cache_body l1 l2 t).memory =
        write t.memory (access_addr t.memory t.regs t.pc)
          (t.regs (decode (t.memory (t.pc % 8192))).regB)) ∧
    (∀ (l1 : level) (s : Sim1) (memory1 : Nat → Nat),
      (∀ a, a < 8192 → s.memory a = memory1 a) →
      (one_cache_body l1 { s with memory := memory1 }).regs = (one_cache_body l1 s).regs ∧
      (one_cache_body l1 { s with memory := memory1 }).pc = (one_cache_body l1 s).pc ∧
      (one_cache_body l1 { s with memory := memory1 }).halt = (one_cache_body l1 s).halt ∧
      (∀ a, a < 8192 →
        (one_cache_body l1 s).memory a =
          (one_cache_body l1 { s with memory := memory1 }).memory a) ∧
      (∀ a, 8192 ≤ a → (one_cache_body l1 s).memory a = s.memory a)) ∧
    (∀ (l1 l2 : level) (t : Sim2) (memory1 : Nat → Nat),
      (∀ a, a < 8192 → t.memory a = memory1 a) →
      (two_cache_body l1 l2 { t with memory := memory1 }).regs = (two_cache_body l1 l2 t).regs ∧
      (two_cache_body l1 l2 { t with memory := memory1 }).pc = (two_cache_body l1 l2 t).pc ∧
      (two_cache_body l1 l2 { t with memory := memory1 }).halt =
        (two_cache_body l1 l2 t).halt ∧
      (∀ a, a < 8192 →
        (two_cache_body l1 l2 t).memory a =
          (two_cache_body l1 l2 { t with memory := memory1 }).memory a) ∧
      (∀ a, 8192 ≤ a → (two_cache_body l1 l2 t).memory a = t.memory a)) := by
  refine ⟨?_, ?_, execute_mem_local, ?_, ?_, ?_, ?_, ?_, ?_, ?_⟩
  · intro pc memory registers h
    exact ⟨Nat.mod_lt _ (by norm_num), execute_lw pc memory registers h⟩
  · intro pc memory registers h
    exact ⟨Nat.mod_lt _ (by norm_num), execute_sw pc memory registers h⟩
  · intro memory regs pc
    exact ⟨mem_addr_lt _ _, access_addr_eq memory regs pc⟩
  · intro l1 s h
    rw [one_cache_body_lw l1 s h]
  · intro l1 s h
    rw [one_cache_body_sw l1 s h]
  · intro l1 l2 t h
    exact (two_cache_body_lw l1 l2 t h).2.1
  · intro l1 l2 t h
    rw [two_cache_body_sw l1 l2 t h]
  · intro l1 s memory1 hm
    obtain ⟨h1, h2, h3, _, _, h6, h7⟩ := one_cache_mem_local l1 s memory1 hm
    exact ⟨h1, h2, h3, h6, h7⟩
  · intro l1 l2 t memory1 hm
    obtain ⟨h1, h2, h3, _, _, _, h7, h8⟩ := two_cache_mem_local l1 l2 t memory1 hm
    exact ⟨h1, h2, h3, h7, h8⟩

/-! ## C11: sign extension -/

/-- C11: for every 7-bit value `v`, `sign_extend v` is `v` when bit 6 is clear and
`v + 0xFF80` when bit 6 is set, which is the 16-bit two's-complement encoding of the
signed 7-bit value (`v` below 64, `v - 128` from 64 on); `sign_extend 64 = 0xFFC0` and
`sign_extend 63 = 0x003F`. -/
theorem C11_sign_extend (v : Nat) (hv : v < 128) :
    (v.testBit 6 = false → sign_extend v = v) ∧
    (v.testBit 6 = true → sign_extend v = v + 0xFF80) ∧
    ((sign_extend v : Int) =
      (if v.testBit 6 = true then (v : Int) - 128 else (v : Int)) % 65536) ∧
    sign_extend 64 = 0xFFC0 ∧ sign_extend 63 = 0x003F := by
  revert v
  decide

/-- C11 (witness): the value 64 (bit 6 set) is a 7-bit value and extends to 0xFFC0. -/
theorem C11_sign_extend_witness :
    64 < 128 ∧ (Nat.testBit 64 6 = true → sign_extend 64 = 64 + 0xFF80) :=
  ⟨by decide, (C11_sign_extend 64 (by decide)).2.1⟩

/-! ## C12: the program counter of e20sim -/

/-- The next-PC returned by the switch is a 16-bit value. -/
theorem switch_next_pc_lt {pc : Nat} {memory registers : Nat → Nat} {r : Exec}
    (h : execute_switch pc memory registers = some r) : r.next_pc < 65536 := by
  have h13 := imm13_lt (memory (pc % MEM_SIZE))
  unfold execute_switch at h
  simp only [] at h
  split at h
  case h_9 => exact absurd h (by simp)
  all_goals
    simp only [Option.some.injEq] at h
    subst h
    simp only [u16]
    first | omega | (split_ifs <;> omega)

theorem next_pc_lt {pc : Nat} {memory registers : Nat → Nat} {r : Exec}
    (h : execute_instruction pc memory registers = some r) : r.next_pc < 65536 := by
  unfold execute_instruction at h
  cases hs : execute_switch pc memory registers with
  | none => simp [hs] at h
  | some r0 =>
    simp [hs] at h
    subst h
    exact switch_next_pc_lt (r := r0) hs

theorem simulate_body_eq (s : Machine) {r : Exec}
    (h : execute_instruction s.pc s.memory s.registers = some r) :
    simulate_body s =
      some { pc := r.next_pc, memory := r.memory, registers := r.registers,
             halted := decide (r.next_pc % MEM_SIZE = s.pc) } := by
  simp [simulate_body, h]

theorem simulate_steps_pc_lt (n : Nat) (s : Machine) (h : s.pc < 65536) :
    ∃ t, simulate_steps n s = some t ∧ t.pc < 65536 := by
  induction n generalizing s with
  | zero => exact ⟨s, rfl, h⟩
  | succ n ih =>
    unfold simulate_steps
    by_cases hh : s.halted = true
    · exact ⟨s, by simp [hh], h⟩
    · obtain ⟨r, hr⟩ := execute_instruction_total s.pc s.memory s.registers
      obtain ⟨t, ht, hlt⟩ :=
        ih { pc := r.next_pc, memory := r.memory, registers := r.registers,
             halted := decide (r.next_pc % MEM_SIZE = s.pc) } (next_pc_lt hr)
      exact ⟨t, by simp [hh, simulate_body_eq s hr, ht], hlt⟩

/-- On the empty image every step is `add $0,$0,$0`: the PC goes up by one, nothing
else changes and the run does not halt. -/
theorem zero_image_body (pc : Nat) (regs : Nat → Nat) (h0 : ∀ i, regs i = 0)
    (hpc : pc + 1 < 65536) :
    ∃ regs1, (∀ i, regs1 i = 0) ∧
      simulate_body { pc := pc, memory := mem_zero, registers := regs, halted := false } =
        some { pc := pc + 1, memory := mem_zero, registers := regs1, halted := false } := by
  have e1 : extract_bits 0 13 15 = 0 := by decide
  have e2 : extract_bits 0 4 6 = 0 := by decide
  have e3 : extract_bits 0 0 3 = 0 := by decide
  refine ⟨write regs 0 0, ?_, ?_⟩
  · intro i; simp [write, h0]
  · have hne : ¬ ((pc + 1) % 8192 = pc) := by omega
    have hu : (pc + 1) % 65536 = pc + 1 := Nat.mod_eq_of_lt hpc
    simp [simulate_body, execute_instruction, execute_switch, mem_zero, e1, e2, e3, u16,
      MEM_SIZE_eq, hne, hu]

theorem zero_image_steps (n : Nat) :
    ∀ (pc : Nat) (regs : Nat → Nat), (∀ i, regs i = 0) → pc + n < 65536 →
      ∃ regs1, (∀ i, regs1 i = 0) ∧
        simulate_steps n { pc := pc, memory := mem_zero, registers := regs, halted := false } =
          some { pc := pc + n, memory := mem_zero, registers := regs1, halted := false } := by
  induction n with
  | zero => intro pc regs h0 _; exact ⟨regs, h0, rfl⟩
  | succ n ih =>
    intro pc regs h0 hpc
    obtain ⟨regs1, h1, hb⟩ := zero_image_body pc regs h0 (by omega)
    obtain ⟨regs2, h2, hs⟩ := ih (pc + 1) regs1 h1 (by omega)
    refine ⟨regs2, h2, ?_⟩
    have : pc + 1 + n = pc + (n + 1) := by omega
    rw [this] at hs
    simp [simulate_steps, hb, hs]

/-- C12 (counterexample): at PC 8191 on the empty image the step returns next-PC 8192,
does not halt, and the new PC is 8192, not 8192 mod 8192 = 0; and the run started at
PC 0 on the empty image has PC 8192 after 8192 steps, outside [0, 8191]. -/
theorem C12_pc_leaves_image :
    (simulate_body { pc := 8191, memory := mem_zero, registers := regs_zero,
                     halted := false }).map (fun s => (s.pc, s.halted)) =
      some (8192, false) ∧
    (simulate_steps 8192 { pc := 0, memory := mem_zero, registers := regs_zero,
                           halted := false }).map (fun s => (s.pc, s.halted)) =
      some (8192, false) ∧
    ¬ (∀ (memory : Nat → Nat) (n : Nat) (s : Machine),
        simulate_steps n { pc := 0, memory := memory, registers := regs_zero,
                           halted := false } = some s → s.pc < 8192) := by
  have hrun := zero_image_steps 8192 0 regs_zero (fun _ => rfl) (by norm_num)
  obtain ⟨regs1, _, hs⟩ := hrun
  refine ⟨rfl, ?_, ?_⟩
  · rw [hs]; rfl
  · intro h
    have := h mem_zero 8192 _ hs
    simp at this

/-- C12 (amended): in e20sim's `simulate`, after every step the new PC is the next-PC that
`execute_instruction` returned, a 16-bit value that is not reduced modulo 8192 (it is its
own remainder modulo 8192 only when it is below 8192); consequently the PC lies in
[0, 65535] at every step of every run started at PC = 0. -/
theorem C12_pc_is_16_bit (s : Machine) :
    (∃ r, execute_instruction s.pc s.memory s.registers = some r ∧
      r.next_pc < 65536 ∧
      simulate_body s =
        some { pc := r.next_pc, memory := r.memory, registers := r.registers,
               halted := decide (r.next_pc % MEM_SIZE = s.pc) } ∧
      (r.next_pc % 8192 = r.next_pc ↔ r.next_pc < 8192)) ∧
    (∀ (n : Nat) (memory registers : Nat → Nat),
      ∃ t, simulate_steps n { pc := 0, memory := memory, registers := registers,
                              halted := false } = some t ∧ t.pc < 65536) := by
  constructor
  · obtain ⟨r, hr⟩ := execute_instruction_total s.pc s.memory s.registers
    refine ⟨r, hr, next_pc_lt hr, simulate_body_eq s hr, ?_⟩
    constructor
    · intro h; omega
    · intro h; exact Nat.mod_eq_of_lt h
  · intro n memory registers
    exact simulate_steps_pc_lt n _ (by norm_num)

/-! ## C13: conflict misses in a direct-mapped cache -/

theorem init_cache_getD (rows assoc row : Nat) (h : row < rows) :
    (init_cache rows assoc).getD row [] =
      List.replicate assoc { valid := false, tag := 0, last_access := 0 } := by
  simp [init_cache, List.getElem?_replicate, h]

theorem init_cache_length (rows assoc : Nat) : (init_cache rows assoc).length = rows := by
  simp [init_cache]

theorem getD_set_self (cache : List (List cache_cell)) (row : Nat) (x : List cache_cell)
    (h : row < cache.length) : (cache.set row x).getD row [] = x := by
  simp [List.getElem?_set, h]

/-- Different blocks of one row have different tags. -/
theorem block_tag_ne (l : level) (a b : Nat) (hb : a / l.blocksize ≠ b / l.blocksize)
    (hr : block_row l a = block_row l b) : block_tag l a ≠ block_tag l b := by
  simp only [block_row] at hr
  simp only [block_tag, ne_eq, Nat.cast_inj]
  intro ht
  apply hb
  rw [← Nat.div_add_mod (a / l.blocksize) l.rows, ← Nat.div_add_mod (b / l.blocksize) l.rows,
    hr, ht]

/-- First load into a fresh one-line set: a miss that installs the tag. -/
theorem load_fresh_direct (l : level) (a : Nat) (h1 : l.assoc = 1) (hrows : 0 < l.rows) :
    load_level l (init_cache l.rows l.assoc) a =
      (false, (init_cache l.rows l.assoc).set (block_row l a)
        [{ valid := true, tag := block_tag l a, last_access := 0 }]) := by
  have hrow : block_row l a < l.rows := Nat.mod_lt _ hrows
  simp only [load_level, init_cache_getD _ _ _ hrow, h1]
  simp [lw_set, lw_loop, install]

/-- Load of another tag into a one-line set that holds a tag: a miss. -/
theorem load_other_direct (l : level) (cache : List (List cache_cell)) (b : Nat) (t : Int)
    (h1 : l.assoc = 1) (hrow : block_row l b < cache.length) (ht : t ≠ block_tag l b) :
    (load_level l (cache.set (block_row l b) [{ valid := true, tag := t, last_access := 0 }])
      b).1 = false := by
  simp only [load_level, getD_set_self _ _ _ hrow, h1]
  simp [lw_set, lw_loop, ht]

/-- C13: configuration size 4, associativity 1, block size 2 has 2 rows; and for every
associativity-1 geometry with at least one row and block size at least 1, and every two
addresses in different blocks that map to the same row, on the freshly initialised cache
a load of the first misses and the following load of the second misses again.  In
`simulate_one_cache`, two consecutive `lw` with such addresses, started on the fresh
cache, log exactly `L1 MISS` and `L1 MISS`. -/
theorem C13_conflict_misses (l : level) (a b : Nat) (h1 : l.assoc = 1) (hrows : 0 < l.rows)
    (_hbs : 0 < l.blocksize) (hblock : a / l.blocksize ≠ b / l.blocksize)
    (hrow : block_row l a = block_row l b) :
    (make_level 4 1 2).rows = 2 ∧
    (load_level l (init_cache l.rows l.assoc) a).1 = false ∧
    (load_level l (load_level l (init_cache l.rows l.assoc) a).2 b).1 = false ∧
    (∀ s : Sim1, s.cache = init_cache l.rows l.assoc →
      (decode (s.memory (s.pc % 8192))).opcode = 4 →
      access_addr s.memory s.regs s.pc = a →
      (decode ((one_cache_body l s).memory ((one_cache_body l s).pc % 8192))).opcode = 4 →
      access_addr (one_cache_body l s).memory (one_cache_body l s).regs
        (one_cache_body l s).pc = b →
      (one_cache_body l (one_cache_body l s)).log = s.log ++
        [{ name := .L1, kind := .MISS, pc := s.pc, addr := a, row := block_row l a },
         { name := .L1, kind := .MISS, pc := (one_cache_body l s).pc, addr := b,
           row := block_row l b }]) := by
  have hfirst := load_fresh_direct l a h1 hrows
  have hsecond : (load_level l (load_level l (init_cache l.rows l.assoc) a).2 b).1 = false := by
    rw [hfirst, hrow]
    exact load_other_direct l _ b _ h1
      (by rw [init_cache_length, ← hrow]; exact Nat.mod_lt _ hrows)
      (block_tag_ne l a b hblock hrow)
  refine ⟨by decide, by rw [hfirst], hsecond, ?_⟩
  intro s hc hop1 ha hop2 hb
  have e1 := one_cache_body_lw l s hop1
  have hc1 : (one_cache_body l s).cache = (load_level l (init_cache l.rows l.assoc) a).2 := by
    rw [e1, hc, ha]
  have hl1 : (one_cache_body l s).log = s.log ++
      [{ name := .L1, kind := .MISS, pc := s.pc, addr := a, row := block_row l a }] := by
    rw [e1, hc, ha, hfirst]
    simp
  rw [one_cache_body_lw l (one_cache_body l s) hop2, hb]
  simp only [hc1, hl1, hsecond]
  simp

/-- C13 (witness): under "4,1,2" the addresses 0 and 8 lie in different blocks of row 0;
both loads miss, and the run of `lw $1,0($0); lw $1,8($0); j 2` logs `L1 MISS` at PC 0
and `L1 MISS` at PC 1. -/
theorem C13_conflict_misses_witness :
    (simulate_one_cache 3 prog_conflict regs_zero 0 (init_cache 2 1) level_4_1_2).map
        (fun s => s.log) =
      some [{ name := .L1, kind := .MISS, pc := 0, addr := 0, row := 0 },
            { name := .L1, kind := .MISS, pc := 1, addr := 8, row := 0 }] ∧
    (make_level 4 1 2).rows = 2 ∧
    (load_level level_4_1_2 (init_cache level_4_1_2.rows level_4_1_2.assoc) 0).1 = false ∧
    (load_level level_4_1_2
      (load_level level_4_1_2 (init_cache level_4_1_2.rows level_4_1_2.assoc) 0).2 8).1 =
      false :=
  ⟨rfl, (C13_conflict_misses level_4_1_2 0 8 (by decide) (by decide) (by decide) (by decide)
    (by decide)).1,
   (C13_conflict_misses level_4_1_2 0 8 (by decide) (by decide) (by decide) (by decide)
    (by decide)).2.1,
   (C13_conflict_misses level_4_1_2 0 8 (by decide) (by decide) (by decide) (by decide)
    (by decide)).2.2.1⟩

/-! ## C14: log events -/

/-- An instruction that is neither `lw` nor `sw` leaves the log of the one-level
simulator as it is. -/
theorem one_cache_body_log_other (l1 : level) (s : Sim1)
    (h4 : (decode (s.memory (s.pc % 8192))).opcode ≠ 4)
    (h5 : (decode (s.memory (s.pc % 8192))).opcode ≠ 5) :
    (one_cache_body l1 s).log = s.log := by
  simp only [one_cache_body]
  generalize decode (s.memory (s.pc % 8192)) = d at h4 h5
  split
  all_goals first | rfl | contradiction | (split <;> rfl)

/-- An instruction that is neither `lw` nor `sw` leaves the log of the two-level
simulator as it is. -/
theorem two_cache_body_log_other (l1 l2 : level) (s : Sim2)
    (h4 : (decode (s.memory (s.pc % 8192))).opcode ≠ 4)
    (h5 : (decode (s.memory (s.pc % 8192))).opcode ≠ 5) :
    (two_cache_body l1 l2 s).log = s.log := by
  simp only [two_cache_body]
  generalize decode (s.memory (s.pc % 8192)) = d at h4 h5
  split
  all_goals first | rfl | contradiction | (split <;> rfl)

/-- C14: in the one-level simulator a load appends exactly one event, `L1 HIT` or
`L1 MISS`; in the two-level simulator a load appends exactly `[L1 HIT]` when L1 hits and
exactly `[L1 MISS, L2 HIT]` or `[L1 MISS, L2 MISS]` when L1 misses; a store appends
exactly `[L1 SW]`, resp. `[L1 SW, L2 SW]`, whatever the caches hold; each event carries
the PC of the instruction, the effective address and the row of its own level; an
instruction that is neither load nor store appends nothing. -/
theorem C14_log_events (l1 l2 : level) (s : Sim1) (t : Sim2) :
    ((decode (s.memory (s.pc % 8192))).opcode = 4 →
      (one_cache_body l1 s).log = s.log ++
        [{ name := .L1,
           kind := if (load_level l1 s.cache (access_addr s.memory s.regs s.pc)).1
                   then .HIT else .MISS,
           pc := s.pc, addr := access_addr s.memory s.regs s.pc,
           row := block_row l1 (access_addr s.memory s.regs s.pc) }]) ∧
    ((decode (t.memory (t.pc % 8192))).opcode = 4 →
      (load_level l1 t.l1_cache (access_addr t.memory t.regs t.pc)).1 = true →
      (two_cache_body l1 l2 t).log = t.log ++
        [{ name := .L1, kind := .HIT, pc := t.pc, addr := access_addr t.memory t.regs t.pc,
           row := block_row l1 (access_addr t.memory t.regs t.pc) }]) ∧
    ((decode (t.memory (t.pc % 8192))).opcode = 4 →
      (load_level l1 t.l1_cache (access_addr t.memory t.regs t.pc)).1 = false →
      (two_cache_body l1 l2 t).log = t.log ++
        [{ name := .L1, kind := .MISS, pc := t.pc, addr := access_addr t.memory t.regs t.pc,
           row := block_row l1 (access_addr t.memory t.regs t.pc) },
         { name := .L2,
           kind := if (load_level l2 t.l2_cache (access_addr t.memory t.regs t.pc)).1
                   then .HIT else .MISS,
           pc := t.pc, addr := access_addr t.memory t.regs t.pc,
           row := block_row l2 (access_addr t.memory t.regs t.pc) }]) ∧
    ((decode (s.memory (s.pc % 8192))).opcode = 5 →
      (one_cache_body l1 s).log = s.log ++
        [{ name := .L1, kind := .SW, pc := s.pc, addr := access_addr s.memory s.regs s.pc,
           row := block_row l1 (access_addr s.memory s.regs s.pc) }]) ∧
    ((decode (t.memory (t.pc % 8192))).opcode = 5 →
      (two_cache_body l1 l2 t).log = t.log ++
        [{ name := .L1, kind := .SW, pc := t.pc, addr := access_addr t.memory t.regs t.pc,
           row := block_row l1 (access_addr t.memory t.regs t.pc) },
         { name := .L2, kind := .SW, pc := t.pc, addr := access_addr t.memory t.regs t.pc,
           row := block_row l2 (access_addr t.memory t.regs t.pc) }]) ∧
    ((decode (s.memory (s.pc % 8192))).opcode ≠ 4 →
      (decode (s.memory (s.pc % 8192))).opcode ≠ 5 →
      (one_cache_body l1 s).log = s.log) ∧
    ((decode (t.memory (t.pc % 8192))).opcode ≠ 4 →
      (decode (t.memory (t.pc % 8192))).opcode ≠ 5 →
      (two_cache_body l1 l2 t).log = t.log) := by
  refine ⟨?_, ?_, ?_, ?_, ?_, one_cache_body_log_other l1 s, two_cache_body_log_other l1 l2 t⟩
  · intro h; rw [one_cache_body_lw l1 s h]
  · intro h hh
    rw [(two_cache_body_lw l1 l2 t h).2.2.2.2.2.2, hh]; rfl
  · intro h hh
    rw [(two_cache_body_lw l1 l2 t h).2.2.2.2.2.2, hh]; rfl
  · intro h; rw [one_cache_body_sw l1 s h]
  · intro h; rw [two_cache_body_sw l1 l2 t h]

/-- C14 (witness): the first instruction of `prog_loads` is a load, the fresh L1 misses,
and the two-level simulator under "2,2,1,2,2,1" logs `L1 MISS` and `L2 MISS` for it. -/
theorem C14_log_events_witness :
    (decode (loads_start2.memory (loads_start2.pc % 8192))).opcode = 4 ∧
    (load_level level_2_2_1 loads_start2.l1_cache
      (access_addr loads_start2.memory loads_start2.regs loads_start2.pc)).1 = false ∧
    (two_cache_body level_2_2_1 level_2_2_1 loads_start2).log =
      [{ name := .L1, kind := .MISS, pc := 0, addr := 0, row := 0 },
       { name := .L2, kind := .MISS, pc := 0, addr := 0, row := 0 }] :=
  ⟨by decide, by decide,
    ((C14_log_events level_2_2_1 level_2_2_1 loads_start loads_start2).2.2.1
      (by decide) (by decide)).trans (by decide)⟩

/-! ## C15: the second level on a load -/

/-- C15: in the two-level simulator, a load that hits in L1 leaves the whole L2 cache as
it is; a load that misses in L1 updates L2 by the read resolution of level L2, which is
what one iteration of the one-level simulator, configured with L2's geometry and holding
L2's cache, does for the same instruction, and the L2 event is that one-level event
under the name L2. -/
theorem C15_l2_on_load (l1 l2 : level) (t : Sim2)
    (hop : (decode (t.memory (t.pc % 8192))).opcode = 4) :
    ((load_level l1 t.l1_cache (access_addr t.memory t.regs t.pc)).1 = true →
      (two_cache_body l1 l2 t).l2_cache = t.l2_cache) ∧
    ((load_level l1 t.l1_cache (access_addr t.memory t.regs t.pc)).1 = false →
      (two_cache_body l1 l2 t).l2_cache =
        (load_level l2 t.l2_cache (access_addr t.memory t.regs t.pc)).2 ∧
      ∀ s : Sim1, s.memory = t.memory → s.regs = t.regs → s.pc = t.pc →
        s.cache = t.l2_cache →
        (two_cache_body l1 l2 t).l2_cache = (one_cache_body l2 s).cache ∧
        ∃ e : log_entry, (one_cache_body l2 s).log = s.log ++ [e] ∧
          (two_cache_body l1 l2 t).log = t.log ++
            [{ name := .L1, kind := .MISS, pc := t.pc,
               addr := access_addr t.memory t.regs t.pc,
               row := block_row l1 (access_addr t.memory t.regs t.pc) },
             { e with name := .L2 }]) := by
  obtain ⟨_, _, _, _, _, hl2, hlog⟩ := two_cache_body_lw l1 l2 t hop
  constructor
  · intro hh
    rw [hl2, hh]; rfl
  · intro hh
    refine ⟨by rw [hl2, hh]; rfl, ?_⟩
    intro s hm hr hp hc
    have hop1 : (decode (s.memory (s.pc % 8192))).opcode = 4 := by rw [hm, hp]; exact hop
    rw [one_cache_body_lw l2 s hop1, hl2, hlog, hh, hm, hr, hp, hc]
    exact ⟨rfl, _, rfl, rfl⟩

/-- C15 (witness): the first instruction of `prog_loads` is a load that misses the fresh
L1; L2 then becomes what `load_level` makes of it. -/
theorem C15_l2_on_load_witness :
    (decode (loads_start2.memory (loads_start2.pc % 8192))).opcode = 4 ∧
    (load_level level_2_2_1 loads_start2.l1_cache
      (access_addr loads_start2.memory loads_start2.regs loads_start2.pc)).1 = false ∧
    (two_cache_body level_2_2_1 level_2_2_1 loads_start2).l2_cache =
      (load_level level_2_2_1 loads_start2.l2_cache
        (access_addr loads_start2.memory loads_start2.regs loads_start2.pc)).2 :=
  ⟨by decide, by decide,
    ((C15_l2_on_load level_2_2_1 level_2_2_1 loads_start2 (by decide)).2 (by decide)).1⟩

/-! ## C16: the recency invariant -/

/-- The two outcomes of the read resolution on a set. -/
theorem lw_set_cases (tag : Int) (set : List cache_cell) :
    ((∀ c ∈ set, ¬ (c.valid = true ∧ c.tag = tag)) ∧
      ∃ v, lw_set tag set.length set =
        (false, (set.map aged).set v { valid := true, tag := tag, last_access := 0 })) ∨
    (∃ mid h post, set = mid ++ h :: post ∧
      (∀ c ∈ mid, ¬ (c.valid = true ∧ c.tag = tag)) ∧ h.valid = true ∧ h.tag = tag ∧
      lw_set tag set.length set =
        (true, mid.map aged ++ { h with last_access := 0 } :: post)) := by
  rcases first_match_split tag set with hno | ⟨mid, c, post, heq, hmid, hv, ht⟩
  · left
    obtain ⟨v, hv⟩ := sw_loop_set set
    have hl := lw_loop_miss tag set [] 0 0 hno
    simp only [List.nil_append, List.length_nil] at hl
    refine ⟨hno, v, ?_⟩
    simp only [lw_set, hl, hv, install]
    rfl
  · right
    refine ⟨mid, c, post, heq, hmid, hv, ht, ?_⟩
    subst heq
    exact lw_set_hit tag mid post c hmid hv ht

/-- The write resolution on a set, whatever the recencies. -/
theorem sw_set_eq (tag : Int) (set : List cache_cell) :
    ∃ v, sw_set tag set.length set =
      (set.map aged).set v { valid := true, tag := tag, last_access := 0 } := by
  obtain ⟨v, hv⟩ := sw_loop_set set
  exact ⟨v, by simp only [sw_set, hv, install]⟩

theorem aged_set_bounded (set : List cache_cell) (v : Nat) (tag : Int) (n : Int)
    (h0 : 0 ≤ n) (hn : n < 2147483647)
    (hb : ∀ c ∈ set, 0 ≤ c.last_access ∧ c.last_access ≤ n) :
    ∀ c ∈ (set.map aged).set v { valid := true, tag := tag, last_access := 0 },
      0 ≤ c.last_access ∧ c.last_access ≤ n + 1 := by
  intro c hc
  rcases List.mem_or_eq_of_mem_set hc with hc | hc
  · obtain ⟨c0, hc0, rfl⟩ := List.mem_map.mp hc
    have := hb c0 hc0
    rw [aged_last_access c0 (by omega) (by omega)]
    omega
  · subst hc
    exact ⟨le_refl _, by show (0 : Int) ≤ n + 1; omega⟩

/-- The read resolution keeps the number of lines; recencies between 0 and `n` stay
between 0 and `n + 1`, as long as `n` is below 2^31 - 1. -/
theorem lw_set_bounded (tag : Int) (set : List cache_cell) (n : Int)
    (h0 : 0 ≤ n) (hn : n < 2147483647)
    (hb : ∀ c ∈ set, 0 ≤ c.last_access ∧ c.last_access ≤ n) :
    (lw_set tag set.length set).2.length = set.length ∧
    ∀ c ∈ (lw_set tag set.length set).2, 0 ≤ c.last_access ∧ c.last_access ≤ n + 1 := by
  rcases lw_set_cases tag set with ⟨_, v, heq⟩ | ⟨mid, h, post, hset, _, _, _, heq⟩
  · rw [heq]
    exact ⟨by simp, aged_set_bounded set v tag n h0 hn hb⟩
  · rw [heq]
    subst hset
    refine ⟨by simp, ?_⟩
    intro c hc
    simp only [List.mem_append, List.mem_map, List.mem_cons] at hc
    rcases hc with ⟨c0, hc0, rfl⟩ | rfl | hc
    · have := hb c0 (by simp [hc0])
      rw [aged_last_access c0 (by omega) (by omega)]
      omega
    · exact ⟨le_refl _, by show (0 : Int) ≤ n + 1; omega⟩
    · have := hb c (by simp [hc])
      omega

/-- The write resolution keeps the number of lines; recencies between 0 and `n` stay
between 0 and `n + 1`, as long as `n` is below 2^31 - 1. -/
theorem sw_set_bounded (tag : Int) (set : List cache_cell) (n : Int)
    (h0 : 0 ≤ n) (hn : n < 2147483647)
    (hb : ∀ c ∈ set, 0 ≤ c.last_access ∧ c.last_access ≤ n) :
    (sw_set tag set.length set).length = set.length ∧
    ∀ c ∈ sw_set tag set.length set, 0 ≤ c.last_access ∧ c.last_access ≤ n + 1 := by
  obtain ⟨v, heq⟩ := sw_set_eq tag set
  rw [heq]
  exact ⟨by simp, aged_set_bounded set v tag n h0 hn hb⟩

theorem init_cache_bounded (l : level) : cache_bounded l 0 (init_cache l.rows l.assoc) := by
  refine ⟨init_cache_length _ _, ?_⟩
  intro set hset
  have := List.eq_of_mem_replicate hset
  subst this
  refine ⟨by simp, ?_⟩
  intro c hc
  rw [List.eq_of_mem_replicate hc]
  exact ⟨le_refl _, le_refl _⟩

theorem cache_bounded_wf (l : level) (n : Int) (cache : List (List cache_cell))
    (h : cache_bounded l n cache) : cache_wf l cache :=
  ⟨h.1, fun set hset => ⟨(h.2 set hset).1, fun c hc => ((h.2 set hset).2 c hc).1⟩⟩

theorem apply_access_bounded (l : level) (cache : List (List cache_cell)) (acc : access)
    (n : Int) (h0 : 0 ≤ n) (hn : n < 2147483647) (h : cache_bounded l n cache) :
    cache_bounded l (n + 1) (apply_access l cache acc) := by
  obtain ⟨hlen, hsets⟩ := h
  have hold : ∀ set ∈ cache, set.length = l.assoc ∧
      ∀ c ∈ set, 0 ≤ c.last_access ∧ c.last_access ≤ n + 1 := by
    intro set hset
    refine ⟨(hsets set hset).1, fun c hc => ?_⟩
    have := (hsets set hset).2 c hc
    omega
  cases acc with
  | load a =>
    simp only [apply_access, load_level]
    refine ⟨by simp [hlen], ?_⟩
    intro set hset
    by_cases hrow : block_row l a < cache.length
    · rcases List.mem_or_eq_of_mem_set hset with h1 | h1
      · exact hold set h1
      · obtain ⟨hl, hb⟩ := hsets _ (cache_getD_mem cache _ hrow)
        have := lw_set_bounded (block_tag l a) _ n h0 hn hb
        rw [hl] at this
        rw [h1]
        exact ⟨by rw [this.1], this.2⟩
    · rw [List.set_eq_of_length_le (by omega)] at hset
      exact hold set hset
  | store a =>
    simp only [apply_access, store_level]
    refine ⟨by simp [hlen], ?_⟩
    intro set hset
    by_cases hrow : block_row l a < cache.length
    · rcases List.mem_or_eq_of_mem_set hset with h1 | h1
      · exact hold set h1
      · obtain ⟨hl, hb⟩ := hsets _ (cache_getD_mem cache _ hrow)
        have := sw_set_bounded (block_tag l a) _ n h0 hn hb
        rw [hl] at this
        rw [h1]
        exact ⟨by rw [this.1], this.2⟩
    · rw [List.set_eq_of_length_le (by omega)] at hset
      exact hold set hset

/-- After at most 2^31 - 1 accesses in all, every recency lies between 0 and the number
of accesses. -/
theorem run_accesses_bounded (l : level) (accs : List access) :
    ∀ (cache : List (List cache_cell)) (n : Nat), cache_bounded l n cache →
      n + accs.length ≤ 2147483647 →
      cache_bounded l ((n + accs.length : Nat) : Int) (run_accesses l accs cache) := by
  induction accs with
  | nil => intro cache n h _; simpa [run_accesses] using h
  | cons a accs ih =>
    intro cache n h hlen
    simp only [List.length_cons] at hlen
    have h1 := apply_access_bounded l cache a n (by omega) (by omega) h
    have := ih _ (n + 1) (by push_cast; exact h1) (by omega)
    simp only [run_accesses, List.foldl_cons, List.length_cons] at this ⊢
    rw [show n + (accs.length + 1) = n + 1 + accs.length by omega]
    exact this

/-- After an access on a well-formed cache of a geometry with at least one row and one
line per set, the line the access touched is valid, holds the tag of the address and has
recency 0. -/
theorem touched_after (l : level) (cache : List (List cache_cell)) (acc : access)
    (hwf : cache_wf l cache) (hassoc : 0 < l.assoc) (hrows : 0 < l.rows) :
    ∃ i, touched_line l cache acc i ∧
      ((apply_access l cache acc).getD (block_row l acc.addr) []).getD i default =
        { valid := true, tag := block_tag l acc.addr, last_access := 0 } := by
  obtain ⟨hlen, hsets⟩ := hwf
  have hrow : block_row l acc.addr < cache.length := by
    rw [hlen]; exact Nat.mod_lt _ hrows
  obtain ⟨hl, hnn⟩ := hsets _ (cache_getD_mem cache _ hrow)
  have hpos : 0 < (cache.getD (block_row l acc.addr) []).length := by rw [hl]; exact hassoc
  cases acc with
  | load a =>
    simp only [access.addr] at hrow hl hnn hpos ⊢
    simp only [apply_access, load_level, getD_set_self _ _ _ hrow, touched_line]
    rw [← hl]
    generalize cache.getD (block_row l a) [] = set at hl hnn hpos
    rcases first_match_split (block_tag l a) set with hno | ⟨mid, h, post, hset, hmid, hv, ht⟩
    · obtain ⟨v, hvic, heq⟩ := lw_set_miss (block_tag l a) set hpos hnn hno
      refine ⟨v, Or.inr ⟨hno, hvic⟩, ?_⟩
      rw [heq]
      exact (installed_spec set v _ hvic.1).2.1
    · subst hset
      refine ⟨mid.length, Or.inl ⟨by simp, ?_, ?_, ?_⟩, ?_⟩
      · rw [getD_append_mid]; exact hv
      · rw [getD_append_mid]; exact ht
      · intro j hj
        rw [List.getD_append _ _ _ _ hj]
        exact hmid _ (getD_mem mid j hj)
      · rw [lw_set_hit (block_tag l a) mid post h hmid hv ht]
        have := getD_append_mid (mid.map aged) post { h with last_access := 0 }
        rw [List.length_map] at this
        simp only [List.append_assoc] at this ⊢
        rw [this, hv, ht]
  | store a =>
    simp only [access.addr] at hrow hl hnn hpos ⊢
    simp only [apply_access, store_level, getD_set_self _ _ _ hrow, touched_line]
    rw [← hl]
    generalize cache.getD (block_row l a) [] = set at hl hnn hpos
    obtain ⟨v, hvic, heq⟩ := sw_set_spec (block_tag l a) set hpos hnn
    refine ⟨v, hvic, ?_⟩
    rw [heq]
    exact (installed_spec set v _ hvic.1).2.1

/-- For every geometry with at least one row and one line per set and every sequence of
at most 2^31 - 1 loads and stores applied to the freshly initialised cache, every line of
every set has a recency between 0 and the number of accesses; and after any further
access the line touched by that access (the line a load hits, or else the victim that is
installed; for a store the victim) is valid, holds the tag of the address and has
recency 0. -/
theorem recency_invariant_bounded (l : level) (hassoc : 0 < l.assoc) (hrows : 0 < l.rows)
    (accs : List access) (acc : access) (hlen : accs.length ≤ 2147483647) :
    (∀ set ∈ run_accesses l accs (init_cache l.rows l.assoc),
      ∀ c ∈ set, 0 ≤ c.last_access ∧ c.last_access ≤ accs.length) ∧
    ∃ i, touched_line l (run_accesses l accs (init_cache l.rows l.assoc)) acc i ∧
      ((apply_access l (run_accesses l accs (init_cache l.rows l.assoc)) acc).getD
          (block_row l acc.addr) []).getD i default =
        { valid := true, tag := block_tag l acc.addr, last_access := 0 } := by
  have hb := run_accesses_bounded l accs _ 0 (init_cache_bounded l) (by omega)
  simp only [Nat.zero_add] at hb
  exact ⟨fun set hset => (hb.2 set hset).2,
    touched_after l _ acc (cache_bounded_wf l _ _ hb) hassoc hrows⟩

/-- A hit on line 1 ages line 0 and nothing else. -/
theorem overflow_step (k : Int) :
    apply_access level_2_2_1
      [[{ valid := true, tag := 0, last_access := int32 k },
        { valid := true, tag := 1, last_access := 0 }]] (access.load 1) =
      [[{ valid := true, tag := 0, last_access := int32 (k + 1) },
        { valid := true, tag := 1, last_access := 0 }]] := by
  have hr : block_row level_2_2_1 1 = 0 := by decide
  have ht : block_tag level_2_2_1 1 = 1 := by decide
  have ha : level_2_2_1.assoc = 2 := by decide
  simp only [apply_access, load_level, hr, ht, ha]
  simp [lw_set, lw_loop, int32_succ]

theorem overflow_run (n : Nat) : ∀ k : Int,
    run_accesses level_2_2_1 (List.replicate n (access.load 1))
      [[{ valid := true, tag := 0, last_access := int32 k },
        { valid := true, tag := 1, last_access := 0 }]] =
      [[{ valid := true, tag := 0, last_access := int32 (k + n) },
        { valid := true, tag := 1, last_access := 0 }]] := by
  induction n with
  | zero => intro k; simp [run_accesses]
  | succ n ih =>
    intro k
    have := ih (k + 1)
    simp only [run_accesses, List.replicate_succ, List.foldl_cons, overflow_step] at this ⊢
    rw [this]
    push_cast
    rw [show k + 1 + (n : Int) = k + ((n : Int) + 1) by ring]

theorem overflow_accs_length (n : Nat) : (overflow_accs n).length = n + 2 := by
  simp [overflow_accs]

theorem overflow_accs_run (n : Nat) :
    run_accesses level_2_2_1 (overflow_accs n) (init_cache 1 2) =
      [[{ valid := true, tag := 0, last_access := int32 (1 + n) },
        { valid := true, tag := 1, last_access := 0 }]] := by
  have h2 : run_accesses level_2_2_1 [access.load 0, access.load 1] (init_cache 1 2) =
      [[{ valid := true, tag := 0, last_access := int32 1 },
        { valid := true, tag := 1, last_access := 0 }]] := by decide
  have := overflow_run n 1
  simp only [run_accesses, overflow_accs, List.foldl_cons, List.foldl_nil] at h2 this ⊢
  rw [h2, this]

theorem one_cache_steps_add (l1 : level) (a b : Nat) :
    ∀ s : Sim1, one_cache_steps l1 (a + b) s = one_cache_steps l1 b (one_cache_steps l1 a s) := by
  induction a with
  | zero => intro s; simp [one_cache_steps]
  | succ a ih =>
    intro s
    rw [show a + 1 + b = (a + b) + 1 by omega]
    simp only [one_cache_steps]
    by_cases hh : s.halt = true
    · simp only [hh, if_true]
      cases b with
      | zero => rfl
      | succ b => simp [one_cache_steps, hh]
    · simp only [hh, if_false]
      exact ih _

/-- Two iterations of the loop of `prog_overflow` (the `lw` that hits line 1, then the
`j 1`) age line 0 by one and come back to PC 1. -/
theorem overflow_loop_body (k : Int) (s : Sim1) (h : overflow_inv k s) :
    (one_cache_body level_2_2_1 s).halt = false ∧
    overflow_inv (k + 1) (one_cache_body level_2_2_1 (one_cache_body level_2_2_1 s)) := by
  obtain ⟨hm, hp, h0, hh, hc⟩ := h
  have hop : (decode (s.memory (s.pc % 8192))).opcode = 4 := by rw [hm, hp]; decide
  have hreg : (decode (s.memory (s.pc % 8192))).regA = 0 := by rw [hm, hp]; decide
  have himm : (decode (s.memory (s.pc % 8192))).imm7 = 1 := by rw [hm, hp]; decide
  have haddr : access_addr s.memory s.regs s.pc = 1 := by
    simp only [access_addr, hreg, himm, h0, mem_addr]
    decide
  have e1 := one_cache_body_lw level_2_2_1 s hop
  rw [haddr] at e1
  have hstep := overflow_step k
  simp only [apply_access] at hstep
  rw [hc, hstep, hp] at e1
  have hpc1 : (one_cache_body level_2_2_1 s).pc = 2 := by
    rw [e1]
    show u16 (1 + 1) = 2
    decide
  have hm1 : (one_cache_body level_2_2_1 s).memory = prog_overflow := by rw [e1]; exact hm
  have hh1 : (one_cache_body level_2_2_1 s).halt = false := by rw [e1]; exact hh
  have hc1 : (one_cache_body level_2_2_1 s).cache =
      [[{ valid := true, tag := 0, last_access := int32 (k + 1) },
        { valid := true, tag := 1, last_access := 0 }]] := by rw [e1]
  have hop2 : (decode (prog_overflow 2)).opcode = 2 := by decide
  have himm2 : (decode (prog_overflow 2)).imm13 = 1 := by decide
  refine ⟨hh1, ?_⟩
  generalize one_cache_body level_2_2_1 s = s1 at hpc1 hh1 hm1 hc1 ⊢
  simp only [overflow_inv, one_cache_body, hm1, hpc1, Nat.reduceMod, hop2, himm2]
  simp [hh1, hc1, write]

theorem overflow_loop (n : Nat) : ∀ (k : Int) (s : Sim1), overflow_inv k s →
    overflow_inv (k + n) (one_cache_steps level_2_2_1 (2 * n) s) := by
  induction n with
  | zero => intro k s h; simpa [one_cache_steps] using h
  | succ n ih =>
    intro k s h
    obtain ⟨hh1, h2⟩ := overflow_loop_body k s h
    have := ih (k + 1) _ h2
    rw [show 2 * (n + 1) = 2 * n + 1 + 1 by omega]
    simp only [one_cache_steps, h.2.2.2.1, hh1, Bool.false_eq_true, if_false]
    push_cast
    rw [show k + ((n : Int) + 1) = k + 1 + (n : Int) by ring]
    exact this

theorem overflow_prologue : overflow_inv 1 (one_cache_steps level_2_2_1 3 overflow_start) :=
  ⟨rfl, rfl, rfl, rfl, rfl⟩

theorem overflow_steps (n : Nat) :
    (one_cache_steps level_2_2_1 (3 + 2 * n) overflow_start).cache =
      [[{ valid := true, tag := 0, last_access := int32 (1 + n) },
        { valid := true, tag := 1, last_access := 0 }]] := by
  rw [one_cache_steps_add]
  exact (overflow_loop n 1 _ overflow_prologue).2.2.2.2

/-- C16 (evaluation at the failing input): under "2,2,1", from the freshly initialised
cache, a load of address 0 followed by 2^31 loads of address 1 (2^31 + 1 accesses) leaves
line 0, which holds tag 0, with recency -2^31: each load of address 1 after the first hits
line 1 and ages line 0 by `last_access += 1`; one access earlier line 0 is at 2^31 - 1, and
the increment of a 32-bit `int` at 2^31 - 1 gives -2^31.  So not every recency is
non-negative.  `prog_overflow` makes exactly these accesses: after 2^32 + 1 iterations of
the loop of `simulate_one_cache` the cache is in that state. -/
theorem C16_recency_overflows :
    level_2_2_1.rows = 1 ∧ level_2_2_1.assoc = 2 ∧
    (overflow_accs 2147483647).length = 2147483649 ∧
    run_accesses level_2_2_1 (overflow_accs 2147483646) (init_cache 1 2) =
      [[{ valid := true, tag := 0, last_access := 2147483647 },
        { valid := true, tag := 1, last_access := 0 }]] ∧
    aged { valid := true, tag := 0, last_access := 2147483647 } =
      { valid := true, tag := 0, last_access := -2147483648 } ∧
    run_accesses level_2_2_1 (overflow_accs 2147483647) (init_cache 1 2) =
      [[{ valid := true, tag := 0, last_access := -2147483648 },
        { valid := true, tag := 1, last_access := 0 }]] ∧
    ¬ (∀ set ∈ run_accesses level_2_2_1 (overflow_accs 2147483647) (init_cache 1 2),
        ∀ c ∈ set, 0 ≤ c.last_access) ∧
    (one_cache_steps level_2_2_1 4294967297 overflow_start).cache =
      [[{ valid := true, tag := 0, last_access := -2147483648 },
        { valid := true, tag := 1, last_access := 0 }]] := by
  have hmax : int32 (1 + ((2147483646 : Nat) : Int)) = 2147483647 := by
    norm_num [int32]
  have hmin : int32 (1 + ((2147483647 : Nat) : Int)) = -2147483648 := by
    norm_num [int32]
  have hsteps : (4294967297 : Nat) = 3 + 2 * 2147483647 := by norm_num
  have hrun := overflow_accs_run 2147483647
  rw [hmin] at hrun
  refine ⟨by decide, by decide, (overflow_accs_length 2147483647).trans (by norm_num),
    ?_, by decide, hrun, ?_, ?_⟩
  · rw [overflow_accs_run, hmax]
  · rw [hrun]
    intro h
    have := h _ (List.mem_singleton.mpr rfl)
      { valid := true, tag := 0, last_access := -2147483648 } (by simp)
    exact absurd this (by decide)
  · rw [hsteps, overflow_steps, hmin]

/-! ## C17: the register-register instructions of e20sim -/

theorem mask16_eq_mod (x : Nat) : x &&& 0xFFFF = x % 65536 := by
  have h : (0xFFFF : Nat) = 2 ^ 16 - 1 := by decide
  rw [h, Nat.and_pow_two_sub_one_eq_mod]

theorem write_zero_self (registers : Nat → Nat) (h0 : registers 0 = 0) :
    write registers 0 0 = registers := by
  funext i
  simp only [write]
  split
  · subst_vars; exact h0.symm
  · rfl

/-- The class-0 arm of `execute_instruction`, function codes 0 to 4. -/
theorem execute_alu (pc : Nat) (memory registers : Nat → Nat)
    (hop : extract_bits (memory (pc % MEM_SIZE)) 13 15 = 0)
    (hf : extract_bits (memory (pc % MEM_SIZE)) 0 3 ≤ 4) :
    ∃ v, execute_instruction pc memory registers =
      some { next_pc := u16 (pc + 1), memory := memory,
             registers :=
               write (if extract_bits (memory (pc % MEM_SIZE)) 4 6 ≠ 0 then
                        write registers (extract_bits (memory (pc % MEM_SIZE)) 4 6) v
                      else registers) 0 0 } ∧
      (extract_bits (memory (pc % MEM_SIZE)) 0 3 = 0 →
        v = (registers (extract_bits (memory (pc % MEM_SIZE)) 10 12) +
              registers (extract_bits (memory (pc % MEM_SIZE)) 7 9)) % 65536) ∧
      (extract_bits (memory (pc % MEM_SIZE)) 0 3 = 1 →
        (v : Int) = ((registers (extract_bits (memory (pc % MEM_SIZE)) 10 12) : Int) -
              (registers (extract_bits (memory (pc % MEM_SIZE)) 7 9) : Int)) % 65536) ∧
      (extract_bits (memory (pc % MEM_SIZE)) 0 3 = 2 →
        v = (registers (extract_bits (memory (pc % MEM_SIZE)) 10 12) |||
              registers (extract_bits (memory (pc % MEM_SIZE)) 7 9)) % 65536) ∧
      (extract_bits (memory (pc % MEM_SIZE)) 0 3 = 3 →
        v = (registers (extract_bits (memory (pc % MEM_SIZE)) 10 12) &&&
              registers (extract_bits (memory (pc % MEM_SIZE)) 7 9)) % 65536) ∧
      (extract_bits (memory (pc % MEM_SIZE)) 0 3 = 4 →
        v = if registers (extract_bits (memory (pc % MEM_SIZE)) 10 12) <
              registers (extract_bits (memory (pc % MEM_SIZE)) 7 9) then 1 else 0) := by
  simp only [execute_instruction, execute_switch, hop, Option.map_some']
  generalize extract_bits (memory (pc % MEM_SIZE)) 0 3 = f at hf
  generalize extract_bits (memory (pc % MEM_SIZE)) 4 6 = d
  generalize registers (extract_bits (memory (pc % MEM_SIZE)) 10 12) = a
  generalize registers (extract_bits (memory (pc % MEM_SIZE)) 7 9) = b
  interval_cases f
  · refine ⟨u16 ((a + b) &&& 0xFFFF), by simp, ?_⟩
    simp [u16, mask16_eq_mod]
  · refine ⟨u16i (((a : Int) - (b : Int)) % 65536), by simp, ?_⟩
    simp only [u16i]
    refine ⟨by simp, fun _ => ?_, by simp, by simp, by simp⟩
    omega
  · refine ⟨u16 ((a ||| b) &&& 0xFFFF), by simp, ?_⟩
    simp [u16, mask16_eq_mod]
  · refine ⟨u16 ((a &&& b) &&& 0xFFFF), by simp, ?_⟩
    simp [u16, mask16_eq_mod]
  · refine ⟨(if a < b then 1 else 0), by simp, ?_⟩
    simp

/-- C17: for every well-formed register file (16-bit values, register 0 = 0) and every
class-0 instruction with function code 0 to 4, `execute_instruction` leaves memory as it
is and returns next-PC = PC + 1 as a 16-bit word (`(pc + 1) % 65536`, which is `pc + 1`
unless `pc = 65535`); with a non-zero destination index the destination register becomes
`(a + b) mod 65536`, `(a - b) mod 65536`, `a OR b`, `a AND b`, or `1` if `a < b` else `0`
(function codes 0, 1, 2, 3, 4; `a`, `b` the source registers before the step) and every
other register is unchanged; with destination index 0 no register changes. -/
theorem C17_alu (pc : Nat) (memory registers : Nat → Nat)
    (h0 : registers 0 = 0) (h16 : ∀ i, registers i < 65536)
    (hop : extract_bits (memory (pc % MEM_SIZE)) 13 15 = 0)
    (hf : extract_bits (memory (pc % MEM_SIZE)) 0 3 ≤ 4) :
    ∃ r, execute_instruction pc memory registers = some r ∧
      r.memory = memory ∧
      r.next_pc = (pc + 1) % 65536 ∧
      (pc < 65535 → r.next_pc = pc + 1) ∧
      (extract_bits (memory (pc % MEM_SIZE)) 4 6 ≠ 0 →
        (extract_bits (memory (pc % MEM_SIZE)) 0 3 = 0 →
          r.registers (extract_bits (memory (pc % MEM_SIZE)) 4 6) =
            (registers (extract_bits (memory (pc % MEM_SIZE)) 10 12) +
              registers (extract_bits (memory (pc % MEM_SIZE)) 7 9)) % 65536) ∧
        (extract_bits (memory (pc % MEM_SIZE)) 0 3 = 1 →
          (r.registers (extract_bits (memory (pc % MEM_SIZE)) 4 6) : Int) =
            ((registers (extract_bits (memory (pc % MEM_SIZE)) 10 12) : Int) -
              (registers (extract_bits (memory (pc % MEM_SIZE)) 7 9) : Int)) % 65536) ∧
        (extract_bits (memory (pc % MEM_SIZE)) 0 3 = 2 →
          r.registers (extract_bits (memory (pc % MEM_SIZE)) 4 6) =
            registers (extract_bits (memory (pc % MEM_SIZE)) 10 12) |||
              registers (extract_bits (memory (pc % MEM_SIZE)) 7 9)) ∧
        (extract_bits (memory (pc % MEM_SIZE)) 0 3 = 3 →
          r.registers (extract_bits (memory (pc % MEM_SIZE)) 4 6) =
            registers (extract_bits (memory (pc % MEM_SIZE)) 10 12) &&&
              registers (extract_bits (memory (pc % MEM_SIZE)) 7 9)) ∧
        (extract_bits (memory (pc % MEM_SIZE)) 0 3 = 4 →
          r.registers (extract_bits (memory (pc % MEM_SIZE)) 4 6) =
            if registers (extract_bits (memory (pc % MEM_SIZE)) 10 12) <
                registers (extract_bits (memory (pc % MEM_SIZE)) 7 9) then 1 else 0) ∧
        ∀ i, i ≠ extract_bits (memory (pc % MEM_SIZE)) 4 6 → r.registers i = registers i) ∧
      (extract_bits (memory (pc % MEM_SIZE)) 4 6 = 0 → r.registers = registers) := by
  obtain ⟨v, hv, e0, e1, e2, e3, e4⟩ := execute_alu pc memory registers hop hf
  have ha := h16 (extract_bits (memory (pc % MEM_SIZE)) 10 12)
  have hb := h16 (extract_bits (memory (pc % MEM_SIZE)) 7 9)
  have hor : (registers (extract_bits (memory (pc % MEM_SIZE)) 10 12) |||
      registers (extract_bits (memory (pc % MEM_SIZE)) 7 9)) < 2 ^ 16 :=
    Nat.or_lt_two_pow (by norm_num; exact ha) (by norm_num; exact hb)
  have hand : (registers (extract_bits (memory (pc % MEM_SIZE)) 10 12) &&&
      registers (extract_bits (memory (pc % MEM_SIZE)) 7 9)) < 2 ^ 16 :=
    Nat.and_lt_two_pow _ (by norm_num; exact hb)
  refine ⟨_, hv, rfl, rfl, ?_, ?_, ?_⟩
  · intro hpc
    exact Nat.mod_eq_of_lt (by omega)
  · intro hd
    have hreg : ∀ x, write (write registers (extract_bits (memory (pc % MEM_SIZE)) 4 6) x) 0 0
        (extract_bits (memory (pc % MEM_SIZE)) 4 6) = x := by
      intro x; simp [write, hd]
    simp only [hd, ne_eq, not_false_eq_true, if_true, hreg]
    refine ⟨e0, e1, ?_, ?_, e4, ?_⟩
    · intro h; rw [e2 h]; exact Nat.mod_eq_of_lt (by norm_num at hor; exact hor)
    · intro h; rw [e3 h]; exact Nat.mod_eq_of_lt (by norm_num at hand; exact hand)
    · intro i hi
      simp only [write, hi, if_false]
      split
      · subst_vars; exact h0.symm
      · rfl
  · intro hd
    simp only [hd, ne_eq, not_true_eq_false, if_false]
    exact write_zero_self registers h0

/-- C17 (witness): `add $3,$1,$2` (word 0x0530 at PC 2 of `prog_add`) on registers
1 = 5 and 2 = 3 sets register 3 to 8 and returns next-PC 3. -/
theorem C17_alu_witness :
    regs_5_3 0 = 0 ∧ extract_bits (prog_add (2 % MEM_SIZE)) 13 15 = 0 ∧
    extract_bits (prog_add (2 % MEM_SIZE)) 0 3 ≤ 4 ∧
    ∃ r, execute_instruction 2 prog_add regs_5_3 = some r ∧ r.next_pc = 3 ∧
      r.registers 3 = 8 := by
  refine ⟨rfl, by decide, by decide, ?_⟩
  obtain ⟨r, hr, _, hn, _, hd, _⟩ :=
    C17_alu 2 prog_add regs_5_3 rfl
      (by intro i; simp only [regs_5_3]; split <;> norm_num) (by decide) (by decide)
  exact ⟨r, hr, hn, (hd (by decide)).1 (by decide)⟩

/-! ## C18: set-less-than-immediate in e20sim -/

/-- The class-7 arm of `execute_instruction`. -/
theorem execute_slti (pc : Nat) (memory registers : Nat → Nat)
    (hop : extract_bits (memory (pc % MEM_SIZE)) 13 15 = 7) :
    execute_instruction pc memory registers =
      some { next_pc := u16 (pc + 1), memory := memory,
             registers :=
               write (if extract_bits (memory (pc % MEM_SIZE)) 7 9 ≠ 0 then
                        write registers (extract_bits (memory (pc % MEM_SIZE)) 7 9)
                          (if registers (extract_bits (memory (pc % MEM_SIZE)) 10 12) <
                              sign_extend (extract_bits (memory (pc % MEM_SIZE)) 0 6)
                           then 1 else 0)
                      else registers) 0 0 } := by
  simp only [execute_instruction, execute_switch, hop, Option.map_some']

/-- C18: for every register file with register 0 = 0 and every class-7 instruction with a
non-zero destination index, `execute_instruction` sets the destination register to 1 if
the source register is below `sign_extend(imm7)` (both compared as unsigned values) and
to 0 otherwise, leaves every other register and memory unchanged, and returns next-PC =
PC + 1 as a 16-bit word (`(pc + 1) % 65536`, which is `pc + 1` unless `pc = 65535`). -/
theorem C18_slti (pc : Nat) (memory registers : Nat → Nat) (h0 : registers 0 = 0)
    (hop : extract_bits (memory (pc % MEM_SIZE)) 13 15 = 7)
    (hd : extract_bits (memory (pc % MEM_SIZE)) 7 9 ≠ 0) :
    extract_bits (memory (pc % MEM_SIZE)) 0 6 < 128 ∧
    ∃ r, execute_instruction pc memory registers = some r ∧
      r.registers (extract_bits (memory (pc % MEM_SIZE)) 7 9) =
        (if registers (extract_bits (memory (pc % MEM_SIZE)) 10 12) <
            sign_extend (extract_bits (memory (pc % MEM_SIZE)) 0 6) then 1 else 0) ∧
      (∀ i, i ≠ extract_bits (memory (pc % MEM_SIZE)) 7 9 → r.registers i = registers i) ∧
      r.memory = memory ∧
      r.next_pc = (pc + 1) % 65536 ∧
      (pc < 65535 → r.next_pc = pc + 1) := by
  refine ⟨imm7_lt _, _, execute_slti pc memory registers hop, ?_, ?_, rfl, rfl, ?_⟩
  · simp [write, hd]
  · intro i hi
    simp only [hd, ne_eq, not_false_eq_true, if_true, write, hi, if_false]
    split
    · subst_vars; exact h0.symm
    · rfl
  · intro hpc
    exact Nat.mod_eq_of_lt (by omega)

/-- C18 (witness): `slti $2,$1,-1` (word 0xE57F at PC 1 of `prog_slti`) with register
1 = 0xFFC0 sets register 2 to 1, since 0xFFC0 < 0xFFFF = `sign_extend 127`. -/
theorem C18_slti_witness :
    regs_m64 0 = 0 ∧ extract_bits (prog_slti (1 % MEM_SIZE)) 13 15 = 7 ∧
    extract_bits (prog_slti (1 % MEM_SIZE)) 7 9 ≠ 0 ∧
    ∃ r, execute_instruction 1 prog_slti regs_m64 = some r ∧ r.registers 2 = 1 := by
  refine ⟨rfl, by decide, by decide, ?_⟩
  obtain ⟨_, r, hr, hv, _⟩ := C18_slti 1 prog_slti regs_m64 rfl (by decide) (by decide)
  exact ⟨r, hr, hv⟩

/-! ## C19: set-less-than-immediate in the cache simulator -/

/-- C19 (evaluation at the failing input): for imm7 = 127 (the immediate -1) the cache
simulator compares against `imm_slti` = 0xFF81, whereas `sign_extend 127` = 0xFFFF.  On
`addi $1,$0,-64; slti $2,$1,-1; j 2` register 1 is 0xFFC0, so e20sim sets register 2 to
1 (0xFFC0 < 0xFFFF) and both cache simulators set it to 0 (0xFFC0 is not below 0xFF81). -/
theorem C19_slti_immediate_mismatch :
    (decode 0xE57F).imm_slti = 0xFF81 ∧ sign_extend 127 = 0xFFFF ∧
    (simulate 3 0 prog_slti regs_zero).map (fun s => (s.registers 1, s.registers 2)) =
      some (0xFFC0, 1) ∧
    (simulate_one_cache 3 prog_slti regs_zero 0 (init_cache 1 2) level_2_2_1).map
        (fun s => (s.regs 1, s.regs 2)) = some (0xFFC0, 0) ∧
    (simulate_two_cache 3 prog_slti regs_zero 0 (init_cache 1 2) (init_cache 1 2)
        level_2_2_1 level_2_2_1).map (fun s => (s.regs 1, s.regs 2)) = some (0xFFC0, 0) := by
  refine ⟨by decide, by decide, ?_, ?_, ?_⟩ <;> rfl

/-! ## C20: halting in the cache simulator -/

/-- The one-level loop body sets `halt` exactly in the `j` arm when the target is the
current PC. -/
theorem one_cache_body_halt (l1 : level) (s : Sim1) :
    (one_cache_body l1 s).halt = true ↔
      (s.halt = true ∨
        ((decode (s.memory (s.pc % 8192))).opcode = 2 ∧
          s.pc = (decode (s.memory (s.pc % 8192))).imm13)) := by
  simp only [one_cache_body]
  generalize decode (s.memory (s.pc % 8192)) = d
  split
  all_goals first
    | (split <;> simp_all)
    | simp_all

/-- The two-level loop body sets `halt` exactly in the `j` arm when the target is the
current PC. -/
theorem two_cache_body_halt (l1 l2 : level) (s : Sim2) :
    (two_cache_body l1 l2 s).halt = true ↔
      (s.halt = true ∨
        ((decode (s.memory (s.pc % 8192))).opcode = 2 ∧
          s.pc = (decode (s.memory (s.pc % 8192))).imm13)) := by
  simp only [two_cache_body]
  generalize decode (s.memory (s.pc % 8192)) = d
  split
  all_goals first
    | (split <;> simp_all)
    | simp_all

/-- A class-2 instruction of the cache simulator whose target is the current PC is a step
on which e20sim halts. -/
theorem j_self_halts_e20sim (pc : Nat) (memory registers : Nat → Nat)
    (hop : (decode (memory (pc % 8192))).opcode = 2)
    (hpc : pc = (decode (memory (pc % 8192))).imm13) :
    ∃ r, execute_instruction pc memory registers = some r ∧ r.next_pc % 8192 = pc := by
  have h13 : (decode (memory (pc % 8192))).imm13 = memory (pc % 8192) % 8192 % 65536 := by
    simp only [decode, u16]
    rw [show (0b1111111111111 : Nat) = 2 ^ 13 - 1 by decide, Nat.and_pow_two_sub_one_eq_mod]
  have hopc : (decode (memory (pc % 8192))).opcode = memory (pc % 8192) / 8192 % 65536 := by
    simp only [decode, u16, Nat.shiftRight_eq_div_pow]
  have he : extract_bits (memory (pc % MEM_SIZE)) 13 15 = 2 := by
    rw [extract_bits_eq, MEM_SIZE_eq]
    rw [hopc] at hop
    have : memory (pc % 8192) / 2 ^ 13 % 2 ^ (15 - 13 + 1) = memory (pc % 8192) / 8192 % 8 := by
      norm_num
    rw [this]
    omega
  have hn : extract_bits (memory (pc % MEM_SIZE)) 0 12 = memory (pc % 8192) % 8192 % 65536 := by
    rw [extract_bits_eq, MEM_SIZE_eq]
    norm_num
  have hex : execute_instruction pc memory registers =
      some { next_pc := extract_bits (memory (pc % MEM_SIZE)) 0 12, memory := memory,
             registers := write registers 0 0 } := by
    simp only [execute_instruction, execute_switch, he, Option.map_some']
  refine ⟨_, hex, ?_⟩
  simp only [hn]
  rw [h13] at hpc
  omega

theorem jr_self_fixpoint :
    one_cache_body level_2_2_1 (start1 0x0008) = start1 0x0008 := by
  have h : one_cache_body level_2_2_1 (start1 0x0008) =
      { start1 0x0008 with regs := write regs_zero 0 0 } := rfl
  rw [h, write_zero_self regs_zero rfl]
  rfl

theorem jr_self_never_halts (fuel : Nat) :
    one_cache_loop level_2_2_1 fuel (start1 0x0008) = none := by
  induction fuel with
  | zero => rfl
  | succ n ih =>
    have hh : (start1 0x0008).halt = false := rfl
    simp only [one_cache_loop, hh, jr_self_fixpoint, ih]
    rfl

/-- C20 (counterexample): at PC 0 the instructions `jr $0` (0x0008), `jal 0` (0x6000) and
`jeq $0,$0,-1` (0xC07F) compute next-PC 0; e20sim halts on each of them, while neither
cache simulator sets `halt` (the PC stays 0); the one-level run on `jr $0` never leaves
its loop. -/
theorem C20_self_jumps_do_not_halt :
    (simulate 1 0 (image1 0x0008) regs_zero).map (fun s => (s.pc, s.halted)) =
      some (0, true) ∧
    (simulate 1 0 (image1 0x6000) regs_zero).map (fun s => (s.pc, s.halted)) =
      some (0, true) ∧
    (simulate 1 0 (image1 0xC07F) regs_zero).map (fun s => (s.pc, s.halted)) =
      some (0, true) ∧
    ((one_cache_body level_2_2_1 (start1 0x0008)).pc,
      (one_cache_body level_2_2_1 (start1 0x0008)).halt) = (0, false) ∧
    ((one_cache_body level_2_2_1 (start1 0x6000)).pc,
      (one_cache_body level_2_2_1 (start1 0x6000)).halt) = (0, false) ∧
    ((one_cache_body level_2_2_1 (start1 0xC07F)).pc,
      (one_cache_body level_2_2_1 (start1 0xC07F)).halt) = (0, false) ∧
    ((two_cache_body level_2_2_1 level_2_2_1 (start2 0x0008)).pc,
      (two_cache_body level_2_2_1 level_2_2_1 (start2 0x0008)).halt) = (0, false) ∧
    ((two_cache_body level_2_2_1 level_2_2_1 (start2 0x6000)).pc,
      (two_cache_body level_2_2_1 level_2_2_1 (start2 0x6000)).halt) = (0, false) ∧
    ((two_cache_body level_2_2_1 level_2_2_1 (start2 0xC07F)).pc,
      (two_cache_body level_2_2_1 level_2_2_1 (start2 0xC07F)).halt) = (0, false) ∧
    (∀ fuel, simulate_one_cache fuel (image1 0x0008) regs_zero 0 (init_cache 1 2)
      level_2_2_1 = none) ∧
    ¬ (∀ (l1 : level) (s : Sim1), s.halt = false →
        ((one_cache_body l1 s).halt = true ↔
          ∃ r, execute_instruction s.pc s.memory s.regs = some r ∧
            r.next_pc % 8192 = s.pc)) := by
  refine ⟨rfl, rfl, rfl, rfl, rfl, rfl, rfl, rfl, rfl, jr_self_never_halts, ?_⟩
  intro h
  have h1 := (h level_2_2_1 (start1 0x0008) rfl).mpr
    ⟨{ next_pc := 0, memory := image1 0x0008, registers := write regs_zero 0 0 }, rfl, rfl⟩
  exact absurd h1 (by decide)

/-- C20 (amended): in both cache simulators a loop iteration sets `halt` if and only if
the instruction is an absolute jump (class 2) whose 13-bit target equals the current PC;
on such a step e20sim's `simulate` halts as well (its next-PC modulo 8192 is the current
PC).  Jump-and-link, jump-register and branch-if-equal never set `halt`. -/
theorem C20_halts_only_on_j (l1 l2 : level) (s : Sim1) (t : Sim2) :
    ((one_cache_body l1 s).halt = true ↔
      (s.halt = true ∨
        ((decode (s.memory (s.pc % 8192))).opcode = 2 ∧
          s.pc = (decode (s.memory (s.pc % 8192))).imm13))) ∧
    ((two_cache_body l1 l2 t).halt = true ↔
      (t.halt = true ∨
        ((decode (t.memory (t.pc % 8192))).opcode = 2 ∧
          t.pc = (decode (t.memory (t.pc % 8192))).imm13))) ∧
    (s.halt = false → (one_cache_body l1 s).halt = true →
      ∃ r, execute_instruction s.pc s.memory s.regs = some r ∧ r.next_pc % 8192 = s.pc) ∧
    (t.halt = false → (two_cache_body l1 l2 t).halt = true →
      ∃ r, execute_instruction t.pc t.memory t.regs = some r ∧ r.next_pc % 8192 = t.pc) := by
  refine ⟨one_cache_body_halt l1 s, two_cache_body_halt l1 l2 t, ?_, ?_⟩
  · intro hs hb
    rcases (one_cache_body_halt l1 s).mp hb with h | ⟨h1, h2⟩
    · rw [hs] at h; exact absurd h (by decide)
    · exact j_self_halts_e20sim s.pc s.memory s.regs h1 h2
  · intro ht hb
    rcases (two_cache_body_halt l1 l2 t).mp hb with h | ⟨h1, h2⟩
    · rw [ht] at h; exact absurd h (by decide)
    · exact j_self_halts_e20sim t.pc t.memory t.regs h1 h2

/-- C20 (witness): `j 0` (0x4000) at PC 0 sets `halt` in the one-level simulator, and
e20sim halts on that step. -/
theorem C20_halts_only_on_j_witness :
    (start1 0x4000).halt = false ∧
    (one_cache_body level_2_2_1 (start1 0x4000)).halt = true ∧
    ∃ r, execute_instruction (start1 0x4000).pc (start1 0x4000).memory (start1 0x4000).regs =
        some r ∧ r.next_pc % 8192 = (start1 0x4000).pc :=
  ⟨rfl, rfl,
    (C20_halts_only_on_j level_2_2_1 level_2_2_1 (start1 0x4000) (start2 0x4000)).2.2.1
      rfl rfl⟩

/-! ## C21: jump-register in e20sim -/

/-- The class-0 arm of `execute_instruction`, function code 8. -/
theorem execute_jr (pc : Nat) (memory registers : Nat → Nat)
    (hop : extract_bits (memory (pc % MEM_SIZE)) 13 15 = 0)
    (hf : extract_bits (memory (pc % MEM_SIZE)) 0 3 = 8) :
    execute_instruction pc memory registers =
      some { next_pc := registers (extract_bits (memory (pc % MEM_SIZE)) 10 12) % 8192,
             memory := memory, registers := write registers 0 0 } := by
  simp only [execute_instruction, execute_switch, hop, hf, Option.map_some']
  have hm : ∀ x : Nat, u16 (x &&& 0x1FFF) = x % 8192 := by
    intro x
    rw [mask13_eq_mod']
    simp only [u16]
    omega
  by_cases hd : extract_bits (memory (pc % MEM_SIZE)) 4 6 = 0
  · simp [hd, hm]
  · simp [hd, hm]

/-- C21: for every register file with register 0 = 0 and every class-0 instruction with
function code 8, whatever its destination field, `execute_instruction` returns as next-PC
the source register masked to its low 13 bits (its remainder modulo 8192) and changes no
register and no memory cell. -/
theorem C21_jr (pc : Nat) (memory registers : Nat → Nat) (h0 : registers 0 = 0)
    (hop : extract_bits (memory (pc % MEM_SIZE)) 13 15 = 0)
    (hf : extract_bits (memory (pc % MEM_SIZE)) 0 3 = 8) :
    ∃ r, execute_instruction pc memory registers = some r ∧
      r.next_pc = registers (extract_bits (memory (pc % MEM_SIZE)) 10 12) &&& 0x1FFF ∧
      r.next_pc = registers (extract_bits (memory (pc % MEM_SIZE)) 10 12) % 8192 ∧
      r.registers = registers ∧ r.memory = memory := by
  refine ⟨_, execute_jr pc memory registers hop hf, ?_, rfl, write_zero_self registers h0, rfl⟩
  rw [mask13_eq_mod']

/-- C21 (witness): `jr $1` (word 0x0408 at PC 1 of `prog_jr`) with register 1 = 0xFFC0
returns next-PC 0x1FC0. -/
theorem C21_jr_witness :
    regs_m64 0 = 0 ∧ extract_bits (prog_jr (1 % MEM_SIZE)) 13 15 = 0 ∧
    extract_bits (prog_jr (1 % MEM_SIZE)) 0 3 = 8 ∧
    ∃ r, execute_instruction 1 prog_jr regs_m64 = some r ∧ r.next_pc = 0x1FC0 ∧
      r.registers = regs_m64 ∧ r.memory = prog_jr := by
  refine ⟨rfl, by decide, by decide, ?_⟩
  obtain ⟨r, hr, _, hn, hreg, hmem⟩ := C21_jr 1 prog_jr regs_m64 rfl (by decide) (by decide)
  exact ⟨r, hr, hn, hreg, hmem⟩

/-! ## C22: jump-register in the cache simulator -/

theorem one_cache_body_jr (l1 : level) (s : Sim1)
    (hop : (decode (s.memory (s.pc % 8192))).opcode = 0)
    (hf : (decode (s.memory (s.pc % 8192))).lsb = 8) :
    one_cache_body l1 s =
      { s with pc := s.regs (decode (s.memory (s.pc % 8192))).regA,
               regs := write s.regs 0 0 } := by
  simp [one_cache_body, hop, hf]

theorem two_cache_body_jr (l1 l2 : level) (s : Sim2)
    (hop : (decode (s.memory (s.pc % 8192))).opcode = 0)
    (hf : (decode (s.memory (s.pc % 8192))).lsb = 8) :
    two_cache_body l1 l2 s =
      { s with pc := s.regs (decode (s.memory (s.pc % 8192))).regA,
               regs := write s.regs 0 0 } := by
  simp [two_cache_body, hop, hf]

/-- C22 (counterexample): on `addi $1,$0,-64; jr $1` register 1 is 0xFFC0 and after the
`jr` the PC of both cache simulators is 0xFFC0 = 65472, not 0xFFC0 masked to 13 bits
(0x1FC0 = 8128), which is what e20sim's step returns. -/
theorem C22_jr_keeps_16_bits :
    ((one_cache_steps level_2_2_1 1 jr_start).regs 1,
      (one_cache_steps level_2_2_1 2 jr_start).pc) = (0xFFC0, 0xFFC0) ∧
    ((two_cache_steps level_2_2_1 level_2_2_1 1 jr_start2).regs 1,
      (two_cache_steps level_2_2_1 level_2_2_1 2 jr_start2).pc) = (0xFFC0, 0xFFC0) ∧
    (0xFFC0 : Nat) &&& 0x1FFF = 0x1FC0 ∧
    (execute_instruction 1 prog_jr regs_m64).map (fun r => r.next_pc) = some 0x1FC0 ∧
    ¬ (∀ (l1 : level) (s : Sim1),
        (decode (s.memory (s.pc % 8192))).opcode = 0 →
        (decode (s.memory (s.pc % 8192))).lsb = 8 →
        (one_cache_body l1 s).pc =
          s.regs (decode (s.memory (s.pc % 8192))).regA &&& 0x1FFF) := by
  refine ⟨rfl, rfl, by decide, rfl, ?_⟩
  intro h
  have h1 := h level_2_2_1 (one_cache_steps level_2_2_1 1 jr_start) (by decide) (by decide)
  exact absurd h1 (by decide)

/-- C22 (amended): in both cache simulators a class-0 instruction with function code 8
sets the PC to the source register's full 16-bit value, without masking, and changes
nothing else (register 0 is set to 0); the low 13 bits of that value are the index of
the next fetch. -/
theorem C22_jr_unmasked (l1 l2 : level) (s : Sim1) (t : Sim2)
    (hs : (decode (s.memory (s.pc % 8192))).opcode = 0 ∧
      (decode (s.memory (s.pc % 8192))).lsb = 8)
    (ht : (decode (t.memory (t.pc % 8192))).opcode = 0 ∧
      (decode (t.memory (t.pc % 8192))).lsb = 8) :
    one_cache_body l1 s =
      { s with pc := s.regs (decode (s.memory (s.pc % 8192))).regA,
               regs := write s.regs 0 0 } ∧
    two_cache_body l1 l2 t =
      { t with pc := t.regs (decode (t.memory (t.pc % 8192))).regA,
               regs := write t.regs 0 0 } ∧
    (one_cache_body l1 s).pc % 8192 =
      s.regs (decode (s.memory (s.pc % 8192))).regA &&& 0x1FFF ∧
    (two_cache_body l1 l2 t).pc % 8192 =
      t.regs (decode (t.memory (t.pc % 8192))).regA &&& 0x1FFF := by
  have e1 := one_cache_body_jr l1 s hs.1 hs.2
  have e2 := two_cache_body_jr l1 l2 t ht.1 ht.2
  refine ⟨e1, e2, ?_, ?_⟩
  · rw [e1, mask13_eq_mod']
  · rw [e2, mask13_eq_mod']

/-- C22 (witness): after the `addi` of `prog_jr`, the `jr $1` of the one-level and of the
two-level simulator sets the PC to 0xFFC0. -/
theorem C22_jr_unmasked_witness :
    (one_cache_body level_2_2_1 (one_cache_steps level_2_2_1 1 jr_start)).pc = 0xFFC0 ∧
    (two_cache_body level_2_2_1 level_2_2_1
      (two_cache_steps level_2_2_1 level_2_2_1 1 jr_start2)).pc = 0xFFC0 :=
  ⟨(congrArg Sim1.pc
      (C22_jr_unmasked level_2_2_1 level_2_2_1 (one_cache_steps level_2_2_1 1 jr_start)
        (two_cache_steps level_2_2_1 level_2_2_1 1 jr_start2)
        ⟨by decide, by decide⟩ ⟨by decide, by decide⟩).1).trans rfl,
   (congrArg Sim2.pc
      (C22_jr_unmasked level_2_2_1 level_2_2_1 (one_cache_steps level_2_2_1 1 jr_start)
        (two_cache_steps level_2_2_1 level_2_2_1 1 jr_start2)
        ⟨by decide, by decide⟩ ⟨by decide, by decide⟩).2.1).trans rfl⟩

/-! ## C23: unrecognised function codes -/

/-- The class-0 arm of `execute_instruction` for a function code outside 0..4 and 8:
nothing is written and next-PC is PC + 1. -/
theorem execute_unknown (pc : Nat) (memory registers : Nat → Nat)
    (hop : extract_bits (memory (pc % MEM_SIZE)) 13 15 = 0)
    (hf : 4 < extract_bits (memory (pc % MEM_SIZE)) 0 3)
    (h8 : extract_bits (memory (pc % MEM_SIZE)) 0 3 ≠ 8) :
    execute_instruction pc memory registers =
      some { next_pc := u16 (pc + 1), memory := memory, registers := write registers 0 0 } := by
  simp only [execute_instruction, execute_switch, hop, Option.map_some']
  generalize extract_bits (memory (pc % MEM_SIZE)) 0 3 = f at hf h8
  by_cases hd : extract_bits (memory (pc % MEM_SIZE)) 4 6 = 0
  · simp [hd, h8]
  · simp only [ne_eq, hd, not_false_eq_true, if_true, h8, if_false]
    split <;> first | omega | rfl

/-- C23 (counterexample): the word 0x0015 is a class-0 instruction with function code 5;
`execute_instruction` succeeds on it (next-PC 1, register 1 untouched), and the run of
`prog_unknown` goes on to the `j 1` and halts there instead of aborting. -/
theorem C23_unknown_function_code_succeeds :
    extract_bits 0x0015 13 15 = 0 ∧ extract_bits 0x0015 0 3 = 5 ∧
    (execute_instruction 0 prog_unknown regs_zero).map (fun r => (r.next_pc, r.registers 1)) =
      some (1, 0) ∧
    (simulate 2 0 prog_unknown regs_zero).map (fun s => (s.pc, s.halted)) = some (1, true) ∧
    ¬ (∀ (pc : Nat) (memory registers : Nat → Nat),
        extract_bits (memory (pc % MEM_SIZE)) 13 15 = 0 →
        4 < extract_bits (memory (pc % MEM_SIZE)) 0 3 →
        extract_bits (memory (pc % MEM_SIZE)) 0 3 ≠ 8 →
        execute_instruction pc memory registers = none) := by
  refine ⟨by decide, by decide, rfl, rfl, ?_⟩
  intro h
  have h1 := h 0 prog_unknown regs_zero (by decide) (by decide) (by decide)
  have h2 := execute_instruction_total 0 prog_unknown regs_zero
  rw [h1] at h2
  obtain ⟨r, hr⟩ := h2
  exact absurd hr (by simp)

/-- C23 (amended): for every instruction word the step `execute_instruction` succeeds and
produces a successor state (the fatal `default:` arm cannot be reached, the opcode class
being a 3-bit field); a class-0 instruction whose function code is not one of 0, 1, 2, 3,
4, 8 is executed as a no-op: memory is unchanged, no register is written except the reset
of register 0, and next-PC is PC + 1 as a 16-bit word. -/
theorem C23_step_never_fails (pc : Nat) (memory registers : Nat → Nat) :
    (∃ r, execute_instruction pc memory registers = some r) ∧
    extract_bits (memory (pc % MEM_SIZE)) 13 15 < 8 ∧
    (extract_bits (memory (pc % MEM_SIZE)) 13 15 = 0 →
      4 < extract_bits (memory (pc % MEM_SIZE)) 0 3 →
      extract_bits (memory (pc % MEM_SIZE)) 0 3 ≠ 8 →
      execute_instruction pc memory registers =
        some { next_pc := (pc + 1) % 65536, memory := memory,
               registers := write registers 0 0 }) :=
  ⟨execute_instruction_total pc memory registers, opcode_lt _,
    execute_unknown pc memory registers⟩

/-- C23 (witness): on the word 0x0015 at PC 0 of `prog_unknown` the step succeeds with
next-PC 1 and leaves memory and (apart from the reset of register 0) the registers. -/
theorem C23_step_never_fails_witness :
    execute_instruction 0 prog_unknown regs_zero =
      some { next_pc := (0 + 1) % 65536, memory := prog_unknown,
             registers := write regs_zero 0 0 } :=
  (C23_step_never_fails 0 prog_unknown regs_zero).2.2 (by decide) (by decide) (by decide)

/-! ## C24: the two loops agree -/

theorem one_cache_body_cache_other (l1 : level) (s : Sim1)
    (h4 : (decode (s.memory (s.pc % 8192))).opcode ≠ 4)
    (h5 : (decode (s.memory (s.pc % 8192))).opcode ≠ 5) :
    (one_cache_body l1 s).cache = s.cache := by
  simp only [one_cache_body]
  generalize decode (s.memory (s.pc % 8192)) = d at h4 h5
  split
  all_goals first | rfl | contradiction | (split <;> rfl)

theorem two_cache_body_caches_other (l1 l2 : level) (s : Sim2)
    (h4 : (decode (s.memory (s.pc % 8192))).opcode ≠ 4)
    (h5 : (decode (s.memory (s.pc % 8192))).opcode ≠ 5) :
    (two_cache_body l1 l2 s).l1_cache = s.l1_cache ∧
    (two_cache_body l1 l2 s).l2_cache = s.l2_cache := by
  simp only [two_cache_body]
  generalize decode (s.memory (s.pc % 8192)) = d at h4 h5
  split
  all_goals first | exact ⟨rfl, rfl⟩ | contradiction | (split <;> exact ⟨rfl, rfl⟩)

theorem l1_events_append (a b : List log_entry) :
    l1_events (a ++ b) = l1_events a ++ l1_events b := by
  simp [l1_events]

/-- One iteration of each loop keeps the two simulators in agreement. -/
theorem body_agree (l1 l2 : level) (s : Sim1) (t : Sim2) (h : agree s t) :
    agree (one_cache_body l1 s) (two_cache_body l1 l2 t) := by
  obtain ⟨ha, hc, hl⟩ := h
  have hm : s.memory = t.memory := congrArg Arch.memory ha
  have hr : s.regs = t.regs := congrArg Arch.regs ha
  have hp : s.pc = t.pc := congrArg Arch.pc ha
  refine ⟨one_two_arch l1 l1 l2 s t ha, ?_⟩
  by_cases h4 : (decode (t.memory (t.pc % 8192))).opcode = 4
  · have h4s : (decode (s.memory (s.pc % 8192))).opcode = 4 := by rw [hm, hp]; exact h4
    obtain ⟨_, _, _, _, e1, _, e3⟩ := two_cache_body_lw l1 l2 t h4
    rw [one_cache_body_lw l1 s h4s, e1, e3, l1_events_append, ← hl, hm, hr, hp, hc]
    refine ⟨rfl, ?_⟩
    simp only
    cases (load_level l1 t.l1_cache (access_addr t.memory t.regs t.pc)).1 <;>
      simp [l1_events]
  · by_cases h5 : (decode (t.memory (t.pc % 8192))).opcode = 5
    · have h5s : (decode (s.memory (s.pc % 8192))).opcode = 5 := by rw [hm, hp]; exact h5
      rw [one_cache_body_sw l1 s h5s, two_cache_body_sw l1 l2 t h5]
      simp only [l1_events_append, ← hl, hm, hr, hp, hc]
      simp [l1_events]
    · have h4s : (decode (s.memory (s.pc % 8192))).opcode ≠ 4 := by rw [hm, hp]; exact h4
      have h5s : (decode (s.memory (s.pc % 8192))).opcode ≠ 5 := by rw [hm, hp]; exact h5
      rw [one_cache_body_cache_other l1 s h4s h5s, one_cache_body_log_other l1 s h4s h5s,
        (two_cache_body_caches_other l1 l2 t h4 h5).1, two_cache_body_log_other l1 l2 t h4 h5]
      exact ⟨hc, hl⟩

theorem steps_agree (l1 l2 : level) (n : Nat) :
    ∀ (s : Sim1) (t : Sim2), agree s t →
      agree (one_cache_steps l1 n s) (two_cache_steps l1 l2 n t) := by
  induction n with
  | zero => intro s t h; exact h
  | succ n ih =>
    intro s t h
    have hh : s.halt = t.halt := congrArg Arch.halt h.1
    unfold one_cache_steps two_cache_steps
    by_cases hs : s.halt = true
    · have ht : t.halt = true := by rw [← hh]; exact hs
      simpa [hs, ht] using h
    · have ht : ¬ t.halt = true := by rw [← hh]; exact hs
      simp only [hs, ht, if_false]
      exact ih _ _ (body_agree l1 l2 s t h)

theorem loops_agree (l1 l2 : level) (fuel : Nat) :
    ∀ (s : Sim1) (t : Sim2), agree s t →
      (one_cache_loop l1 fuel s = none ↔ two_cache_loop l1 l2 fuel t = none) ∧
      ∀ s1 t1, one_cache_loop l1 fuel s = some s1 → two_cache_loop l1 l2 fuel t = some t1 →
        agree s1 t1 := by
  induction fuel with
  | zero =>
    intro s t h
    have hh : s.halt = t.halt := congrArg Arch.halt h.1
    unfold one_cache_loop two_cache_loop
    by_cases hs : s.halt = true
    · have ht : t.halt = true := by rw [← hh]; exact hs
      simp only [hs, ht, if_true]
      refine ⟨by simp, ?_⟩
      intro s1 t1 e1 e2
      simp only [Option.some.injEq] at e1 e2
      subst e1 e2
      exact h
    · have ht : ¬ t.halt = true := by rw [← hh]; exact hs
      simp [hs, ht]
  | succ n ih =>
    intro s t h
    have hh : s.halt = t.halt := congrArg Arch.halt h.1
    unfold one_cache_loop two_cache_loop
    by_cases hs : s.halt = true
    · have ht : t.halt = true := by rw [← hh]; exact hs
      simp only [hs, ht, if_true]
      refine ⟨by simp, ?_⟩
      intro s1 t1 e1 e2
      simp only [Option.some.injEq] at e1 e2
      subst e1 e2
      exact h
    · have ht : ¬ t.halt = true := by rw [← hh]; exact hs
      simp only [hs, ht, if_false]
      exact ih _ _ (body_agree l1 l2 s t h)

/-- C24: for every program image, register file, PC, L1 cache and L2 cache and every L1
and L2 configuration, `simulate_two_cache` run with (L1, L2) and `simulate_one_cache` run
with the same L1 agree after any number of loop iterations: same registers, memory, PC
and halt flag, same L1 cache, and the one-level log is the sequence of L1 events of the
two-level log; with the same fuel one run leaves its loop exactly when the other does,
and the final states agree; and one loop iteration keeps any two agreeing states in
agreement. -/
theorem C24_loops_agree (l1 l2 : level) (memory regs : Nat → Nat) (pc : Nat)
    (l1_cache l2_cache : List (List cache_cell)) :
    (∀ n, agree
      (one_cache_steps l1 n
        { memory := memory, regs := regs, pc := pc, cache := l1_cache, log := [],
          halt := false })
      (two_cache_steps l1 l2 n
        { memory := memory, regs := regs, pc := pc, l1_cache := l1_cache,
          l2_cache := l2_cache, log := [], halt := false })) ∧
    (∀ fuel,
      (simulate_one_cache fuel memory regs pc l1_cache l1 = none ↔
        simulate_two_cache fuel memory regs pc l1_cache l2_cache l1 l2 = none) ∧
      ∀ s1 t1, simulate_one_cache fuel memory regs pc l1_cache l1 = some s1 →
        simulate_two_cache fuel memory regs pc l1_cache l2_cache l1 l2 = some t1 →
        agree s1 t1) ∧
    (∀ (s : Sim1) (t : Sim2), agree s t →
      agree (one_cache_body l1 s) (two_cache_body l1 l2 t)) := by
  have h0 : agree
      { memory := memory, regs := regs, pc := pc, cache := l1_cache, log := [],
        halt := false }
      { memory := memory, regs := regs, pc := pc, l1_cache := l1_cache,
        l2_cache := l2_cache, log := [], halt := false } := ⟨rfl, rfl, rfl⟩
  refine ⟨fun n => steps_agree l1 l2 n _ _ h0, fun fuel => ?_, body_agree l1 l2⟩
  exact loops_agree l1 l2 fuel _ _ h0

/-- C24 (witness): on `prog_loads`, after four iterations under "2,2,1" and under
"2,2,1,2,2,1", the one-level log is the sequence of L1 events of the two-level log. -/
theorem C24_loops_agree_witness :
    (one_cache_steps level_2_2_1 4 loads_start).log =
      l1_events (two_cache_steps level_2_2_1 level_2_2_1 4 loads_start2).log :=
  ((C24_loops_agree level_2_2_1 level_2_2_1 prog_loads regs_zero 0 (init_cache 1 2)
    (init_cache 1 2)).1 4).2.2

/-! ## C25: cache indexing -/

theorem getElem_opt_eq_getD (set : List cache_cell) (i : Nat) (h : i < set.length) :
    set[i]? = some (set.getD i default) := by
  rw [List.getD_eq_getElem _ _ h, List.getElem?_eq_getElem h]

/-- With the scanned indices inside the set, the checked lw scan succeeds and is the
scan. -/
theorem lw_loop_chk_eq (tag : Int) (n : Nat) :
    ∀ (i : Nat) (set : List cache_cell) (lru : Nat) (lla : Int), i + n ≤ set.length →
      lw_loop_chk tag n i set lru lla = some (lw_loop tag n i set lru lla) := by
  induction n with
  | zero => intro i set lru lla _; rfl
  | succ n ih =>
    intro i set lru lla h
    have hi : i < set.length := by omega
    simp only [lw_loop_chk, lw_loop, getElem_opt_eq_getD set i hi]
    split
    · rfl
    · exact ih _ _ _ _ (by simp only [List.length_set]; omega)

/-- With the scanned indices inside the set, the checked sw scan succeeds and is the
scan. -/
theorem sw_loop_chk_eq (n : Nat) :
    ∀ (i : Nat) (set : List cache_cell) (lru : Nat) (lla : Int), i + n ≤ set.length →
      sw_loop_chk n i set lru lla = some (sw_loop n i set lru lla) := by
  induction n with
  | zero => intro i set lru lla _; rfl
  | succ n ih =>
    intro i set lru lla h
    have hi : i < set.length := by omega
    simp only [sw_loop_chk, sw_loop, getElem_opt_eq_getD set i hi]
    exact ih _ _ _ _ (by simp only [List.length_set]; omega)

/-- The lw scan keeps the number of lines, and its `lru` is an index of the set. -/
theorem lw_loop_bounds (tag : Int) (n : Nat) :
    ∀ (i : Nat) (set : List cache_cell) (lru : Nat) (lla : Int), i + n ≤ set.length →
      lru < set.length →
      (lw_loop tag n i set lru lla).set.length = set.length ∧
      (lw_loop tag n i set lru lla).lru < set.length := by
  induction n with
  | zero => intro i set lru lla _ hl; exact ⟨rfl, hl⟩
  | succ n ih =>
    intro i set lru lla h hl
    have hi : i < set.length := by omega
    simp only [lw_loop]
    split
    · exact ⟨by simp, hl⟩
    · have := ih (i + 1)
        (set.set i { set.getD i default with
          last_access := int32 ((set.getD i default).last_access + 1) })
        (if (set.getD i default).last_access > lla then i else lru)
        (if (set.getD i default).last_access > lla then (set.getD i default).last_access
          else lla)
        (by simp only [List.length_set]; omega)
        (by simp only [List.length_set]; split <;> assumption)
      simpa using this

/-- The sw scan keeps the number of lines, and its `lru` is an index of the set. -/
theorem sw_loop_bounds (n : Nat) :
    ∀ (i : Nat) (set : List cache_cell) (lru : Nat) (lla : Int), i + n ≤ set.length →
      lru < set.length →
      (sw_loop n i set lru lla).1.length = set.length ∧
      (sw_loop n i set lru lla).2 < set.length := by
  induction n with
  | zero => intro i set lru lla _ hl; exact ⟨rfl, hl⟩
  | succ n ih =>
    intro i set lru lla h hl
    have hi : i < set.length := by omega
    simp only [sw_loop]
    have := ih (i + 1)
      (set.set i { set.getD i default with
        last_access := int32 ((set.getD i default).last_access + 1) })
      (if (set.getD i default).last_access > lla then i else lru)
      (if (set.getD i default).last_access > lla then (set.getD i default).last_access
        else lla)
      (by simp only [List.length_set]; omega)
      (by simp only [List.length_set]; split <;> assumption)
    simpa using this

/-- Replacing one set by a set of the same length keeps the shape. -/
theorem cache_shape_set (l : level) (cache : List (List cache_cell)) (row : Nat)
    (set : List cache_cell) (hs : cache_shape l cache) (hset : set.length = l.assoc) :
    cache_shape l (cache.set row set) := by
  refine ⟨by simpa using hs.1, ?_⟩
  intro x hx
  rcases List.mem_or_eq_of_mem_set hx with hx | hx
  · exact hs.2 x hx
  · rw [hx]; exact hset

/-- A load that hits found a first valid line with the tag. -/
theorem lw_set_hit_index (tag : Int) (set : List cache_cell)
    (h : (lw_set tag set.length set).1 = true) : ∃ i, first_hit tag set i := by
  rcases lw_set_cases tag set with ⟨_, v, hv⟩ | ⟨mid, c, post, heq, hmid, hcv, hct, _⟩
  · rw [hv] at h; cases h
  · refine ⟨mid.length, ?_, ?_, ?_, ?_⟩
    · rw [heq]; simp
    · rw [heq, getD_append_mid]; exact hcv
    · rw [heq, getD_append_mid]; exact hct
    · intro j hj
      have hm : (set.getD j default) ∈ mid := by
        rw [heq, List.getD_append _ _ _ _ hj]
        rw [List.getD_eq_getElem _ _ hj]
        exact List.getElem_mem hj
      exact hmid _ hm

theorem load_level_chk_eq (l : level) (cache : List (List cache_cell)) (addr : Nat)
    (hb : 1 ≤ l.blocksize) (ha : 1 ≤ l.assoc) (hr : 1 ≤ l.rows) (hs : cache_shape l cache) :
    load_level_chk l cache addr = some (load_level l cache addr) := by
  have hrow : block_row l addr < cache.length := by
    rw [hs.1]; exact Nat.mod_lt _ hr
  have hl := hs.2 _ (cache_getD_mem cache _ hrow)
  have hget : cache[block_row l addr]? = some (cache.getD (block_row l addr) []) := by
    rw [List.getD_eq_getElem _ _ hrow, List.getElem?_eq_getElem hrow]
  have hbd := lw_loop_bounds (block_tag l addr) l.assoc 0 (cache.getD (block_row l addr) [])
    0 0 (by omega) (by omega)
  have hchk := lw_loop_chk_eq (block_tag l addr) l.assoc 0 (cache.getD (block_row l addr) [])
    0 0 (by omega)
  simp only [load_level_chk, Nat.pos_iff_ne_zero.mp hb, Nat.pos_iff_ne_zero.mp hr, if_false,
    hget, hchk, load_level, lw_set]
  split
  · rfl
  · rw [if_pos (by rw [hbd.1]; exact hbd.2)]

theorem store_level_chk_eq (l : level) (cache : List (List cache_cell)) (addr : Nat)
    (hb : 1 ≤ l.blocksize) (ha : 1 ≤ l.assoc) (hr : 1 ≤ l.rows) (hs : cache_shape l cache) :
    store_level_chk l cache addr = some (store_level l cache addr) := by
  have hrow : block_row l addr < cache.length := by
    rw [hs.1]; exact Nat.mod_lt _ hr
  have hl := hs.2 _ (cache_getD_mem cache _ hrow)
  have hget : cache[block_row l addr]? = some (cache.getD (block_row l addr) []) := by
    rw [List.getD_eq_getElem _ _ hrow, List.getElem?_eq_getElem hrow]
  have hbd := sw_loop_bounds l.assoc 0 (cache.getD (block_row l addr) [])
    0 0 (by omega) (by omega)
  have hchk := sw_loop_chk_eq l.assoc 0 (cache.getD (block_row l addr) []) 0 0 (by omega)
  simp only [store_level_chk, Nat.pos_iff_ne_zero.mp hb, Nat.pos_iff_ne_zero.mp hr, if_false,
    hget, hchk, store_level, sw_set]
  rw [if_pos (by rw [hbd.1]; exact hbd.2)]

theorem load_level_shape (l : level) (cache : List (List cache_cell)) (addr : Nat)
    (ha : 1 ≤ l.assoc) (hr : 1 ≤ l.rows) (hs : cache_shape l cache) :
    cache_shape l (load_level l cache addr).2 := by
  have hrow : block_row l addr < cache.length := by
    rw [hs.1]; exact Nat.mod_lt _ hr
  have hl := hs.2 _ (cache_getD_mem cache _ hrow)
  have hbd := lw_loop_bounds (block_tag l addr) l.assoc 0 (cache.getD (block_row l addr) [])
    0 0 (by omega) (by omega)
  apply cache_shape_set l cache _ _ hs
  simp only [lw_set]
  split
  · rw [hbd.1, hl]
  · simp only [install, List.length_set]; rw [hbd.1, hl]

theorem store_level_shape (l : level) (cache : List (List cache_cell)) (addr : Nat)
    (ha : 1 ≤ l.assoc) (hr : 1 ≤ l.rows) (hs : cache_shape l cache) :
    cache_shape l (store_level l cache addr) := by
  have hrow : block_row l addr < cache.length := by
    rw [hs.1]; exact Nat.mod_lt _ hr
  have hl := hs.2 _ (cache_getD_mem cache _ hrow)
  have hbd := sw_loop_bounds l.assoc 0 (cache.getD (block_row l addr) [])
    0 0 (by omega) (by omega)
  apply cache_shape_set l cache _ _ hs
  simp only [sw_set, install, List.length_set]
  rw [hbd.1, hl]

/-- The shape of the cache survives one iteration of the one-cache loop. -/
theorem one_cache_body_shape (l1 : level) (s : Sim1) (ha : 1 ≤ l1.assoc) (hr : 1 ≤ l1.rows)
    (hs : cache_shape l1 s.cache) : cache_shape l1 (one_cache_body l1 s).cache := by
  by_cases h4 : (decode (s.memory (s.pc % 8192))).opcode = 4
  · rw [one_cache_body_lw l1 s h4]
    exact load_level_shape l1 s.cache _ ha hr hs
  · by_cases h5 : (decode (s.memory (s.pc % 8192))).opcode = 5
    · rw [one_cache_body_sw l1 s h5]
      exact store_level_shape l1 s.cache _ ha hr hs
    · rw [one_cache_body_cache_other l1 s h4 h5]
      exact hs

/-- C25: for a level with block size, associativity and row count all at least 1, a cache
of `rows` sets of `assoc` lines and an address below 8192: the two divisors are non-zero,
the row is below the row count, a hit happens at a line index below the associativity,
the victim index of a load and of a store is below the associativity, the access-checked
load and store (which fail on any out-of-range `cache[row][i]` or zero divisor) succeed
with the result of the load and store, and the shape of the cache is unchanged by a load,
by a store, and by an iteration of the simulator loop. -/
theorem C25_indexing_safe (l : level) (cache : List (List cache_cell)) (addr : Nat)
    (hb : 1 ≤ l.blocksize) (ha : 1 ≤ l.assoc) (hr : 1 ≤ l.rows) (hs : cache_shape l cache)
    (_haddr : addr < 8192) :
    l.blocksize ≠ 0 ∧ l.rows ≠ 0 ∧
    block_row l addr < l.rows ∧ block_row l addr < cache.length ∧
    ((load_level l cache addr).1 = true →
      ∃ i, i < l.assoc ∧
        first_hit (block_tag l addr) (cache.getD (block_row l addr) []) i) ∧
    (lw_loop (block_tag l addr) l.assoc 0 (cache.getD (block_row l addr) []) 0 0).lru
      < l.assoc ∧
    (sw_loop l.assoc 0 (cache.getD (block_row l addr) []) 0 0).2 < l.assoc ∧
    load_level_chk l cache addr = some (load_level l cache addr) ∧
    store_level_chk l cache addr = some (store_level l cache addr) ∧
    cache_shape l (load_level l cache addr).2 ∧
    cache_shape l (store_level l cache addr) ∧
    (∀ s : Sim1, s.cache = cache → cache_shape l (one_cache_body l s).cache) := by
  have hrow : block_row l addr < cache.length := by
    rw [hs.1]; exact Nat.mod_lt _ hr
  have hl := hs.2 _ (cache_getD_mem cache _ hrow)
  have hlw := lw_loop_bounds (block_tag l addr) l.assoc 0 (cache.getD (block_row l addr) [])
    0 0 (by omega) (by omega)
  have hsw := sw_loop_bounds l.assoc 0 (cache.getD (block_row l addr) [])
    0 0 (by omega) (by omega)
  refine ⟨by omega, by omega, Nat.mod_lt _ hr, hrow, ?_, lt_of_lt_of_eq hlw.2 hl,
    lt_of_lt_of_eq hsw.2 hl, load_level_chk_eq l cache addr hb ha hr hs,
    store_level_chk_eq l cache addr hb ha hr hs, load_level_shape l cache addr ha hr hs,
    store_level_shape l cache addr ha hr hs, ?_⟩
  · intro hhit
    simp only [load_level] at hhit
    rw [← hl] at hhit
    obtain ⟨i, hi⟩ := lw_set_hit_index _ _ hhit
    exact ⟨i, by rw [← hl]; exact hi.1, hi⟩
  · intro s hsc
    exact one_cache_body_shape l s ha hr (by rw [hsc]; exact hs)

/-- C25 (witness): the geometry "2,2,1" with its initial cache and address 1. -/
theorem C25_indexing_safe_witness :
    (1 ≤ level_2_2_1.blocksize ∧ 1 ≤ level_2_2_1.assoc ∧ 1 ≤ level_2_2_1.rows ∧
      cache_shape level_2_2_1 (init_cache 1 2) ∧ 1 < 8192) ∧
    load_level_chk level_2_2_1 (init_cache 1 2) 1 =
      some (load_level level_2_2_1 (init_cache 1 2) 1) ∧
    store_level_chk level_2_2_1 (init_cache 1 2) 1 =
      some (store_level level_2_2_1 (init_cache 1 2) 1) :=
  ⟨⟨by decide, by decide, by decide, ⟨rfl, by decide⟩, by decide⟩,
   (C25_indexing_safe level_2_2_1 (init_cache 1 2) 1 (by decide) (by decide) (by decide)
      ⟨rfl, by decide⟩ (by decide)).2.2.2.2.2.2.2.1,
   (C25_indexing_safe level_2_2_1 (init_cache 1 2) 1 (by decide) (by decide) (by decide)
      ⟨rfl, by decide⟩ (by decide)).2.2.2.2.2.2.2.2.1⟩

/-! ## C26: re-access hits -/

/-- Installing at an index of the set leaves a valid line with the tag in the set. -/
theorem install_holds (set : List cache_cell) (v : Nat) (tag : Int) (hv : v < set.length) :
    ∃ c ∈ install set v tag, c.valid = true ∧ c.tag = tag := by
  refine ⟨{ valid := true, tag := tag, last_access := 0 }, ?_, rfl, rfl⟩
  simp only [install]
  exact List.mem_iff_getElem.mpr ⟨v, by simpa using hv, by simp⟩

/-- After the read resolution the set holds a valid line with the tag. -/
theorem lw_set_holds (tag : Int) (set : List cache_cell) (hpos : 0 < set.length) :
    ∃ c ∈ (lw_set tag set.length set).2, c.valid = true ∧ c.tag = tag := by
  rcases lw_set_cases tag set with ⟨hno, _⟩ | ⟨mid, h, post, _, _, hcv, hct, hres⟩
  · have hl := lw_loop_miss tag set [] 0 0 hno
    simp only [List.nil_append, List.length_nil] at hl
    have hbd := sw_loop_bounds set.length 0 set 0 0 (by omega) hpos
    simp only [lw_set, hl]
    exact install_holds _ _ tag (by rw [hbd.1]; exact hbd.2)
  · rw [hres]
    exact ⟨{ h with last_access := 0 }, by simp, hcv, hct⟩

/-- After the write resolution the set holds a valid line with the tag. -/
theorem sw_set_holds (tag : Int) (set : List cache_cell) (hpos : 0 < set.length) :
    ∃ c ∈ sw_set tag set.length set, c.valid = true ∧ c.tag = tag := by
  have hbd := sw_loop_bounds set.length 0 set 0 0 (by omega) hpos
  simp only [sw_set]
  exact install_holds _ _ tag (by rw [hbd.1]; exact hbd.2)

/-- A load whose tag is held by a valid line of the set hits. -/
theorem lw_set_hits (tag : Int) (set : List cache_cell)
    (h : ∃ c ∈ set, c.valid = true ∧ c.tag = tag) :
    (lw_set tag set.length set).1 = true := by
  obtain ⟨c, hc, hcv⟩ := h
  rcases lw_set_cases tag set with ⟨hno, _⟩ | ⟨_, _, _, _, _, _, _, hres⟩
  · exact absurd hcv (hno c hc)
  · rw [hres]

/-- Addresses of one block have the same row and the same tag. -/
theorem same_block (l : level) (a b : Nat) (h : b / l.blocksize = a / l.blocksize) :
    block_row l b = block_row l a ∧ block_tag l b = block_tag l a := by
  simp only [block_row, block_tag, h, and_self]

/-- A load of the block just loaded hits. -/
theorem reload_hits (l : level) (cache : List (List cache_cell)) (a b : Nat)
    (ha : 1 ≤ l.assoc) (hr : 1 ≤ l.rows) (hs : cache_shape l cache)
    (hblock : b / l.blocksize = a / l.blocksize) :
    (load_level l (load_level l cache a).2 b).1 = true := by
  obtain ⟨hrow, htag⟩ := same_block l a b hblock
  have hlt : block_row l a < cache.length := by
    rw [hs.1]; exact Nat.mod_lt _ hr
  have hl := hs.2 _ (cache_getD_mem cache _ hlt)
  have hsh := load_level_shape l cache a ha hr hs
  have hlt2 : block_row l a < (load_level l cache a).2.length := by
    rw [hsh.1]; exact Nat.mod_lt _ hr
  have hl2 := hsh.2 _ (cache_getD_mem _ _ hlt2)
  have hholds := lw_set_holds (block_tag l a) (cache.getD (block_row l a) []) (by omega)
  rw [hl] at hholds
  have hget : (load_level l cache a).2.getD (block_row l a) [] =
      (lw_set (block_tag l a) l.assoc (cache.getD (block_row l a) [])).2 := by
    simp only [load_level, getD_set_self _ _ _ hlt]
  rw [← hget] at hholds
  have := lw_set_hits (block_tag l a) _ hholds
  rw [hl2] at this
  simp only [load_level, hrow, htag]
  exact this

/-- A load of the block just stored hits. -/
theorem load_after_store_hits (l : level) (cache : List (List cache_cell)) (a b : Nat)
    (ha : 1 ≤ l.assoc) (hr : 1 ≤ l.rows) (hs : cache_shape l cache)
    (hblock : b / l.blocksize = a / l.blocksize) :
    (load_level l (store_level l cache a) b).1 = true := by
  obtain ⟨hrow, htag⟩ := same_block l a b hblock
  have hlt : block_row l a < cache.length := by
    rw [hs.1]; exact Nat.mod_lt _ hr
  have hl := hs.2 _ (cache_getD_mem cache _ hlt)
  have hsh := store_level_shape l cache a ha hr hs
  have hlt2 : block_row l a < (store_level l cache a).length := by
    rw [hsh.1]; exact Nat.mod_lt _ hr
  have hl2 := hsh.2 _ (cache_getD_mem _ _ hlt2)
  have hholds := sw_set_holds (block_tag l a) (cache.getD (block_row l a) []) (by omega)
  rw [hl] at hholds
  have hget : (store_level l cache a).getD (block_row l a) [] =
      sw_set (block_tag l a) l.assoc (cache.getD (block_row l a) []) := by
    simp only [store_level, getD_set_self _ _ _ hlt]
  rw [← hget] at hholds
  have := lw_set_hits (block_tag l a) _ hholds
  rw [hl2] at this
  simp only [load_level, hrow, htag]
  exact this

/-- C26: for block size, associativity and row count at least 1, a cache of `rows` sets of
`assoc` lines, and addresses `a`, `b` of one block (`b / blocksize = a / blocksize`): `a`
and `b` have the same row and tag; the load of `b` right after a load of `a`, and right
after a store of `a`, hits; and in the simulator, when an `lw` or `sw` of `a` is followed
by an `lw` of `b`, the second iteration appends the entry L1 HIT to the log. -/
theorem C26_reaccess_hits (l : level) (cache : List (List cache_cell)) (a b : Nat)
    (_hb : 1 ≤ l.blocksize) (ha : 1 ≤ l.assoc) (hr : 1 ≤ l.rows) (hs : cache_shape l cache)
    (hblock : b / l.blocksize = a / l.blocksize) :
    block_row l b = block_row l a ∧ block_tag l b = block_tag l a ∧
    (load_level l (load_level l cache a).2 b).1 = true ∧
    (load_level l (store_level l cache a) b).1 = true ∧
    (∀ s : Sim1, s.cache = cache →
      ((decode (s.memory (s.pc % 8192))).opcode = 4 ∨
        (decode (s.memory (s.pc % 8192))).opcode = 5) →
      access_addr s.memory s.regs s.pc = a →
      (decode ((one_cache_body l s).memory ((one_cache_body l s).pc % 8192))).opcode = 4 →
      access_addr (one_cache_body l s).memory (one_cache_body l s).regs
        (one_cache_body l s).pc = b →
      (one_cache_body l (one_cache_body l s)).log = (one_cache_body l s).log ++
        [{ name := .L1, kind := .HIT, pc := (one_cache_body l s).pc, addr := b,
           row := block_row l b }]) := by
  have h1 := reload_hits l cache a b ha hr hs hblock
  have h2 := load_after_store_hits l cache a b ha hr hs hblock
  refine ⟨(same_block l a b hblock).1, (same_block l a b hblock).2, h1, h2, ?_⟩
  intro s hc hop haddr hop2 hb2
  have hhit : (load_level l (one_cache_body l s).cache b).1 = true := by
    rcases hop with h4 | h5
    · have hc1 : (one_cache_body l s).cache = (load_level l cache a).2 := by
        rw [one_cache_body_lw l s h4, hc, haddr]
      rw [hc1]; exact h1
    · have hc1 : (one_cache_body l s).cache = store_level l cache a := by
        rw [one_cache_body_sw l s h5, hc, haddr]
      rw [hc1]; exact h2
  generalize one_cache_body l s = s1 at hop2 hb2 hhit ⊢
  rw [one_cache_body_lw l s1 hop2, hb2]
  simp only [hhit, if_true]

/-- C26 (witness): under "4,1,2", a store to address 4 followed by a load of address 5,
both in block 2: the run of `prog_reaccess` logs L1 SW, then L1 HIT. -/
theorem C26_reaccess_hits_witness :
    (1 ≤ level_4_1_2.blocksize ∧ 1 ≤ level_4_1_2.assoc ∧ 1 ≤ level_4_1_2.rows ∧
      cache_shape level_4_1_2 (init_cache 2 1) ∧
      5 / level_4_1_2.blocksize = 4 / level_4_1_2.blocksize) ∧
    (simulate_one_cache 3 prog_reaccess regs_zero 0 (init_cache 2 1) level_4_1_2).map
        (fun s => s.log) =
      some [{ name := .L1, kind := .SW, pc := 0, addr := 4, row := 0 },
            { name := .L1, kind := .HIT, pc := 1, addr := 5, row := 0 }] ∧
    (load_level level_4_1_2 (load_level level_4_1_2 (init_cache 2 1) 4).2 5).1 = true ∧
    (load_level level_4_1_2 (store_level level_4_1_2 (init_cache 2 1) 4) 5).1 = true :=
  ⟨⟨by decide, by decide, by decide, ⟨rfl, by decide⟩, by decide⟩, rfl,
   (C26_reaccess_hits level_4_1_2 (init_cache 2 1) 4 5 (by decide) (by decide) (by decide)
      ⟨rfl, by decide⟩ (by decide)).2.2.1,
   (C26_reaccess_hits level_4_1_2 (init_cache 2 1) 4 5 (by decide) (by decide) (by decide)
      ⟨rfl, by decide⟩ (by decide)).2.2.2.1⟩

/-! ## C27: filling the empty lines -/

/-- C27 (evaluation at the failing input): under "3,3,1", from the freshly initialised
cache, the loads of addresses 0, 0, 1, 1 leave the set with tag 0 at recency 2, tag 1 at
recency 0 and an invalid third line at recency 2 (the two hits did not age it).  The load
of address 2 misses; its scan selects line 0 as victim, so the valid tag 0 is overwritten
by tag 2 while line 2 stays invalid. -/
theorem C27_valid_line_evicted_before_fill :
    level_3_3_1.rows = 1 ∧
    (one_cache_steps level_3_3_1 4 fill_start).cache =
      [[{ valid := true, tag := 0, last_access := 2 },
        { valid := true, tag := 1, last_access := 0 },
        { valid := false, tag := 0, last_access := 2 }]] ∧
    (decode ((one_cache_steps level_3_3_1 4 fill_start).memory
      ((one_cache_steps level_3_3_1 4 fill_start).pc % 8192))).opcode = 4 ∧
    access_addr (one_cache_steps level_3_3_1 4 fill_start).memory
      (one_cache_steps level_3_3_1 4 fill_start).regs
      (one_cache_steps level_3_3_1 4 fill_start).pc = 2 ∧
    block_row level_3_3_1 2 = 0 ∧ block_tag level_3_3_1 2 = 2 ∧
    (lw_loop 2 3 0
      [{ valid := true, tag := 0, last_access := 2 },
       { valid := true, tag := 1, last_access := 0 },
       { valid := false, tag := 0, last_access := 2 }] 0 0).hit = false ∧
    (lw_loop 2 3 0
      [{ valid := true, tag := 0, last_access := 2 },
       { valid := true, tag := 1, last_access := 0 },
       { valid := false, tag := 0, last_access := 2 }] 0 0).lru = 0 ∧
    (one_cache_steps level_3_3_1 5 fill_start).cache =
      [[{ valid := true, tag := 2, last_access := 0 },
        { valid := true, tag := 1, last_access := 1 },
        { valid := false, tag := 0, last_access := 3 }]] ∧
    (simulate_one_cache 6 prog_fill regs_zero 0 (init_cache 1 3) level_3_3_1).map
        (fun s => s.log) =
      some [{ name := .L1, kind := .MISS, pc := 0, addr := 0, row := 0 },
            { name := .L1, kind := .HIT, pc := 1, addr := 0, row := 0 },
            { name := .L1, kind := .MISS, pc := 2, addr := 1, row := 0 },
            { name := .L1, kind := .HIT, pc := 3, addr := 1, row := 0 },
            { name := .L1, kind := .MISS, pc := 4, addr := 2, row := 0 }] := by
  refine ⟨?_, ?_, ?_, ?_, ?_, ?_, ?_, ?_, ?_, ?_⟩ <;> rfl

end E20
